import Mathlib

/-! # SearchBox extractor (`src/extractor/src/main.cpp`): ZIM pipeline

A shallow embedding of the ZIM processing pipeline of the extractor:
the thumbnail size computation of `generate_thumbnails` and
`generate_svg_thumbnails`, the `BoundedQueue` class and the per-article
worker of `process_zim`, with the helpers `gumbo_find_img_srcs`,
`json_escape` and `sanitize_filename`, followed by the properties proved
about them.

Conventions.

* A C++ `std::string` is a `List Char`; where the bytes matter
  (`json_escape`) a byte is a character with a code below 256.
* A C++ `float` / `double` value that is finite and non-negative is a
  `Flt`: a significand `m` and an exponent `e` standing for `m * 2 ^ e`.
  Every arithmetic operation is rounded once, to nearest with ties to
  even, to `p` significant bits (`p = 24` for `float`, `p = 53` for
  `double`), as IEEE-754 arithmetic does on the targets the program is
  built for.  The exponent is unbounded: overflow and underflow, which
  the raster size computation cannot reach for `int` dimensions, are not
  modelled, and neither are infinities and NaN.
* Library calls whose code is not part of the program (the HTML parser,
  the archive, the image codecs, the file system) are fields of an
  environment record.
-/

namespace SearchBox

/-! ## Binary floating point -/

/-- A finite non-negative binary floating-point value `m * 2 ^ e`. -/
structure Flt where
  m : ℕ
  e : ℤ
  deriving DecidableEq

/-- Nearest natural number to `n / d`, ties to the even one. -/
def roundNearestEven (n d : ℕ) : ℕ :=
  if 2 * (n % d) < d then n / d
  else if d < 2 * (n % d) then n / d + 1
  else if n / d % 2 = 0 then n / d else n / d + 1

/-- Position of the highest set bit of `n`, by repeated halving; a `fuel` of
at least `n` is enough. -/
def log2Fuel : ℕ → ℕ → ℕ
  | 0, _ => 0
  | fuel + 1, n => if n < 2 then 0 else log2Fuel fuel (n / 2) + 1

/-- The integer `k` with `2 ^ k ≤ n / d < 2 ^ (k + 1)`, for positive `n`, `d`. -/
def floorLog2 (n d : ℕ) : ℤ :=
  let k : ℤ := (log2Fuel n n : ℤ) - (log2Fuel d d : ℤ)
  if d * 2 ^ k.toNat ≤ n * 2 ^ (-k).toNat then k else k - 1

/-- The fraction `n / d` rounded to `p` significant bits (nearest, ties to even). -/
def Flt.round (p : ℕ) (n d : ℕ) : Flt :=
  if n = 0 then ⟨0, 0⟩
  else
    let s : ℤ := floorLog2 n d + 1 - (p : ℤ)
    if 0 ≤ s then ⟨roundNearestEven n (d * 2 ^ s.toNat), s⟩
    else ⟨roundNearestEven (n * 2 ^ (-s).toNat) d, s⟩

/-- The rational number a floating-point value stands for. -/
def Flt.toRat (x : Flt) : ℚ := (x.m : ℚ) * (2 : ℚ) ^ x.e

/-- Conversion of a non-negative integer to floating point: `(float)n`. -/
def Flt.ofNat (p : ℕ) (n : ℕ) : Flt := Flt.round p n 1

/-- Floating-point division `x / y`. -/
def Flt.div (p : ℕ) (x y : Flt) : Flt :=
  Flt.round p (x.m * 2 ^ (x.e - y.e).toNat) (y.m * 2 ^ (y.e - x.e).toNat)

/-- Floating-point multiplication `x * y`. -/
def Flt.mul (p : ℕ) (x y : Flt) : Flt :=
  Flt.round p (x.m * y.m * 2 ^ (x.e + y.e).toNat) (2 ^ (-(x.e + y.e)).toNat)

/-- Comparison `x < y` of two floating-point values. -/
def Flt.lt (x y : Flt) : Bool :=
  decide (x.m * 2 ^ (x.e - y.e).toNat < y.m * 2 ^ (y.e - x.e).toNat)

/-- Comparison `x <= y` of two floating-point values. -/
def Flt.le (x y : Flt) : Bool :=
  decide (x.m * 2 ^ (x.e - y.e).toNat ≤ y.m * 2 ^ (y.e - x.e).toNat)

/-- The function `std::min(a, b)`: `b` if `b < a`, else `a`. -/
def Flt.min (a b : Flt) : Flt := if Flt.lt b a then b else a

/-- Conversion to `int`, which truncates: `(int)x`. -/
def Flt.toInt (x : Flt) : ℕ :=
  if 0 ≤ x.e then x.m * 2 ^ x.e.toNat else x.m / 2 ^ (-x.e).toNat

/-! ## Thumbnail sizes -/

/-- The `max_dim` column of the `sizes` table: large, medium, small, modal. -/
def thumb_sizes : List ℕ := [150, 300, 100, 800]

/-- The size `(tw, th)` that the loop body of `generate_thumbnails` computes
for a decoded source of `w` by `h` pixels and a box of `max_dim` pixels. -/
def generate_thumbnails_fit (w h max_dim : ℕ) : ℕ × ℕ :=
  if w ≤ max_dim ∧ h ≤ max_dim then (w, h)
  else
    let scale := Flt.min (Flt.div 24 (Flt.ofNat 24 max_dim) (Flt.ofNat 24 w))
      (Flt.div 24 (Flt.ofNat 24 max_dim) (Flt.ofNat 24 h))
    (max 1 (Flt.toInt (Flt.mul 24 (Flt.ofNat 24 w) scale)),
     max 1 (Flt.toInt (Flt.mul 24 (Flt.ofNat 24 h) scale)))

/-- The size `(tw, th)` that the loop body of `generate_svg_thumbnails`
computes for intrinsic dimensions `svg_w`, `svg_h` (of type `double`) and a
box of `max_dim` pixels. -/
def generate_svg_thumbnails_fit (svg_w svg_h : Flt) (max_dim : ℕ) : ℕ × ℕ :=
  if Flt.le svg_w (Flt.ofNat 53 max_dim) ∧ Flt.le svg_h (Flt.ofNat 53 max_dim) then
    (Flt.toInt svg_w, Flt.toInt svg_h)
  else
    let scale := Flt.min (Flt.div 53 (Flt.ofNat 53 max_dim) svg_w)
      (Flt.div 53 (Flt.ofNat 53 max_dim) svg_h)
    (max 1 (Flt.toInt (Flt.mul 53 svg_w scale)),
     max 1 (Flt.toInt (Flt.mul 53 svg_h scale)))

/-! ## Strings -/

/-- A C++ `std::string`: the list of its `char`s. -/
abbrev Str := List Char

/-- The test `s.find(pat) != std::string::npos`: `pat` occurs in `s`. -/
def str_contains (s pat : Str) : Bool := decide (pat <:+: s)

/-- The function `std::to_string` on a non-negative `int`. -/
def to_string (n : ℕ) : Str := (Nat.repr n).toList

/-! ## The bounded queue -/

/-- The class `BoundedQueue<T>`: the queued items (front first), the capacity
and the `done_` flag.  The mutex makes every method body atomic, so a state of
the queue is just these three fields. -/
structure BoundedQueue (T : Type) where
  q_ : List T
  capacity_ : ℕ
  done_ : Bool

/-- The constructor `BoundedQueue(cap)`. -/
def BoundedQueue.init {T : Type} (cap : ℕ) : BoundedQueue T := ⟨[], cap, false⟩

/-- The method `push`.  It waits until `q_.size() < capacity_ || done_`; while
that is false the call has not completed and the result is `none`.  Otherwise
it returns `false` when `done_` is set and else appends the item and returns
`true`. -/
def BoundedQueue.push {T : Type} (s : BoundedQueue T) (item : T) :
    Option (Bool × BoundedQueue T) :=
  if s.q_.length < s.capacity_ ∨ s.done_ = true then
    if s.done_ = true then some (false, s)
    else some (true, { s with q_ := s.q_ ++ [item] })
  else none

/-- The method `pop`.  It waits until `!q_.empty() || done_`; while that is
false the result is `none`.  Otherwise it returns `false` (here: no item) on
an empty queue and else removes and returns the front item. -/
def BoundedQueue.pop {T : Type} (s : BoundedQueue T) :
    Option (Option T × BoundedQueue T) :=
  if s.q_.isEmpty = false ∨ s.done_ = true then
    match s.q_ with
    | [] => some (none, s)
    | item :: rest => some (some item, { s with q_ := rest })
  else none

/-- The method `finish`. -/
def BoundedQueue.finish {T : Type} (s : BoundedQueue T) : BoundedQueue T :=
  { s with done_ := true }

/-- A call on the queue made by some thread. -/
inductive QueueOp (T : Type) where
  | push (item : T)
  | pop
  | finish

/-- The effect of one call on the queue; a call that is still waiting leaves
the queue as it is. -/
def BoundedQueue.step {T : Type} (s : BoundedQueue T) : QueueOp T → BoundedQueue T
  | .push item => match s.push item with
    | some (_, s') => s'
    | none => s
  | .pop => match s.pop with
    | some (_, s') => s'
    | none => s
  | .finish => s.finish

/-- The queue after a sequence of calls, in the order the mutex serialises them. -/
def BoundedQueue.run {T : Type} (s : BoundedQueue T) (ops : List (QueueOp T)) :
    BoundedQueue T :=
  ops.foldl BoundedQueue.step s

/-- The results of `n` successive `pop` calls (`none`: still waiting,
`some none`: returned `false`, `some (some x)`: returned `true` with item `x`)
and the queue after them. -/
def BoundedQueue.popN {T : Type} : ℕ → BoundedQueue T →
    List (Option (Option T)) × BoundedQueue T
  | 0, s => ([], s)
  | n + 1, s => match s.pop with
    | none => let r := BoundedQueue.popN n s; (none :: r.1, r.2)
    | some (x, s') => let r := BoundedQueue.popN n s'; (some x :: r.1, r.2)

/-! ## The HTML parse tree (Gumbo) -/

/-- The tags the program tests for; every other tag is `OTHER`. -/
inductive GumboTag where
  | IMG | SCRIPT | STYLE | P | DIV | H1 | H2 | H3 | H4 | H5 | H6 | TR | LI | BR
  | BLOCKQUOTE | ARTICLE | SECTION | HEADER | FOOTER | TD | TH | OTHER
  deriving DecidableEq

/-- A node of the parse tree: an element with its tag, attributes (name,
value) and children, a text node, a whitespace node, or a node of another
type (document, CDATA, comment, template). -/
inductive GumboNode where
  | element (tag : GumboTag) (attributes : List (Str × Str)) (children : List GumboNode)
  | text (text : Str)
  | whitespace (text : Str)
  | other

mutual
/-- Number of nodes of a tree. -/
def GumboNode.count : GumboNode → ℕ
  | .element _ _ children => GumboNode.countList children + 1
  | .text _ => 1
  | .whitespace _ => 1
  | .other => 1
/-- Number of nodes of a list of trees. -/
def GumboNode.countList : List GumboNode → ℕ
  | [] => 0
  | n :: ns => GumboNode.count n + GumboNode.countList ns
end

/-- The whitespace `gumbo_extract_text_recursive` emits after an element. -/
def block_suffix : GumboTag → Str
  | .P | .DIV | .H1 | .H2 | .H3 | .H4 | .H5 | .H6 | .TR | .LI | .BR | .BLOCKQUOTE
  | .ARTICLE | .SECTION | .HEADER | .FOOTER => ['\n']
  | .TD | .TH => ['\t']
  | _ => []

mutual
/-- The text `gumbo_extract_text_recursive` appends to the stream for a node. -/
def gumbo_extract_text_recursive : GumboNode → Str
  | .text t => t
  | .whitespace t => t
  | .other => []
  | .element tag _ children =>
    if tag = GumboTag.SCRIPT ∨ tag = GumboTag.STYLE then []
    else gumbo_extract_text_children children ++ block_suffix tag
/-- The loop over the children in `gumbo_extract_text_recursive`. -/
def gumbo_extract_text_children : List GumboNode → Str
  | [] => []
  | c :: cs => gumbo_extract_text_recursive c ++ gumbo_extract_text_children cs
end

/-- The library function `gumbo_get_attribute`: the value of the first
attribute with the given name. -/
def gumbo_get_attribute (attributes : List (Str × Str)) (name : Str) : Option Str :=
  (attributes.find? (fun a => a.1 = name)).map Prod.snd

/-- The `while` loop of `gumbo_find_img_srcs`.  The head of `stack` is the
back of the C++ vector; `fuel` bounds the number of iterations. -/
def find_img_loop (max_results : ℕ) : ℕ → List GumboNode → List Str → List Str
  | 0, _, results => results
  | fuel + 1, stack, results =>
    if results.length < max_results then
      match stack with
      | [] => results
      | .element tag attributes children :: rest =>
        let results' :=
          if tag = GumboTag.IMG then
            match gumbo_get_attribute attributes "src".toList with
            | some v => if v ≠ [] then results ++ [v] else results
            | none => results
          else results
        find_img_loop max_results fuel (children ++ rest) results'
      | _ :: rest => find_img_loop max_results fuel rest results
    else results

/-! ## The archive (libzim) -/

/-- An archive entry: an item with its mimetype and data, or a redirect to
another entry. -/
inductive ZimEntry where
  | item (mimetype data : Str)
  | redirect (target : ZimEntry)

/-- An intrinsic dimension reported by librsvg: a `double`, with its sign. -/
structure SvgLength where
  negative : Bool
  value : Flt

/-- What `rsvg_handle_get_intrinsic_dimensions` reports. -/
structure SvgDimensions where
  has_width : Bool
  w_len : SvgLength
  has_height : Bool
  h_len : SvgLength
  has_viewbox : Bool
  viewbox_width : SvgLength
  viewbox_height : SvgLength

/-- The collaborators of the pipeline whose code is outside the program. -/
structure Env where
  /-- `gumbo_parse`: the root of the parse tree, `none` for a null output. -/
  gumbo_parse : Str → Option GumboNode
  /-- `archive.getEntryByPath`: `none` when the call throws. -/
  getEntryByPath : Str → Option ZimEntry
  /-- `stbi_load_from_memory`: width, height and channels, `none` on a decode failure. -/
  stbi_load_from_memory : Str → Option (ℕ × ℕ × ℕ)
  /-- `rsvg_handle_new_from_data` followed by
  `rsvg_handle_get_intrinsic_dimensions`: `none` when no handle is made. -/
  rsvg_handle_new_from_data : Str → Option SvgDimensions
  /-- `fs::create_directories`: `false` when the call throws. -/
  create_directories : Str → Bool
  /-- Whether `cairo_image_surface_create` gives a usable surface of that size. -/
  cairo_image_surface_create : ℕ → ℕ → Bool
  /-- Whether `stbi_write_jpg` succeeds in writing the file, given the path,
  the width and height, and the image data the pixels come from. -/
  stbi_write_jpg : Str → ℕ → ℕ → Str → Bool

/-- One attempt of `zim_resolve_image` on a path variant: the data and
mimetype, or `none` when the loop body reaches `continue` (entry not found,
redirect target that is no item, mimetype without `image/`, fewer than 100
bytes). -/
def zim_try_path (env : Env) (cand : Str) : Option (Str × Str) :=
  match env.getEntryByPath cand with
  | none => none
  | some e =>
    let e' := match e with
      | .redirect target => target
      | .item mt data => .item mt data
    match e' with
    | .redirect _ => none
    | .item mt blob =>
      if str_contains mt "image/".toList = false then none
      else if blob.length < 100 then none
      else some (blob, mt)

/-- The path variants `zim_resolve_image` tries, in order. -/
def zim_resolve_candidates (raw_path : Str) : List Str :=
  [raw_path]
  ++ (if raw_path.length > 0 ∧ raw_path.head? ≠ some 'I' ∧ raw_path.head? ≠ some '-'
      then ["I/".toList ++ raw_path] else [])
  ++ (if raw_path.length > 0 ∧ raw_path.head? ≠ some '-'
      then ["-/".toList ++ raw_path] else [])
  ++ (if raw_path.length > 0 ∧ raw_path.head? ≠ some 'A'
      then ["A/".toList ++ raw_path] else [])

/-- The function `zim_resolve_image`: the data (empty on failure) and the
value left in `out_mimetype` (which the caller initialises to the empty
string). -/
def zim_resolve_image (env : Env) (raw_path : Str) : Str × Str :=
  match (zim_resolve_candidates raw_path).findSome? (zim_try_path env) with
  | some r => r
  | none => ([], [])

/-! ## Thumbnail rendering -/

/-- The `sizes` table of both renderers. -/
def sizes : List (Str × ℕ) :=
  [("large".toList, 150), ("medium".toList, 300), ("small".toList, 100), ("modal".toList, 800)]

/-- A thumbnail file written by `stbi_write_jpg`. -/
structure ThumbFile where
  path : Str
  width : ℕ
  height : ℕ
  deriving DecidableEq

/-- The path `out_dir + "/" + prefix + "_thumb_0_" + sz.name + ".jpg"`. -/
def thumb_path (out_dir pfx name : Str) : Str :=
  out_dir ++ "/".toList ++ pfx ++ "_thumb_0_".toList ++ name ++ ".jpg".toList

/-- The function `generate_thumbnails`: the files written, whose number is
the value returned; `none` when `fs::create_directories` throws.  Allocation
failures are left out. -/
def generate_thumbnails (env : Env) (data out_dir pfx : Str) : Option (List ThumbFile) :=
  match env.stbi_load_from_memory data with
  | none => some []
  | some (w, h, _) =>
    if env.create_directories out_dir = false then none
    else some (sizes.filterMap (fun sz =>
      let t := generate_thumbnails_fit w h sz.2
      let out_path := thumb_path out_dir pfx sz.1
      if env.stbi_write_jpg out_path t.1 t.2 data then some ⟨out_path, t.1, t.2⟩ else none))

/-- The test `x <= 0` on an intrinsic dimension. -/
def SvgLength.nonpos (x : SvgLength) : Bool := x.negative || decide (x.value.m = 0)

/-- The intrinsic dimensions `(svg_w, svg_h)` that `generate_svg_thumbnails`
settles on: the viewbox, else width and height, else (also when one of them
is not positive) 800 by 800. -/
def svg_intrinsic (d : SvgDimensions) : Flt × Flt :=
  let zero : SvgLength := ⟨false, ⟨0, 0⟩⟩
  let wh : SvgLength × SvgLength :=
    if d.has_viewbox then (d.viewbox_width, d.viewbox_height)
    else if d.has_width ∧ d.has_height then (d.w_len, d.h_len)
    else (zero, zero)
  if wh.1.nonpos ∨ wh.2.nonpos then (⟨800, 0⟩, ⟨800, 0⟩) else (wh.1.value, wh.2.value)

/-- The function `generate_svg_thumbnails`: the files written, whose number
is the value returned; `none` when `fs::create_directories` throws. -/
def generate_svg_thumbnails (env : Env) (data out_dir pfx : Str) : Option (List ThumbFile) :=
  if data.length < 10 then some []
  else match env.rsvg_handle_new_from_data data with
    | none => some []
    | some d =>
      let svg := svg_intrinsic d
      if Flt.le svg.1 ⟨64, 0⟩ ∧ Flt.le svg.2 ⟨64, 0⟩ then some []
      else if env.create_directories out_dir = false then none
      else some (sizes.filterMap (fun sz =>
        let t := generate_svg_thumbnails_fit svg.1 svg.2 sz.2
        let out_path := thumb_path out_dir pfx sz.1
        if env.cairo_image_surface_create t.1 t.2 = false then none
        else if env.stbi_write_jpg out_path t.1 t.2 data then some ⟨out_path, t.1, t.2⟩
        else none))

/-! ## The worker of `process_zim` -/

/-- The struct `ZimWorkItem`. -/
structure ZimWorkItem where
  seq : ℕ
  article_path : Str
  title : Str
  html_content : Str

/-- One line of the JSONL output, before escaping. -/
structure OutputRecord where
  path : Str
  title : Str
  text : Str
  image_path : Str
  thumb_dir : Str
  image_skipped : Str
  size : ℕ
  deriving DecidableEq

/-- The state the workers share: the three atomic counters, the dedup map
(a key that is absent counts 0, as `operator[]` makes it), the records
written to the standard output and the thumbnail files written. -/
structure Shared where
  success : ℕ
  worker_failed : ℕ
  images_extracted : ℕ
  img_usage_count : Str → ℕ
  out : List OutputRecord
  files : List ThumbFile

/-- The three strings a worker fills in for the article it is processing. -/
structure Local where
  image_path : Str
  thumb_dir : Str
  image_skipped : Str
  deriving DecidableEq

/-- The constant `IMG_DEDUP_THRESHOLD`. -/
def IMG_DEDUP_THRESHOLD : ℕ := 3

/-- The function `strip_html_tags`. -/
def strip_html_tags (env : Env) (html_content : Str) : Str :=
  match env.gumbo_parse html_content with
  | none => []
  | some root => gumbo_extract_text_recursive root

/-- The function `gumbo_find_img_srcs`. -/
def gumbo_find_img_srcs (env : Env) (html_content : Str) (max_results : ℕ) : List Str :=
  match env.gumbo_parse html_content with
  | none => []
  | some root => find_img_loop max_results (GumboNode.count root) [root] []

/-- The normalisation loop of the worker: erase the first character while it
is `.` or `/`. -/
def normalize_candidate : Str → Str
  | [] => []
  | c :: cs => if c = '.' ∨ c = '/' then normalize_candidate cs else c :: cs

/-- The part of a string after its last `/` (the whole string without one):
`rfind('/')` followed by `substr`. -/
def after_last_slash (s : Str) : Str :=
  (s.reverse.takeWhile (fun c => c ≠ '/')).reverse

/-- The words of the file name test in `try_candidate`. -/
def icon_words : List Str :=
  ["icon".toList, "logo".toList, "button".toList, "arrow".toList, "chevron".toList,
   "badge".toList, "favicon".toList]

/-- The file name test of `try_candidate`: the lower-cased last path segment
contains one of the icon words. -/
def looks_like_icon (cand : Str) : Bool :=
  let fname := after_last_slash (cand.map Char.toLower)
  icon_words.any (fun w => str_contains fname w)

/-- The assignment `if (image_skipped.empty()) image_skipped = reason`. -/
def Local.skip (loc : Local) (reason : Str) : Local :=
  if loc.image_skipped = [] then { loc with image_skipped := reason } else loc

/-- The lambda `try_candidate` of the worker, for the article `item` and the
image directory `img_out_dir`: the value returned and the locals and shared
state after the call; `none` when an exception leaves the lambda (nothing
has been assigned by the call at that point). -/
def try_candidate (env : Env) (img_out_dir : Str) (item : ZimWorkItem) (cand : Str)
    (loc : Local) (sh : Shared) : Option (Bool × Local × Shared) :=
  if cand = [] then some (false, loc, sh)
  else if looks_like_icon cand then some (false, loc.skip "icon".toList, sh)
  else
    let r := zim_resolve_image env cand
    let img_data := r.1
    let img_mime := r.2
    if img_data = [] then some (false, loc.skip "not_found".toList, sh)
    else if str_contains img_mime "icon".toList then some (false, loc.skip "icon".toList, sh)
    else
      let art_thumb_dir := img_out_dir ++ "/".toList ++ to_string item.seq
      let pfx := to_string item.seq
      let rendered :=
        if str_contains img_mime "svg".toList ∨ str_contains img_mime "xml".toList then
          generate_svg_thumbnails env img_data art_thumb_dir pfx
        else generate_thumbnails env img_data art_thumb_dir pfx
      match rendered with
      | none => none
      | some written =>
        if written.length > 0 then
          some (true,
            { image_path := cand, thumb_dir := art_thumb_dir, image_skipped := [] },
            { sh with
              images_extracted := sh.images_extracted + 1,
              img_usage_count := Function.update sh.img_usage_count cand
                (sh.img_usage_count cand + 1),
              files := sh.files ++ written })
        else some (false, loc, sh)

/-- Pass 1 of the worker: the candidates in order, skipping those whose dedup
count has reached the threshold, until one attempt returns `true`.  The
result is the flag `found` with the state. -/
def pass1 (env : Env) (img_out_dir : Str) (item : ZimWorkItem) :
    List Str → Local → Shared → Option (Bool × Local × Shared)
  | [], loc, sh => some (false, loc, sh)
  | cand :: rest, loc, sh =>
    if sh.img_usage_count cand ≥ IMG_DEDUP_THRESHOLD then
      pass1 env img_out_dir item rest loc sh
    else
      match try_candidate env img_out_dir item cand loc sh with
      | none => none
      | some (true, loc', sh') => some (true, loc', sh')
      | some (false, loc', sh') => pass1 env img_out_dir item rest loc' sh'

/-- Pass 2 of the worker: all candidates in order until one attempt returns `true`. -/
def pass2 (env : Env) (img_out_dir : Str) (item : ZimWorkItem) :
    List Str → Local → Shared → Option (Local × Shared)
  | [], loc, sh => some (loc, sh)
  | cand :: rest, loc, sh =>
    match try_candidate env img_out_dir item cand loc sh with
    | none => none
    | some (true, loc', sh') => some (loc', sh')
    | some (false, loc', sh') => pass2 env img_out_dir item rest loc' sh'

/-- The two passes of the worker over the normalised candidates. -/
def select_image (env : Env) (img_out_dir : Str) (item : ZimWorkItem) (img_candidates : List Str)
    (loc : Local) (sh : Shared) : Option (Local × Shared) :=
  match pass1 env img_out_dir item img_candidates loc sh with
  | none => none
  | some (true, loc', sh') => some (loc', sh')
  | some (false, loc', sh') => pass2 env img_out_dir item img_candidates loc' sh'

/-- The body of the `try` block of `worker_fn` for one dequeued item: the
shared state after it, or `none` when an exception leaves the block (no
shared state has been changed at that point). -/
def worker_try (env : Env) (img_out_dir : Str) (sh : Shared) (item : ZimWorkItem) :
    Option Shared :=
  let text := strip_html_tags env item.html_content
  if text.length < 10 then some { sh with worker_failed := sh.worker_failed + 1 }
  else
    let selected :=
      if img_out_dir ≠ [] then
        select_image env img_out_dir item
          ((gumbo_find_img_srcs env item.html_content 5).map normalize_candidate)
          ⟨[], [], []⟩ sh
      else some (⟨[], [], []⟩, sh)
    match selected with
    | none => none
    | some (loc, sh') =>
      some { sh' with
        out := sh'.out ++ [OutputRecord.mk item.article_path item.title text
          loc.image_path loc.thumb_dir loc.image_skipped item.html_content.length],
        success := sh'.success + 1 }

/-- One iteration of the loop of `worker_fn`: the `try` block, and the
`catch` clause that counts a failure. -/
def worker_step (env : Env) (img_out_dir : Str) (sh : Shared) (item : ZimWorkItem) : Shared :=
  match worker_try env img_out_dir sh item with
  | some sh' => sh'
  | none => { sh with worker_failed := sh.worker_failed + 1 }

/-- The items a worker dequeues, processed one after the other. -/
def worker_fn (env : Env) (img_out_dir : Str) (sh : Shared) (items : List ZimWorkItem) : Shared :=
  items.foldl (worker_step env img_out_dir) sh

/-- The outcome of the resolve and render attempt on a candidate, which does
not depend on the state it starts from: `some true` when `try_candidate`
returns `true`, `some false` when it returns `false`, `none` when it throws. -/
def attempt (env : Env) (img_out_dir : Str) (item : ZimWorkItem) (cand : Str) : Option Bool :=
  (try_candidate env img_out_dir item cand ⟨[], [], []⟩
    ⟨0, 0, 0, fun _ => 0, [], []⟩).map Prod.fst

/-- The shared state after an attempt that returned `true` and wrote `written`. -/
def Shared.attach (sh : Shared) (cand : Str) (written : List ThumbFile) : Shared :=
  { sh with
    images_extracted := sh.images_extracted + 1,
    img_usage_count := Function.update sh.img_usage_count cand (sh.img_usage_count cand + 1),
    files := sh.files ++ written }

/-- Whether the resolve and render attempt on a candidate succeeds. -/
def attempt_succeeds (env : Env) (img_out_dir : Str) (item : ZimWorkItem) (cand : Str) : Bool :=
  decide (attempt env img_out_dir item cand = some true)

/-- The selection rule as the specification words it: the first candidate in
document order whose dedup count is below 3 and whose attempt succeeds; if
there is none, the first candidate whose attempt succeeds; if there is none,
no image. -/
def spec_selected_image (count : Str → ℕ) (succeeds : Str → Bool) (cands : List Str) :
    Option Str :=
  match cands.find? (fun c => decide (count c < 3) && succeeds c) with
  | some c => some c
  | none => cands.find? succeeds

/-- The image attached to the article, if any: the non-empty `image_path`. -/
def Local.attached (loc : Local) : Option Str :=
  if loc.image_path = [] then none else some loc.image_path

/-! ## A small archive used to run the definitions -/

/-- An article whose markup refers to four images. -/
def demo_root : GumboNode :=
  .element .OTHER [] [
    .element .P [] [.text "A cat sat on the mat.".toList],
    .element .IMG [("src".toList, "../banner.png".toList)] [],
    .element .IMG [("src".toList, "./img/Logo.png".toList)] [],
    .element .IMG [("src".toList, "photos/cat.png".toList)] [],
    .element .DIV [] [.element .IMG [("src".toList, "/photos/dog.png".toList)] []]]

/-- An environment: every page parses to `demo_root` except the page `short`,
the archive holds the banner and the dog picture, every image decodes to 640
by 480 pixels and every thumbnail can be written. -/
def demo_env : Env where
  gumbo_parse := fun html =>
    if html = "short".toList then some (.element .P [] [.text "tiny".toList]) else some demo_root
  getEntryByPath := fun p =>
    if p = "I/banner.png".toList ∨ p = "I/photos/dog.png".toList then
      some (.item "image/png".toList (List.replicate 200 'x'))
    else none
  stbi_load_from_memory := fun _ => some (640, 480, 3)
  rsvg_handle_new_from_data := fun _ => none
  create_directories := fun _ => true
  cairo_image_surface_create := fun _ _ => true
  stbi_write_jpg := fun _ _ _ _ => true

/-- A work item for the demo article. -/
def demo_item : ZimWorkItem := ⟨7, "A/page1".toList, "Page 1".toList, "page".toList⟩

/-- A shared state in which the banner has already been used three times. -/
def demo_shared : Shared :=
  ⟨4, 1, 3, fun k => if k = "banner.png".toList then 3 else 0, [], []⟩

/-! ## The coordinator of `process_zim` -/

/-- The number of worker threads: `hardware_concurrency()`, replaced by 4
when it is 0, minus 2 in `unsigned int` arithmetic (32 bits), and at least 2. -/
def num_threads (hardware_concurrency : ℕ) : ℕ :=
  let n := if hardware_concurrency = 0 then 4 else hardware_concurrency
  max 2 ((n + 2 ^ 32 - 2) % 2 ^ 32)

/-- The value of `zim_limit` in `main`: 0 unless `--limit` gives one. -/
def zim_limit (limit_arg : Option ℤ) : ℤ :=
  match limit_arg with
  | none => 0
  | some n => n

/-- What the producer loop sees of an entry that `archive.iterByPath()`
yields: a redirect; an entry whose `getItem()` or `getMimetype()` throws; or
an item with its path, title and mimetype, and its data (`none` when
`getData()` throws). -/
inductive IterEntry where
  | redirect (path : Str)
  | unreadable (path : Str)
  | item (path title mimetype : Str) (data : Option Str)

/-- The counters of the producer loop and the work items it has pushed on
the queue, oldest first.  The diagnostic tally `mime_counts` is left out. -/
structure Producer where
  redirect_count : ℕ
  skipped : ℕ
  main_failed : ℕ
  total : ℕ
  seq : ℕ
  enqueued : List ZimWorkItem

/-- The producer before the loop. -/
def Producer.init : Producer := ⟨0, 0, 0, 0, 0, []⟩

/-- The `try` block of the producer loop with its `catch` clause, for one
entry.  Before `finish()` a `push` returns only after it has inserted the
item, so every pushed item is enqueued. -/
def producer_step (st : Producer) : IterEntry → Producer
  | .redirect _ =>
    { st with redirect_count := st.redirect_count + 1, skipped := st.skipped + 1 }
  | .unreadable _ => { st with main_failed := st.main_failed + 1 }
  | .item path title mimetype data =>
    if str_contains mimetype "text/html".toList = false then
      { st with skipped := st.skipped + 1 }
    else
      match data with
      | none => { st with total := st.total + 1, main_failed := st.main_failed + 1 }
      | some html_content =>
        if html_content = [] then
          { st with total := st.total + 1, main_failed := st.main_failed + 1 }
        else
          { st with
            total := st.total + 1,
            seq := st.seq + 1,
            enqueued := st.enqueued ++
              [⟨st.seq, path, if title = [] then path else title, html_content⟩] }

/-- The producer loop over the entries in path order, with the test
`limit > 0 && total >= limit` that leaves it. -/
def producer_loop (limit : ℤ) : List IterEntry → Producer → Producer
  | [], st => st
  | e :: rest, st =>
    if limit > 0 ∧ (st.total : ℤ) ≥ limit then st
    else producer_loop limit rest (producer_step st e)

/-- A run of `process_zim`: the producer after its loop and the shared state
after the workers have drained the queue. -/
structure ZimRun where
  producer : Producer
  shared : Shared
  threads : ℕ

/-- The part of `process_zim` that follows the start of the worker threads:
the producer loop, `finish()`, the joins and the summary, with the workers
taking the items off the queue one after the other in the order they were
pushed. -/
def process_zim_run (env : Env) (hardware_concurrency : ℕ) (entries : List IterEntry)
    (limit : ℤ) (img_out_dir : Str) : ZimRun :=
  let producer := producer_loop limit entries Producer.init
  { producer := producer,
    shared := worker_fn env img_out_dir ⟨0, 0, 0, fun _ => 0, [], []⟩ producer.enqueued,
    threads := num_threads hardware_concurrency }

/-- The function `process_zim` on an opened archive.  The result is `none`
when the function ends before the producer loop, by an exception or by
`std::terminate`, so that no entry is read and no summary printed: when
`fs::create_directories` throws on the image directory, or when
`workers.reserve(num_threads)` or the construction of one of the
`num_threads` threads throws, `max_workers` being the number of worker
threads the system can provide. -/
def process_zim (env : Env) (max_workers hardware_concurrency : ℕ) (entries : List IterEntry)
    (limit : ℤ) (img_out_dir : Str) : Option ZimRun :=
  if img_out_dir ≠ [] ∧ env.create_directories img_out_dir = false then none
  else if max_workers < num_threads hardware_concurrency then none
  else some (process_zim_run env hardware_concurrency entries limit img_out_dir)

/-- The sum `total_failed` of the summary. -/
def ZimRun.total_failed (r : ZimRun) : ℕ := r.producer.main_failed + r.shared.worker_failed

/-- The entry count `total + skipped` of the summary. -/
def ZimRun.entries (r : ZimRun) : ℕ := r.producer.total + r.producer.skipped

/-! ## The claims in the words of the specification -/

/-- The file name test as the specification words it: the final path
segment, compared without regard to case, contains one of the icon words. -/
def spec_icon_named (cand : Str) : Bool :=
  icon_words.any (fun w => str_contains ((after_last_slash cand).map Char.toLower) w)

/-- The item behind a path, following one redirect: its mimetype and data. -/
def zim_entry_item (env : Env) (path : Str) : Option (Str × Str) :=
  match env.getEntryByPath path with
  | some (.item mt data) => some (mt, data)
  | some (.redirect (.item mt data)) => some (mt, data)
  | _ => none

/-- A path variant is accepted when its item has a mimetype that contains
`image/` and at least 100 bytes. -/
def variant_accepted (env : Env) (path : Str) : Bool :=
  match zim_entry_item env path with
  | some (mt, data) => str_contains mt "image/".toList && decide (100 ≤ data.length)
  | none => false

/-- Acceptance as the specification words it: the mimetype starts with
`image/` and the item has at least 100 bytes. -/
def spec_variant_accepted (env : Env) (path : Str) : Bool :=
  match zim_entry_item env path with
  | some (mt, data) => decide ("image/".toList <+: mt) && decide (100 ≤ data.length)
  | none => false

/-- The values `image_skipped` may hold. -/
def skip_reason_ok (s : Str) : Prop :=
  s = "icon".toList ∨ s = "not_found".toList ∨ s = []

/-- The entries the producer enqueues: the non-redirect entries with a
mimetype that contains `text/html` and a non-empty payload, as path and
payload. -/
def spec_qualifying : IterEntry → Option (Str × Str)
  | .item path _ mimetype (some html_content) =>
    if str_contains mimetype "text/html".toList ∧ html_content ≠ [] then
      some (path, html_content)
    else none
  | _ => none

/-- A read error on an entry: one of `getItem()`, `getMimetype()` and
`getData()` throws. -/
def IterEntry.read_error : IterEntry → Bool
  | .unreadable _ => true
  | .item _ _ _ none => true
  | _ => false

/-- Whether an entry is a redirect. -/
def IterEntry.isRedirect : IterEntry → Bool
  | .redirect _ => true
  | _ => false

/-- Whether an entry is no redirect and has a mimetype without `text/html`. -/
def IterEntry.non_html : IterEntry → Bool
  | .item _ _ mimetype _ => !str_contains mimetype "text/html".toList
  | _ => false

/-! ## More archives used to run the definitions -/

/-- The demo environment with an archive that holds one entry, `pic.png`,
whose mimetype contains `image/` without starting with it. -/
def demo_env_mime : Env :=
  { demo_env with
    getEntryByPath := fun p =>
      if p = "pic.png".toList then
        some (.item "application/x-image/png".toList (List.replicate 100 'x'))
      else none }

/-- An article with one image, `diagram.svg`. -/
def demo_svg_root : GumboNode :=
  .element .OTHER [] [
    .element .P [] [.text "A diagram of the water cycle.".toList],
    .element .IMG [("src".toList, "diagram.svg".toList)] []]

/-- An environment whose archive holds `I/diagram.svg`, a vector image with
a viewbox of 48 by 48. -/
def demo_env_svg : Env :=
  { demo_env with
    gumbo_parse := fun _ => some demo_svg_root,
    getEntryByPath := fun p =>
      if p = "I/diagram.svg".toList then
        some (.item "image/svg+xml".toList (List.replicate 100 'x'))
      else none,
    rsvg_handle_new_from_data := fun _ =>
      some ⟨false, ⟨false, ⟨0, 0⟩⟩, false, ⟨false, ⟨0, 0⟩⟩, true,
        ⟨false, ⟨48, 0⟩⟩, ⟨false, ⟨48, 0⟩⟩⟩ }

/-- The four entries of the end-to-end archive, in path order. -/
def demo_cat_entries : List IterEntry :=
  [.item "A/empty".toList "Empty".toList "text/html".toList (some "short".toList),
   .item "A/page1".toList "Page 1".toList "text/html".toList (some "page".toList),
   .redirect "A/page2".toList,
   .item "I/photos/cat.png".toList [] "image/png".toList (some (List.replicate 200 'x'))]

/-- The page `A/page1`: 40 characters of text and one image. -/
def demo_cat_root : GumboNode :=
  .element .OTHER [] [
    .element .P [] [.text "The cat sat on the mat and looked away.".toList],
    .element .IMG [("src".toList, "photos/cat.png".toList)] []]

/-- The environment of the end-to-end archive: the page `A/empty` has 5
characters of text, and the archive resolves `I/photos/cat.png` only. -/
def demo_env_cat : Env :=
  { demo_env with
    gumbo_parse := fun html =>
      if html = "short".toList then some (.element .P [] [.text "tiny".toList])
      else some demo_cat_root,
    getEntryByPath := fun p =>
      if p = "I/photos/cat.png".toList then
        some (.item "image/png".toList (List.replicate 200 'x'))
      else none }

/-- The archive of the end-to-end scenario, in path order, for any titles,
payloads `h_empty`, `h_page1` of the two pages and bytes `blob` of the image. -/
def end_to_end_entries (t_empty t_page1 t_img h_empty h_page1 blob : Str) : List IterEntry :=
  [.item "A/empty".toList t_empty "text/html".toList (some h_empty),
   .item "A/page1".toList t_page1 "text/html".toList (some h_page1),
   .redirect "A/page2".toList,
   .item "I/photos/cat.png".toList t_img "image/png".toList (some blob)]

/-! ## Records and processing order -/

/-- The fields of a record other than `image_path`: path, title, text,
`thumb_dir`, `image_skipped` and size. -/
def OutputRecord.but_image_path (r : OutputRecord) : Str × Str × Str × Str × Str × ℕ :=
  (r.path, r.title, r.text, r.thumb_dir, r.image_skipped, r.size)

/-- The reason `try_candidate` notes for a candidate, if it notes one: `icon`
for an icon file name, `not_found` when the archive does not resolve it,
`icon` for an icon mimetype.  It is read off the candidate and the archive
and does not depend on the article. -/
def skip_reason_of (env : Env) (cand : Str) : Option Str :=
  if cand = [] then none
  else if looks_like_icon cand then some "icon".toList
  else
    let r := zim_resolve_image env cand
    if r.1 = [] then some "not_found".toList
    else if str_contains r.2 "icon".toList then some "icon".toList
    else none

/-- The locals after an attempt on a candidate that returned `false`. -/
def skip_step (env : Env) (loc : Local) (cand : Str) : Local :=
  match skip_reason_of env cand with
  | some reason => loc.skip reason
  | none => loc

/-- The locals after attempts on all the candidates, none of which returned `true`. -/
def skip_all (env : Env) (cands : List Str) (loc : Local) : Local :=
  cands.foldl (skip_step env) loc

/-- A property of the dedup map that every run keeps: a candidate that has
been counted is one for which no reason is noted (it has been attached, so
it has a plain name and the archive resolves it to an image). -/
def counted_are_resolved (env : Env) (sh : Shared) : Prop :=
  ∀ c, 0 < sh.img_usage_count c → skip_reason_of env c = none

/-- The record a worker writes for an item, without its `image_path`, if it
writes one, as a function of the item alone: `none` when the text is short
or an attempt on a candidate of the item throws; else the thumbnail
directory of the item when one of its candidates can be rendered, and the
first reason noted when none can. -/
def item_record (env : Env) (img_out_dir : Str) (item : ZimWorkItem) :
    Option (Str × Str × Str × Str × Str × ℕ) :=
  let text := strip_html_tags env item.html_content
  let cands := (gumbo_find_img_srcs env item.html_content 5).map normalize_candidate
  if text.length < 10 then none
  else if img_out_dir = [] then
    some (item.article_path, item.title, text, [], [], item.html_content.length)
  else if cands.any (fun c => decide (attempt env img_out_dir item c = none)) = true then none
  else if cands.any (attempt_succeeds env img_out_dir item) = true then
    some (item.article_path, item.title, text,
      img_out_dir ++ "/".toList ++ to_string item.seq, [], item.html_content.length)
  else
    some (item.article_path, item.title, text, [],
      (skip_all env cands (skip_all env cands ⟨[], [], []⟩)).image_skipped,
      item.html_content.length)

/-- Four articles that all parse to `demo_root`. -/
def demo_items : List ZimWorkItem :=
  [⟨0, "A/p0".toList, "P0".toList, "page".toList⟩,
   ⟨1, "A/p1".toList, "P1".toList, "page".toList⟩,
   ⟨2, "A/p2".toList, "P2".toList, "page".toList⟩,
   ⟨3, "A/p3".toList, "P3".toList, "page".toList⟩]

/-- The same four articles with the last one taken first. -/
def demo_items_reordered : List ZimWorkItem :=
  [⟨3, "A/p3".toList, "P3".toList, "page".toList⟩,
   ⟨0, "A/p0".toList, "P0".toList, "page".toList⟩,
   ⟨1, "A/p1".toList, "P1".toList, "page".toList⟩,
   ⟨2, "A/p2".toList, "P2".toList, "page".toList⟩]

/-! ## Image references in document order -/

mutual
/-- The non-empty `src` values of the `img` elements of a tree in document
order: an element before its children, the children from left to right. -/
def spec_img_srcs : GumboNode → List Str
  | .element tag attributes children =>
    (if tag = GumboTag.IMG then
      match gumbo_get_attribute attributes "src".toList with
      | some v => if v ≠ [] then [v] else []
      | none => []
    else []) ++ spec_img_srcs_list children
  | .text _ => []
  | .whitespace _ => []
  | .other => []
/-- The same for a list of trees, from left to right. -/
def spec_img_srcs_list : List GumboNode → List Str
  | [] => []
  | n :: ns => spec_img_srcs n ++ spec_img_srcs_list ns
end

/-! ## Compositing over white -/

/-- The byte `generate_thumbnails` stores for one channel of a pixel with
alpha `a`: `(src * a + 255 * (255 - a)) / 255` computed in `int` and
converted to `unsigned char`. -/
def composite_over_white (src a : ℕ) : ℕ := ((src * a + 255 * (255 - a)) / 255) % 256

/-- The conversion of one pixel to RGB at the head of `generate_thumbnails`,
by the number of channels of the decoded image. -/
def to_rgb_pixel (channels : ℕ) (px : List ℕ) : List ℕ :=
  match channels, px with
  | 4, [r, g, b, a] =>
    [composite_over_white r a, composite_over_white g a, composite_over_white b a]
  | 2, [gray, a] =>
    let v := composite_over_white gray a
    [v, v, v]
  | 1, [gray] => [gray, gray, gray]
  | _, px => px

/-! ## File names of extracted media -/

/-- The function `sanitize_filename`; `fs::path(raw_name).filename()` is the
part of the name after its last `/`. -/
def sanitize_filename (raw_name : Str) : Str :=
  let safe_name := after_last_slash raw_name
  if safe_name = [] ∨ safe_name = ".".toList ∨ safe_name = "..".toList then [] else safe_name

/-- The path `zip_extract_media` opens for writing for the archive entry
`entry_path`, if it gets that far: entries outside the media directory and
entries whose sanitized name is empty are passed over. -/
def zip_output_path ( media_prefix base_name output_dir entry_path : Str) : Option Str :=
  if ¬ media_prefix.isPrefixOf entry_path = true then none
  else
    let safe_filename := sanitize_filename entry_path
    if safe_filename = [] then none
    else some (output_dir ++ "/".toList ++ base_name ++ "_".toList ++ safe_filename)

/-- The part of a path before its last `/`: the directory the file is in. -/
def before_last_slash (s : Str) : Str :=
  (s.reverse.dropWhile (fun c => c ≠ '/')).reverse.dropLast

/-! ## JSON strings -/

/-- The value of a `char` holding the byte `c` (plain `char` is signed). -/
def char_code (c : Char) : ℤ := if c.toNat < 128 then (c.toNat : ℤ) else (c.toNat : ℤ) - 256

/-- A lower-case hexadecimal digit. -/
def hex_digit (n : ℕ) : Char := if n < 10 then Char.ofNat (48 + n) else Char.ofNat (87 + n)

/-- The output of `snprintf` with the format `%04x`, for a value below 65536. -/
def hex4 (n : ℕ) : Str :=
  [hex_digit (n / 4096 % 16), hex_digit (n / 256 % 16), hex_digit (n / 16 % 16), hex_digit (n % 16)]

/-- What `json_escape` writes for one character. -/
def json_escape_char (c : Char) : Str :=
  if c = '"' then ['\\', '"']
  else if c = '\\' then ['\\', '\\']
  else if c = '\x08' then ['\\', 'b']
  else if c = '\x0c' then ['\\', 'f']
  else if c = '\n' then ['\\', 'n']
  else if c = '\r' then ['\\', 'r']
  else if c = '\t' then ['\\', 't']
  else if 0 ≤ char_code c ∧ char_code c ≤ 0x1f then '\\' :: 'u' :: hex4 (c.toNat % 256)
  else [c]

/-- The function `json_escape`. -/
def json_escape : Str → Str
  | [] => []
  | c :: cs => json_escape_char c ++ json_escape cs

/-- Value of a hexadecimal digit. -/
def hex_value (c : Char) : Option ℕ :=
  if '0'.toNat ≤ c.toNat ∧ c.toNat ≤ '9'.toNat then some (c.toNat - '0'.toNat)
  else if 'a'.toNat ≤ c.toNat ∧ c.toNat ≤ 'f'.toNat then some (c.toNat - 'a'.toNat + 10)
  else if 'A'.toNat ≤ c.toNat ∧ c.toNat ≤ 'F'.toNat then some (c.toNat - 'A'.toNat + 10)
  else none

/-- The byte a `u` escape of the form `00XX` stands for. -/
def decode_hex4 : Str → Option Char
  | [a, b, x, y] =>
    if a = '0' ∧ b = '0' then
      match hex_value x, hex_value y with
      | some h, some l => some (Char.ofNat (h * 16 + l))
      | _, _ => none
    else none
  | _ => none

/-- The byte a two-character escape stands for. -/
def decode_simple_escape (e : Char) : Option Char :=
  if e = '"' then some '"'
  else if e = '\\' then some '\\'
  else if e = 'b' then some '\x08'
  else if e = 'f' then some '\x0c'
  else if e = 'n' then some '\n'
  else if e = 'r' then some '\r'
  else if e = 't' then some '\t'
  else none

/-- Decoder of a JSON string body in the words of the specification: a
backslash starts one of the escapes for the quote, the backslash, `b`, `f`,
`n`, `r`, `t` or `u00XX`; a bare double quote or a byte below 0x20 makes the
body ill-formed (`none`); every other byte stands for itself. -/
def json_unescape : Str → Option Str
  | [] => some []
  | c :: rest =>
    if c = '\\' then
      match rest with
      | [] => none
      | e :: rest1 =>
        if e = 'u' then
          match rest1 with
          | a :: b :: x :: y :: rest2 =>
            match decode_hex4 [a, b, x, y] with
            | some ch => (json_unescape rest2).map (fun t => ch :: t)
            | none => none
          | _ => none
        else
          match decode_simple_escape e with
          | some ch => (json_unescape rest1).map (fun t => ch :: t)
          | none => none
    else if c = '"' ∨ c.toNat < 0x20 then none
    else (json_unescape rest).map (fun t => c :: t)

/-! ## Characters and bytes -/

/-- Whether a byte is a continuation byte of UTF-8 (0x80 to 0xBF). -/
def utf8_continuation (c : Char) : Bool := decide (0x80 ≤ c.toNat ∧ c.toNat < 0xC0)

/-- The number of characters of a text encoded in UTF-8: its bytes that are
not continuation bytes.  `std::string::size()` is the number of bytes. -/
def utf8_length (s : Str) : ℕ := s.countP (fun c => !utf8_continuation c)

/-- The ten bytes of a text of five characters, five times the letter e with
an acute accent (0xC3 0xA9). -/
def demo_accents : Str :=
  [Char.ofNat 0xC3, Char.ofNat 0xA9, Char.ofNat 0xC3, Char.ofNat 0xA9, Char.ofNat 0xC3,
   Char.ofNat 0xA9, Char.ofNat 0xC3, Char.ofNat 0xA9, Char.ofNat 0xC3, Char.ofNat 0xA9]

/-- The demo environment with pages that hold the five accented letters and
nothing else. -/
def demo_env_accents : Env :=
  { demo_env with
    gumbo_parse := fun _ => some (.element .OTHER [] [.text demo_accents]) }

/-! ## Floating point: rounding error -/

theorem log2Fuel_spec : ∀ (fuel n : ℕ), 0 < n → n ≤ fuel →
    2 ^ log2Fuel fuel n ≤ n ∧ n < 2 ^ (log2Fuel fuel n + 1)
  | 0, n, h0, h => by omega
  | fuel + 1, n, h0, h => by
    unfold log2Fuel
    split_ifs with h2
    · have : n = 1 := by omega
      subst this
      simp
    · have ih := log2Fuel_spec fuel (n / 2) (by omega) (by omega)
      obtain ⟨ih1, ih2⟩ := ih
      constructor
      · rw [pow_succ]
        omega
      · rw [pow_succ]
        omega

theorem two_zpow_split (k : ℤ) :
    (2 : ℚ) ^ k = (2 : ℚ) ^ k.toNat / (2 : ℚ) ^ (-k).toNat := by
  rcases le_total 0 k with hk | hk
  · have h1 : (-k).toNat = 0 := by omega
    rw [h1, pow_zero, div_one, ← zpow_natCast, Int.toNat_of_nonneg hk]
  · have h1 : k.toNat = 0 := by omega
    have h2 : ((-k).toNat : ℤ) = -k := Int.toNat_of_nonneg (by omega)
    rw [h1, pow_zero, ← zpow_natCast, h2, zpow_neg, one_div, inv_inv]

theorem floorLog2_spec (n d : ℕ) (hn : 0 < n) (hd : 0 < d) :
    (2 : ℚ) ^ floorLog2 n d ≤ (n : ℚ) / d ∧ (n : ℚ) / d < (2 : ℚ) ^ (floorLog2 n d + 1) := by
  obtain ⟨na, nb⟩ := log2Fuel_spec n n hn le_rfl
  obtain ⟨da, db⟩ := log2Fuel_spec d d hd le_rfl
  have hdq : (0 : ℚ) < d := by exact_mod_cast hd
  have hnq : (0 : ℚ) < n := by exact_mod_cast hn
  have na' : (2 : ℚ) ^ (log2Fuel n n : ℤ) ≤ n := by rw [zpow_natCast]; exact_mod_cast na
  have nb' : (n : ℚ) < (2 : ℚ) ^ ((log2Fuel n n : ℤ) + 1) := by
    rw [← Nat.cast_succ, zpow_natCast]; exact_mod_cast nb
  have da' : (2 : ℚ) ^ (log2Fuel d d : ℤ) ≤ d := by rw [zpow_natCast]; exact_mod_cast da
  have db' : (d : ℚ) < (2 : ℚ) ^ ((log2Fuel d d : ℤ) + 1) := by
    rw [← Nat.cast_succ, zpow_natCast]; exact_mod_cast db
  have h2 : (0 : ℚ) < 2 := by norm_num
  unfold floorLog2
  set k : ℤ := (log2Fuel n n : ℤ) - (log2Fuel d d : ℤ) with hk
  have hpos : ∀ j : ℤ, (0 : ℚ) < (2 : ℚ) ^ j := fun j => zpow_pos h2 j
  have hcond : (d * 2 ^ k.toNat ≤ n * 2 ^ (-k).toNat) ↔ (2 : ℚ) ^ k ≤ (n : ℚ) / d := by
    rw [two_zpow_split k, div_le_div_iff₀ (pow_pos h2 _) hdq]
    constructor
    · intro h
      have : ((d * 2 ^ k.toNat : ℕ) : ℚ) ≤ ((n * 2 ^ (-k).toNat : ℕ) : ℚ) := by exact_mod_cast h
      push_cast at this
      linarith
    · intro h
      have : ((d * 2 ^ k.toNat : ℕ) : ℚ) ≤ ((n * 2 ^ (-k).toNat : ℕ) : ℚ) := by
        push_cast
        linarith
      exact_mod_cast this
  have hsplit1 : (2 : ℚ) ^ (k + 1) = (2 : ℚ) ^ ((log2Fuel n n : ℤ) + 1) / (2 : ℚ) ^ (log2Fuel d d : ℤ) := by
    rw [← zpow_sub₀ (by norm_num : (2 : ℚ) ≠ 0)]
    congr 1
    omega
  have hsplit2 : (2 : ℚ) ^ (k - 1) = (2 : ℚ) ^ (log2Fuel n n : ℤ) / (2 : ℚ) ^ ((log2Fuel d d : ℤ) + 1) := by
    rw [← zpow_sub₀ (by norm_num : (2 : ℚ) ≠ 0)]
    congr 1
    omega
  show (2 : ℚ) ^ (if d * 2 ^ k.toNat ≤ n * 2 ^ (-k).toNat then k else k - 1) ≤ (n : ℚ) / d ∧
    (n : ℚ) / d < (2 : ℚ) ^ ((if d * 2 ^ k.toNat ≤ n * 2 ^ (-k).toNat then k else k - 1) + 1)
  split_ifs with hc
  · refine ⟨hcond.mp hc, ?_⟩
    rw [hsplit1, div_lt_div_iff₀ hdq (hpos _)]
    calc (n : ℚ) * (2 : ℚ) ^ (log2Fuel d d : ℤ) ≤ n * d := by
          exact mul_le_mul_of_nonneg_left da' hnq.le
      _ < (2 : ℚ) ^ ((log2Fuel n n : ℤ) + 1) * d := by
          exact mul_lt_mul_of_pos_right nb' hdq
  · have hc' : ¬ ((2 : ℚ) ^ k ≤ (n : ℚ) / d) := fun h => hc (hcond.mpr h)
    rw [sub_add_cancel]
    refine ⟨?_, lt_of_not_le hc'⟩
    rw [hsplit2, div_le_div_iff₀ (hpos _) hdq]
    calc (2 : ℚ) ^ (log2Fuel n n : ℤ) * d ≤ n * d := by
          exact mul_le_mul_of_nonneg_right na' hdq.le
      _ ≤ n * (2 : ℚ) ^ ((log2Fuel d d : ℤ) + 1) := by
          exact mul_le_mul_of_nonneg_left db'.le hnq.le

theorem roundNearestEven_close (n d : ℕ) (hd : 0 < d) :
    |(roundNearestEven n d : ℚ) - (n : ℚ) / d| ≤ 1 / 2 := by
  have hdq : (0 : ℚ) < d := by exact_mod_cast hd
  have hdiv : (n : ℚ) / d = (n / d : ℕ) + (n % d : ℕ) / (d : ℚ) := by
    have h := Nat.div_add_mod n d
    have h' : (n : ℚ) = (d : ℚ) * (n / d : ℕ) + (n % d : ℕ) := by exact_mod_cast h.symm
    field_simp
    linarith
  have hr0 : (0 : ℚ) ≤ (n % d : ℕ) / (d : ℚ) := by positivity
  have hr1 : ((n % d : ℕ) : ℚ) / (d : ℚ) < 1 := by
    rw [div_lt_one hdq]
    exact_mod_cast Nat.mod_lt n hd
  unfold roundNearestEven
  rw [abs_le]
  split_ifs with h1 h2 h3
  · have h1' : 2 * ((n % d : ℕ) : ℚ) < d := by exact_mod_cast h1
    have : ((n % d : ℕ) : ℚ) / (d : ℚ) < 1 / 2 := by
      rw [div_lt_div_iff₀ hdq (by norm_num)]
      linarith
    constructor <;> linarith
  · have h2' : (d : ℚ) < 2 * ((n % d : ℕ) : ℚ) := by exact_mod_cast h2
    have : 1 / 2 < ((n % d : ℕ) : ℚ) / (d : ℚ) := by
      rw [div_lt_div_iff₀ (by norm_num) hdq]
      linarith
    push_cast
    constructor <;> linarith
  · have h1' : (d : ℚ) ≤ 2 * ((n % d : ℕ) : ℚ) := by exact_mod_cast not_lt.mp h1
    have h2' : 2 * ((n % d : ℕ) : ℚ) ≤ d := by exact_mod_cast not_lt.mp h2
    have : ((n % d : ℕ) : ℚ) / (d : ℚ) = 1 / 2 := by
      rw [div_eq_div_iff hdq.ne' (by norm_num)]
      linarith
    constructor <;> linarith
  · have h1' : (d : ℚ) ≤ 2 * ((n % d : ℕ) : ℚ) := by exact_mod_cast not_lt.mp h1
    have h2' : 2 * ((n % d : ℕ) : ℚ) ≤ d := by exact_mod_cast not_lt.mp h2
    have : ((n % d : ℕ) : ℚ) / (d : ℚ) = 1 / 2 := by
      rw [div_eq_div_iff hdq.ne' (by norm_num)]
      linarith
    push_cast
    constructor <;> linarith

/-- Rounding to `p` bits moves a positive fraction by at most the fraction `2 ^ (-p)` of it. -/
theorem Flt.round_close (p n d : ℕ) (hn : 0 < n) (hd : 0 < d) :
    |(Flt.round p n d).toRat - (n : ℚ) / d| ≤ (n : ℚ) / d / (2 : ℚ) ^ p := by
  have hdq : (0 : ℚ) < d := by exact_mod_cast hd
  have hnq : (0 : ℚ) < n := by exact_mod_cast hn
  have h2 : (0 : ℚ) < 2 := by norm_num
  have hpos : ∀ j : ℤ, (0 : ℚ) < (2 : ℚ) ^ j := fun j => zpow_pos h2 j
  obtain ⟨hlo, -⟩ := floorLog2_spec n d hn hd
  unfold Flt.round
  rw [if_neg hn.ne']
  set s : ℤ := floorLog2 n d + 1 - (p : ℤ) with hs
  -- the significand is within 1/2 of the scaled fraction
  have key : ∀ m : ℕ, |(m : ℚ) - (n : ℚ) / d / (2 : ℚ) ^ s| ≤ 1 / 2 →
      |(Flt.toRat ⟨m, s⟩) - (n : ℚ) / d| ≤ (n : ℚ) / d / (2 : ℚ) ^ p := by
    intro m hm
    have e1 : (Flt.toRat ⟨m, s⟩) - (n : ℚ) / d = ((m : ℚ) - (n : ℚ) / d / (2 : ℚ) ^ s) * (2 : ℚ) ^ s := by
      unfold Flt.toRat
      have := (hpos s).ne'
      field_simp
      ring
    rw [e1, abs_mul, abs_of_pos (hpos s)]
    have e2 : (2 : ℚ) ^ s = (2 : ℚ) ^ (floorLog2 n d) * 2 / (2 : ℚ) ^ p := by
      rw [hs, zpow_sub₀ h2.ne', zpow_add₀ h2.ne', zpow_one, zpow_natCast]
    calc |(m : ℚ) - (n : ℚ) / d / (2 : ℚ) ^ s| * (2 : ℚ) ^ s
        ≤ 1 / 2 * (2 : ℚ) ^ s := mul_le_mul_of_nonneg_right hm (hpos s).le
      _ = (2 : ℚ) ^ (floorLog2 n d) / (2 : ℚ) ^ p := by rw [e2]; ring
      _ ≤ (n : ℚ) / d / (2 : ℚ) ^ p := by
          exact div_le_div_of_nonneg_right hlo (pow_pos h2 p).le
  show |(Flt.toRat (if 0 ≤ s then ⟨roundNearestEven n (d * 2 ^ s.toNat), s⟩
    else ⟨roundNearestEven (n * 2 ^ (-s).toNat) d, s⟩)) - (n : ℚ) / d| ≤ _
  split_ifs with h0
  · apply key
    have hc := roundNearestEven_close n (d * 2 ^ s.toNat) (by positivity)
    have e : (n : ℚ) / ((d * 2 ^ s.toNat : ℕ) : ℚ) = (n : ℚ) / d / (2 : ℚ) ^ s := by
      push_cast
      rw [← zpow_natCast, Int.toNat_of_nonneg h0, div_div]
    rwa [e] at hc
  · apply key
    have hc := roundNearestEven_close (n * 2 ^ (-s).toNat) d hd
    have e : ((n * 2 ^ (-s).toNat : ℕ) : ℚ) / (d : ℚ) = (n : ℚ) / d / (2 : ℚ) ^ s := by
      push_cast
      rw [← zpow_natCast, Int.toNat_of_nonneg (by omega), zpow_neg,
        div_right_comm (n : ℚ) d, div_eq_mul_inv (n : ℚ)]
    rwa [e] at hc

theorem Flt.round_zero (p d : ℕ) : (Flt.round p 0 d).toRat = 0 := by
  simp [Flt.round, Flt.toRat]

theorem Flt.round_le (p n d : ℕ) (hn : 0 < n) (hd : 0 < d) :
    (Flt.round p n d).toRat ≤ (n : ℚ) / d * (1 + 1 / (2 : ℚ) ^ p) := by
  have h := (abs_le.mp (Flt.round_close p n d hn hd)).2
  have e : (n : ℚ) / d * (1 + 1 / (2 : ℚ) ^ p) = (n : ℚ) / d + (n : ℚ) / d / (2 : ℚ) ^ p := by ring
  rw [e]
  linarith

theorem Flt.round_ge (p n d : ℕ) (hn : 0 < n) (hd : 0 < d) :
    (n : ℚ) / d * (1 - 1 / (2 : ℚ) ^ p) ≤ (Flt.round p n d).toRat := by
  have h := (abs_le.mp (Flt.round_close p n d hn hd)).1
  have e : (n : ℚ) / d * (1 - 1 / (2 : ℚ) ^ p) = (n : ℚ) / d - (n : ℚ) / d / (2 : ℚ) ^ p := by ring
  rw [e]
  linarith

theorem Flt.toRat_pos_iff (x : Flt) : 0 < x.toRat ↔ 0 < x.m := by
  unfold Flt.toRat
  have h2 : (0 : ℚ) < (2 : ℚ) ^ x.e := zpow_pos (by norm_num) _
  constructor
  · intro h
    have : (0 : ℚ) < x.m := pos_of_mul_pos_left h h2.le
    exact_mod_cast this
  · intro h
    have : (0 : ℚ) < x.m := by exact_mod_cast h
    positivity

theorem Flt.toRat_nonneg (x : Flt) : 0 ≤ x.toRat := by
  unfold Flt.toRat
  positivity

theorem Flt.round_pos (p n d : ℕ) (hp : 0 < p) (hn : 0 < n) (hd : 0 < d) :
    0 < (Flt.round p n d).m := by
  rw [← Flt.toRat_pos_iff]
  have hq : (0 : ℚ) < (n : ℚ) / d := by positivity
  have h1 : (1 : ℚ) / (2 : ℚ) ^ p < 1 := by
    rw [div_lt_one (by positivity)]
    exact one_lt_pow₀ (by norm_num) hp.ne'
  have := Flt.round_ge p n d hn hd
  have h3 : 0 < (n : ℚ) / d * (1 - 1 / (2 : ℚ) ^ p) := mul_pos hq (by linarith)
  linarith

theorem Flt.ofNat_toRat_le (p n : ℕ) (hn : 0 < n) :
    (Flt.ofNat p n).toRat ≤ (n : ℚ) * (1 + 1 / (2 : ℚ) ^ p) := by
  have := Flt.round_le p n 1 hn one_pos
  simpa [Flt.ofNat] using this

theorem Flt.ofNat_toRat_ge (p n : ℕ) (hn : 0 < n) :
    (n : ℚ) * (1 - 1 / (2 : ℚ) ^ p) ≤ (Flt.ofNat p n).toRat := by
  have := Flt.round_ge p n 1 hn one_pos
  simpa [Flt.ofNat] using this

theorem Flt.ofNat_pos (p n : ℕ) (hp : 0 < p) (hn : 0 < n) : 0 < (Flt.ofNat p n).m :=
  Flt.round_pos p n 1 hp hn one_pos

theorem Flt.div_arg (x y : Flt) (hy : 0 < y.m) :
    ((x.m * 2 ^ (x.e - y.e).toNat : ℕ) : ℚ) / ((y.m * 2 ^ (y.e - x.e).toNat : ℕ) : ℚ)
      = x.toRat / y.toRat := by
  have e : y.e - x.e = -(x.e - y.e) := by ring
  have h2 : (2 : ℚ) ≠ 0 := by norm_num
  have hym : (y.m : ℚ) ≠ 0 := by exact_mod_cast hy.ne'
  have hsp := two_zpow_split (x.e - y.e)
  rw [zpow_sub₀ h2] at hsp
  have ha : (2 : ℚ) ^ (x.e - y.e).toNat ≠ 0 := pow_ne_zero _ h2
  have hb : (2 : ℚ) ^ (-(x.e - y.e)).toNat ≠ 0 := pow_ne_zero _ h2
  have hc : (2 : ℚ) ^ y.e ≠ 0 := zpow_ne_zero _ h2
  have hd : (2 : ℚ) ^ x.e ≠ 0 := zpow_ne_zero _ h2
  unfold Flt.toRat
  rw [e]
  push_cast
  rw [div_eq_div_iff (mul_ne_zero hym hb) (mul_ne_zero hym hc)]
  rw [div_eq_div_iff hc hb] at hsp
  calc (x.m : ℚ) * (2 : ℚ) ^ (x.e - y.e).toNat * ((y.m : ℚ) * (2 : ℚ) ^ y.e)
      = (x.m : ℚ) * y.m * ((2 : ℚ) ^ (x.e - y.e).toNat * (2 : ℚ) ^ y.e) := by ring
    _ = (x.m : ℚ) * y.m * ((2 : ℚ) ^ x.e * (2 : ℚ) ^ (-(x.e - y.e)).toNat) := by rw [hsp]
    _ = (x.m : ℚ) * (2 : ℚ) ^ x.e * ((y.m : ℚ) * (2 : ℚ) ^ (-(x.e - y.e)).toNat) := by ring

theorem Flt.mul_arg (x y : Flt) :
    ((x.m * y.m * 2 ^ (x.e + y.e).toNat : ℕ) : ℚ) / ((2 ^ (-(x.e + y.e)).toNat : ℕ) : ℚ)
      = x.toRat * y.toRat := by
  have h2 : (2 : ℚ) ≠ 0 := by norm_num
  have hsp := two_zpow_split (x.e + y.e)
  rw [zpow_add₀ h2] at hsp
  unfold Flt.toRat
  push_cast
  rw [mul_div_assoc, ← hsp]
  ring

theorem Flt.div_toRat_le (p : ℕ) (x y : Flt) (hx : 0 < x.m) (hy : 0 < y.m) :
    (Flt.div p x y).toRat ≤ x.toRat / y.toRat * (1 + 1 / (2 : ℚ) ^ p) := by
  have := Flt.round_le p (x.m * 2 ^ (x.e - y.e).toNat) (y.m * 2 ^ (y.e - x.e).toNat)
    (by positivity) (by positivity)
  rwa [Flt.div_arg x y hy] at this

theorem Flt.div_toRat_ge (p : ℕ) (x y : Flt) (hx : 0 < x.m) (hy : 0 < y.m) :
    x.toRat / y.toRat * (1 - 1 / (2 : ℚ) ^ p) ≤ (Flt.div p x y).toRat := by
  have := Flt.round_ge p (x.m * 2 ^ (x.e - y.e).toNat) (y.m * 2 ^ (y.e - x.e).toNat)
    (by positivity) (by positivity)
  rwa [Flt.div_arg x y hy] at this

theorem Flt.div_pos (p : ℕ) (x y : Flt) (hp : 0 < p) (hx : 0 < x.m) (hy : 0 < y.m) :
    0 < (Flt.div p x y).m :=
  Flt.round_pos p _ _ hp (by positivity) (by positivity)

theorem Flt.mul_toRat_le (p : ℕ) (x y : Flt) (hx : 0 < x.m) (hy : 0 < y.m) :
    (Flt.mul p x y).toRat ≤ x.toRat * y.toRat * (1 + 1 / (2 : ℚ) ^ p) := by
  have := Flt.round_le p (x.m * y.m * 2 ^ (x.e + y.e).toNat) (2 ^ (-(x.e + y.e)).toNat)
    (by positivity) (by positivity)
  rwa [Flt.mul_arg x y] at this

theorem Flt.mul_toRat_ge (p : ℕ) (x y : Flt) (hx : 0 < x.m) (hy : 0 < y.m) :
    x.toRat * y.toRat * (1 - 1 / (2 : ℚ) ^ p) ≤ (Flt.mul p x y).toRat := by
  have := Flt.round_ge p (x.m * y.m * 2 ^ (x.e + y.e).toNat) (2 ^ (-(x.e + y.e)).toNat)
    (by positivity) (by positivity)
  rwa [Flt.mul_arg x y] at this

theorem Flt.lt_iff (x y : Flt) : Flt.lt x y = true ↔ x.toRat < y.toRat := by
  have h2 : (0 : ℚ) < 2 := by norm_num
  have e : y.e - x.e = -(x.e - y.e) := by ring
  have hsp := two_zpow_split (x.e - y.e)
  rw [zpow_sub₀ h2.ne'] at hsp
  have hb : (0 : ℚ) < (2 : ℚ) ^ (-(x.e - y.e)).toNat := pow_pos h2 _
  have hc : (0 : ℚ) < (2 : ℚ) ^ y.e := zpow_pos h2 _
  rw [div_eq_div_iff hc.ne' hb.ne'] at hsp
  have key : ((x.m : ℚ) * (2 : ℚ) ^ (x.e - y.e).toNat - (y.m : ℚ) * (2 : ℚ) ^ (-(x.e - y.e)).toNat)
      * (2 : ℚ) ^ y.e
      = ((x.m : ℚ) * (2 : ℚ) ^ x.e - (y.m : ℚ) * (2 : ℚ) ^ y.e) * (2 : ℚ) ^ (-(x.e - y.e)).toNat := by
    linear_combination (-(x.m : ℚ)) * hsp
  unfold Flt.lt Flt.toRat
  rw [decide_eq_true_iff, e, ← Nat.cast_lt (α := ℚ)]
  push_cast
  constructor
  · intro h
    by_contra hcon
    have h1 : ((x.m : ℚ) * (2 : ℚ) ^ (x.e - y.e).toNat
        - (y.m : ℚ) * (2 : ℚ) ^ (-(x.e - y.e)).toNat) * (2 : ℚ) ^ y.e < 0 :=
      mul_neg_of_neg_of_pos (by linarith) hc
    rw [key] at h1
    have h3 := mul_nonneg (sub_nonneg.mpr (not_lt.mp hcon)) hb.le
    linarith
  · intro h
    by_contra hcon
    have h1 : ((x.m : ℚ) * (2 : ℚ) ^ x.e - (y.m : ℚ) * (2 : ℚ) ^ y.e)
        * (2 : ℚ) ^ (-(x.e - y.e)).toNat < 0 :=
      mul_neg_of_neg_of_pos (by linarith) hb
    rw [← key] at h1
    have h3 := mul_nonneg (sub_nonneg.mpr (not_lt.mp hcon)) hc.le
    linarith

theorem Flt.le_iff (x y : Flt) : Flt.le x y = true ↔ x.toRat ≤ y.toRat := by
  have h2 : (0 : ℚ) < 2 := by norm_num
  have e : y.e - x.e = -(x.e - y.e) := by ring
  have hsp := two_zpow_split (x.e - y.e)
  rw [zpow_sub₀ h2.ne'] at hsp
  have hb : (0 : ℚ) < (2 : ℚ) ^ (-(x.e - y.e)).toNat := pow_pos h2 _
  have hc : (0 : ℚ) < (2 : ℚ) ^ y.e := zpow_pos h2 _
  rw [div_eq_div_iff hc.ne' hb.ne'] at hsp
  have key : ((x.m : ℚ) * (2 : ℚ) ^ (x.e - y.e).toNat - (y.m : ℚ) * (2 : ℚ) ^ (-(x.e - y.e)).toNat)
      * (2 : ℚ) ^ y.e
      = ((x.m : ℚ) * (2 : ℚ) ^ x.e - (y.m : ℚ) * (2 : ℚ) ^ y.e) * (2 : ℚ) ^ (-(x.e - y.e)).toNat := by
    linear_combination (-(x.m : ℚ)) * hsp
  unfold Flt.le Flt.toRat
  rw [decide_eq_true_iff, e, ← Nat.cast_le (α := ℚ)]
  push_cast
  constructor
  · intro h
    by_contra hcon
    have h1 : ((x.m : ℚ) * (2 : ℚ) ^ (x.e - y.e).toNat
        - (y.m : ℚ) * (2 : ℚ) ^ (-(x.e - y.e)).toNat) * (2 : ℚ) ^ y.e ≤ 0 :=
      mul_nonpos_of_nonpos_of_nonneg (by linarith) hc.le
    rw [key] at h1
    have h3 := mul_pos (sub_pos.mpr (not_le.mp hcon)) hb
    linarith
  · intro h
    by_contra hcon
    have h1 : ((x.m : ℚ) * (2 : ℚ) ^ x.e - (y.m : ℚ) * (2 : ℚ) ^ y.e)
        * (2 : ℚ) ^ (-(x.e - y.e)).toNat ≤ 0 :=
      mul_nonpos_of_nonpos_of_nonneg (by linarith) hb.le
    rw [← key] at h1
    have h3 := mul_pos (sub_pos.mpr (not_le.mp hcon)) hc
    linarith

theorem Flt.min_toRat (a b : Flt) : (Flt.min a b).toRat = Min.min a.toRat b.toRat := by
  unfold Flt.min
  by_cases h : Flt.lt b a = true
  · rw [if_pos h]
    rw [Flt.lt_iff] at h
    exact (min_eq_right h.le).symm
  · rw [if_neg h]
    rw [Flt.lt_iff, not_lt] at h
    exact (min_eq_left h).symm

theorem Flt.min_pos (a b : Flt) (ha : 0 < a.m) (hb : 0 < b.m) : 0 < (Flt.min a b).m := by
  unfold Flt.min
  split_ifs <;> assumption

theorem Flt.toInt_le (x : Flt) : (Flt.toInt x : ℚ) ≤ x.toRat := by
  unfold Flt.toInt Flt.toRat
  split_ifs with h
  · push_cast
    rw [← zpow_natCast, Int.toNat_of_nonneg h]
  · have hk : ((-x.e).toNat : ℤ) = -x.e := Int.toNat_of_nonneg (by omega)
    have e : (2 : ℚ) ^ x.e = 1 / ((2 ^ (-x.e).toNat : ℕ) : ℚ) := by
      push_cast
      rw [← zpow_natCast, hk, zpow_neg, one_div, inv_inv]
    rw [e, mul_one_div]
    exact Nat.cast_div_le

theorem Flt.lt_toInt_succ (x : Flt) : x.toRat < (Flt.toInt x : ℚ) + 1 := by
  unfold Flt.toInt Flt.toRat
  split_ifs with h
  · push_cast
    rw [← zpow_natCast, Int.toNat_of_nonneg h]
    linarith
  · have hk : ((-x.e).toNat : ℤ) = -x.e := Int.toNat_of_nonneg (by omega)
    have hpos : (0 : ℚ) < ((2 ^ (-x.e).toNat : ℕ) : ℚ) := by positivity
    have e : (2 : ℚ) ^ x.e = 1 / ((2 ^ (-x.e).toNat : ℕ) : ℚ) := by
      push_cast
      rw [← zpow_natCast, hk, zpow_neg, one_div, inv_inv]
    rw [e, mul_one_div, div_lt_iff₀ hpos]
    have := Nat.lt_div_mul_add (a := x.m) (b := 2 ^ (-x.e).toNat) (by positivity)
    have h' : ((x.m : ℕ) : ℚ) < ((x.m / 2 ^ (-x.e).toNat * 2 ^ (-x.e).toNat + 2 ^ (-x.e).toNat : ℕ) : ℚ) := by
      exact_mod_cast this
    push_cast at h' ⊢
    linarith

/-! ## Thumbnail sizes: bounds -/

theorem fit_upper_aux (ε b B W s sc P : ℚ) (hε : 0 ≤ ε) (hW : 0 < W)
    (hB : B ≤ b * (1 + ε)) (hs : s ≤ B / W * (1 + ε)) (hsc : sc ≤ s)
    (hP : P ≤ W * sc * (1 + ε)) : P ≤ b * (1 + ε) ^ 3 := by
  have h1 : W * sc ≤ W * (B / W * (1 + ε)) :=
    mul_le_mul_of_nonneg_left (hsc.trans hs) hW.le
  have h2 : W * (B / W * (1 + ε)) = B * (1 + ε) := by
    field_simp
  have h3 : W * sc * (1 + ε) ≤ B * (1 + ε) * (1 + ε) := by
    rw [h2] at h1
    exact mul_le_mul_of_nonneg_right h1 (by linarith)
  have h4 : B * (1 + ε) * (1 + ε) ≤ b * (1 + ε) * (1 + ε) * (1 + ε) := by
    have := mul_le_mul_of_nonneg_right hB (by linarith : (0 : ℚ) ≤ 1 + ε)
    have := mul_le_mul_of_nonneg_right this (by linarith : (0 : ℚ) ≤ 1 + ε)
    linarith
  calc P ≤ W * sc * (1 + ε) := hP
    _ ≤ B * (1 + ε) * (1 + ε) := h3
    _ ≤ b * (1 + ε) * (1 + ε) * (1 + ε) := h4
    _ = b * (1 + ε) ^ 3 := by ring

theorem single_eps_bound (b : ℕ) (hb : b ≤ 2 ^ 20) :
    (b : ℚ) * (1 + 1 / (2 : ℚ) ^ 24) ^ 3 < (b : ℚ) + 1 := by
  have hbq : (b : ℚ) ≤ 2 ^ 20 := by exact_mod_cast hb
  have hb0 : (0 : ℚ) ≤ b := by positivity
  have h : (1 + 1 / (2 : ℚ) ^ 24) ^ 3 ≤ 1 + 1 / 2 ^ 21 := by norm_num
  have h1 : (b : ℚ) * (1 + 1 / (2 : ℚ) ^ 24) ^ 3 ≤ b * (1 + 1 / 2 ^ 21) :=
    mul_le_mul_of_nonneg_left h hb0
  have h2 : (b : ℚ) * (1 + 1 / 2 ^ 21) = b + b / 2 ^ 21 := by ring
  have h3 : (b : ℚ) / 2 ^ 21 < 1 := by
    rw [div_lt_one (by positivity)]
    calc (b : ℚ) ≤ 2 ^ 20 := hbq
      _ < 2 ^ 21 := by norm_num
  linarith

/-- One output dimension of the raster fit: the product of the source
dimension with a scale not above `max_dim / dimension` truncates to at most
`max_dim`. -/
theorem scaled_dim_le (n b : ℕ) (sc : Flt) (hn : 0 < n) (hb : 0 < b) (hb2 : b ≤ 2 ^ 20)
    (hsc0 : 0 < sc.m)
    (hsc : sc.toRat ≤ (Flt.div 24 (Flt.ofNat 24 b) (Flt.ofNat 24 n)).toRat) :
    Flt.toInt (Flt.mul 24 (Flt.ofNat 24 n) sc) ≤ b := by
  have hW := Flt.ofNat_pos 24 n (by norm_num) hn
  have hB := Flt.ofNat_pos 24 b (by norm_num) hb
  have hWq : 0 < (Flt.ofNat 24 n).toRat := (Flt.toRat_pos_iff _).mpr hW
  have hup := fit_upper_aux (1 / (2 : ℚ) ^ 24) b (Flt.ofNat 24 b).toRat (Flt.ofNat 24 n).toRat
    (Flt.div 24 (Flt.ofNat 24 b) (Flt.ofNat 24 n)).toRat sc.toRat
    (Flt.mul 24 (Flt.ofNat 24 n) sc).toRat (by positivity) hWq
    (Flt.ofNat_toRat_le 24 b hb) (Flt.div_toRat_le 24 _ _ hB hW) hsc
    (Flt.mul_toRat_le 24 _ _ hW hsc0)
  have hlt := single_eps_bound b hb2
  have hfl := Flt.toInt_le (Flt.mul 24 (Flt.ofNat 24 n) sc)
  have : (Flt.toInt (Flt.mul 24 (Flt.ofNat 24 n) sc) : ℚ) < (b : ℚ) + 1 := by linarith
  have h' : Flt.toInt (Flt.mul 24 (Flt.ofNat 24 n) sc) < b + 1 := by exact_mod_cast this
  omega

/-- Both dimensions of the raster fit stay inside the box, for any box up to `2 ^ 20`. -/
theorem generate_thumbnails_fit_le (w h b : ℕ) (hw : 1 ≤ w) (hh : 1 ≤ h) (hb : 1 ≤ b)
    (hb2 : b ≤ 2 ^ 20) :
    (generate_thumbnails_fit w h b).1 ≤ b ∧ (generate_thumbnails_fit w h b).2 ≤ b := by
  unfold generate_thumbnails_fit
  split_ifs with hfit
  · exact hfit
  · have hW := Flt.ofNat_pos 24 w (by norm_num) hw
    have hH := Flt.ofNat_pos 24 h (by norm_num) hh
    have hB := Flt.ofNat_pos 24 b (by norm_num) hb
    have hs1 := Flt.div_pos 24 _ _ (by norm_num) hB hW
    have hs2 := Flt.div_pos 24 _ _ (by norm_num) hB hH
    have hsc0 := Flt.min_pos _ _ hs1 hs2
    have hmin := Flt.min_toRat (Flt.div 24 (Flt.ofNat 24 b) (Flt.ofNat 24 w))
      (Flt.div 24 (Flt.ofNat 24 b) (Flt.ofNat 24 h))
    have h1 := scaled_dim_le w b _ hw hb hb2 hsc0 (by rw [hmin]; exact min_le_left _ _)
    have h2 := scaled_dim_le h b _ hh hb hb2 hsc0 (by rw [hmin]; exact min_le_right _ _)
    exact ⟨max_le hb h1, max_le hb h2⟩

/-- C2. For a decoded raster source of width `w ≥ 1` and height `h ≥ 1` and a
target box `b` among 150, 300, 100, 800, the size `(tw, th)` computed by
`generate_thumbnails` has `tw ≤ b` and `th ≤ b`. -/
theorem C2_fit_within_box (w h b : ℕ) (hw : 1 ≤ w) (hh : 1 ≤ h) (hb : b ∈ thumb_sizes) :
    (generate_thumbnails_fit w h b).1 ≤ b ∧ (generate_thumbnails_fit w h b).2 ≤ b := by
  have h1 : 1 ≤ b ∧ b ≤ 2 ^ 20 := by
    simp only [thumb_sizes, List.mem_cons, List.mem_singleton, List.not_mem_nil, or_false] at hb
    rcases hb with rfl | rfl | rfl | rfl <;> norm_num
  exact generate_thumbnails_fit_le w h b hw hh h1.1 h1.2

theorem C2_fit_within_box_witness :
    (generate_thumbnails_fit 2000 1000 800).1 ≤ 800 ∧
      (generate_thumbnails_fit 2000 1000 800).2 ≤ 800 :=
  C2_fit_within_box 2000 1000 800 (by decide) (by decide) (by decide)

/-- C3. A raster source of `w ≥ 1` by `h ≥ 1` pixels that already fits the box
(`w ≤ b` and `h ≤ b`, `b` among 150, 300, 100, 800) keeps its size: the
computed size is exactly `(w, h)`. -/
theorem C3_fit_no_upscale (w h b : ℕ) (_hw : 1 ≤ w) (_hh : 1 ≤ h) (_hb : b ∈ thumb_sizes)
    (hwb : w ≤ b) (hhb : h ≤ b) : generate_thumbnails_fit w h b = (w, h) := by
  unfold generate_thumbnails_fit
  rw [if_pos ⟨hwb, hhb⟩]

theorem C3_fit_no_upscale_witness : generate_thumbnails_fit 120 90 150 = (120, 90) :=
  C3_fit_no_upscale 120 90 150 (by decide) (by decide) (by decide) (by decide) (by decide)

/-- C4. A source of 171 by 171 pixels is larger than the 100 pixel box, and
the size computed for that box is 99 by 99: neither output dimension is the
box maximum.  The single precision quotient `100 / 171` is rounded down, the
product `171 * scale` rounds to the value just below 100, and the conversion
to `int` truncates it. -/
theorem C4_fit_misses_box_max : generate_thumbnails_fit 171 171 100 = (99, 99) := by
  decide

/-! ## The bounded queue: properties -/

theorem BoundedQueue.step_capacity {T : Type} (s : BoundedQueue T) (op : QueueOp T) :
    (s.step op).capacity_ = s.capacity_ := by
  cases op with
  | push item =>
    unfold BoundedQueue.step BoundedQueue.push
    split_ifs <;> rfl
  | pop =>
    obtain ⟨q, c, d⟩ := s
    cases q with
    | nil => cases d <;> rfl
    | cons a l => cases d <;> rfl
  | finish => rfl

theorem BoundedQueue.step_length_le {T : Type} (s : BoundedQueue T) (op : QueueOp T)
    (h : s.q_.length ≤ s.capacity_) : (s.step op).q_.length ≤ s.capacity_ := by
  cases op with
  | push item =>
    unfold BoundedQueue.step BoundedQueue.push
    split_ifs with h1 h2
    · exact h
    · have h3 : s.q_.length < s.capacity_ := by
        rcases h1 with h1 | h1
        · exact h1
        · exact absurd h1 h2
      simp only [List.length_append, List.length_singleton]
      omega
    · exact h
  | pop =>
    obtain ⟨q, c, d⟩ := s
    cases q with
    | nil => cases d <;> exact h
    | cons a l =>
      have h' : l.length ≤ c := by
        simp only [List.length_cons] at h
        omega
      cases d <;> exact h'
  | finish => exact h

theorem BoundedQueue.run_invariant {T : Type} (ops : List (QueueOp T)) :
    ∀ s : BoundedQueue T, s.q_.length ≤ s.capacity_ →
      (s.run ops).q_.length ≤ s.capacity_ ∧ (s.run ops).capacity_ = s.capacity_ := by
  induction ops with
  | nil => intro s h; exact ⟨h, rfl⟩
  | cons op ops ih =>
    intro s h
    have hc := BoundedQueue.step_capacity s op
    have hl := BoundedQueue.step_length_le s op h
    have := ih (s.step op) (by rw [hc]; exact hl)
    rw [hc] at this
    exact this

/-- C5. In every state reached from an empty queue of capacity `c ≥ 1` by any
sequence of `push`, `pop` and `finish` calls (a `push` on a full, unfinished
queue does not complete), at most `c` items are queued. -/
theorem C5_queue_occupancy_le_capacity {T : Type} (c : ℕ) (_hc : 1 ≤ c)
    (ops : List (QueueOp T)) :
    ((BoundedQueue.init c : BoundedQueue T).run ops).q_.length ≤ c :=
  (BoundedQueue.run_invariant ops (BoundedQueue.init c) (Nat.zero_le _)).1

theorem C5_queue_occupancy_le_capacity_witness :
    ((BoundedQueue.init 2 : BoundedQueue ℕ).run
      [.push 7, .push 8, .push 9, .pop, .push 10, .push 11, .finish, .push 12]).q_.length ≤ 2 :=
  C5_queue_occupancy_le_capacity 2 (by decide) _

theorem BoundedQueue.step_done {T : Type} (s : BoundedQueue T) (op : QueueOp T)
    (h : s.done_ = true) : (s.step op).done_ = true := by
  cases op with
  | push item =>
    unfold BoundedQueue.step BoundedQueue.push
    split_ifs <;> simp_all
  | pop =>
    obtain ⟨q, c, d⟩ := s
    cases q with
    | nil => cases d <;> exact h
    | cons a l => cases d <;> exact h
  | finish => rfl

theorem BoundedQueue.run_done {T : Type} (ops : List (QueueOp T)) :
    ∀ s : BoundedQueue T, s.done_ = true → (s.run ops).done_ = true := by
  induction ops with
  | nil => intro s h; exact h
  | cons op ops ih => intro s h; exact ih (s.step op) (BoundedQueue.step_done s op h)

/-- C6. Once `finish()` has been called, every `push`, whatever the occupancy
and whatever calls were made in between, returns `false` and leaves the queue
as it is: no item is accepted after `finish`. -/
theorem C6_push_after_finish_fails {T : Type} (s : BoundedQueue T) (ops : List (QueueOp T))
    (item : T) :
    (s.finish.run ops).push item = some (false, s.finish.run ops) := by
  have h : (s.finish.run ops).done_ = true := BoundedQueue.run_done ops s.finish rfl
  unfold BoundedQueue.push
  rw [if_pos (Or.inr h), if_pos h]

theorem BoundedQueue.popN_done {T : Type} (xs : List T) :
    ∀ (n c : ℕ), BoundedQueue.popN (xs.length + n) (⟨xs, c, true⟩ : BoundedQueue T)
      = (xs.map (fun x => some (some x)) ++ List.replicate n (some none), ⟨[], c, true⟩) := by
  induction xs with
  | nil =>
    intro n c
    induction n with
    | zero => rfl
    | succ n ih =>
      simp only [List.length_nil, Nat.zero_add, List.map_nil, List.nil_append] at ih ⊢
      simp [BoundedQueue.popN, BoundedQueue.pop, ih, List.replicate_succ]
  | cons x xs ih =>
    intro n c
    have e : (x :: xs).length + n = (xs.length + n) + 1 := by simp; omega
    rw [e]
    simp [BoundedQueue.popN, BoundedQueue.pop, ih n c]

theorem BoundedQueue.run_push {T : Type} (xs : List T) :
    ∀ s : BoundedQueue T, s.done_ = false → s.q_.length + xs.length ≤ s.capacity_ →
      (s.run (xs.map QueueOp.push)).q_ = s.q_ ++ xs := by
  induction xs with
  | nil => intro s _ _; simp [BoundedQueue.run]
  | cons x xs ih =>
    intro s hd hlen
    simp only [List.length_cons] at hlen
    have hlt : s.q_.length < s.capacity_ := by omega
    have hstep : s.step (QueueOp.push x) = { s with q_ := s.q_ ++ [x] } := by
      simp [BoundedQueue.step, BoundedQueue.push, hlt, hd]
    have h := ih { s with q_ := s.q_ ++ [x] } hd (by
      simp only [List.length_append, List.length_singleton]
      omega)
    simp only [BoundedQueue.run, List.map_cons, List.foldl_cons, hstep] at h ⊢
    rw [h]
    simp

/-- C7. If `finish()` is called on a queue holding `x1 .. xk` (front first),
the next `k` calls of `pop` succeed and return `x1, .., xk` in that order,
every later `pop` returns `false`, and the queue is left empty.  Front first
is the order the items were pushed in: pushing `xs` on a new queue with room
for them leaves exactly `xs` queued. -/
theorem C7_pop_drains_after_finish {T : Type} (s : BoundedQueue T) (n : ℕ) :
    BoundedQueue.popN (s.q_.length + n) s.finish
      = (s.q_.map (fun x => some (some x)) ++ List.replicate n (some none),
         ⟨[], s.capacity_, true⟩) ∧
    ∀ (c : ℕ) (xs : List T), xs.length ≤ c →
      ((BoundedQueue.init c : BoundedQueue T).run (xs.map QueueOp.push)).q_ = xs := by
  refine ⟨BoundedQueue.popN_done s.q_ n s.capacity_, ?_⟩
  intro c xs hlen
  have h := BoundedQueue.run_push xs (BoundedQueue.init c) rfl (by
    simp only [BoundedQueue.init, List.length_nil]
    omega)
  simpa [BoundedQueue.init] using h

theorem C7_pop_drains_after_finish_witness :
    [5, 6, 7].length ≤ 4 ∧
    ((BoundedQueue.init 4 : BoundedQueue ℕ).run ([5, 6, 7].map QueueOp.push)).q_ = [5, 6, 7] ∧
    BoundedQueue.popN (3 + 2) (⟨[5, 6, 7], 4, false⟩ : BoundedQueue ℕ).finish
      = ([some (some 5), some (some 6), some (some 7), some none, some none],
         ⟨[], 4, true⟩) :=
  ⟨by decide,
   (C7_pop_drains_after_finish (⟨[5, 6, 7], 4, false⟩ : BoundedQueue ℕ) 2).2 4 [5, 6, 7]
     (by decide),
   (C7_pop_drains_after_finish (⟨[5, 6, 7], 4, false⟩ : BoundedQueue ℕ) 2).1⟩

/-! ## The worker: one attempt -/

theorem Local.skip_image_path (loc : Local) (reason : Str) :
    (loc.skip reason).image_path = loc.image_path := by
  unfold Local.skip
  split_ifs <;> rfl

theorem Local.skip_thumb_dir (loc : Local) (reason : Str) :
    (loc.skip reason).thumb_dir = loc.thumb_dir := by
  unfold Local.skip
  split_ifs <;> rfl

/-- The three ways a call of `try_candidate` ends: it returns `false` with
the shared state, image path and thumbnail directory untouched; it throws;
or it returns `true` having attached the (non-empty) candidate. -/
theorem try_candidate_shape (env : Env) (dir : Str) (item : ZimWorkItem) (cand : Str)
    (loc : Local) (sh : Shared) :
    (∃ loc1, try_candidate env dir item cand loc sh = some (false, loc1, sh) ∧
        loc1.image_path = loc.image_path ∧ loc1.thumb_dir = loc.thumb_dir) ∨
    try_candidate env dir item cand loc sh = none ∨
    (∃ written, cand ≠ [] ∧ try_candidate env dir item cand loc sh
        = some (true, ⟨cand, dir ++ "/".toList ++ to_string item.seq, []⟩,
            sh.attach cand written)) := by
  unfold try_candidate
  simp only []
  split_ifs with h0 h1 h2 h3 h4
  · exact Or.inl ⟨loc, rfl, rfl, rfl⟩
  · exact Or.inl ⟨_, rfl, Local.skip_image_path _ _, Local.skip_thumb_dir _ _⟩
  · exact Or.inl ⟨_, rfl, Local.skip_image_path _ _, Local.skip_thumb_dir _ _⟩
  · exact Or.inl ⟨_, rfl, Local.skip_image_path _ _, Local.skip_thumb_dir _ _⟩
  · generalize generate_svg_thumbnails env _ _ _ = r
    cases r with
    | none => exact Or.inr (Or.inl rfl)
    | some written =>
      simp only []
      split_ifs
      · exact Or.inr (Or.inr ⟨written, h0, rfl⟩)
      · exact Or.inl ⟨loc, rfl, rfl, rfl⟩
  · generalize generate_thumbnails env _ _ _ = r
    cases r with
    | none => exact Or.inr (Or.inl rfl)
    | some written =>
      simp only []
      split_ifs
      · exact Or.inr (Or.inr ⟨written, h0, rfl⟩)
      · exact Or.inl ⟨loc, rfl, rfl, rfl⟩

/-- The value `try_candidate` returns does not depend on the state it starts from. -/
theorem try_candidate_fst (env : Env) (dir : Str) (item : ZimWorkItem) (cand : Str)
    (loc : Local) (sh : Shared) :
    (try_candidate env dir item cand loc sh).map Prod.fst = attempt env dir item cand := by
  unfold attempt try_candidate
  simp only []
  split_ifs
  · rfl
  · rfl
  · rfl
  · rfl
  · generalize generate_svg_thumbnails env _ _ _ = r
    cases r with
    | none => rfl
    | some written =>
      simp only []
      split_ifs <;> rfl
  · generalize generate_thumbnails env _ _ _ = r
    cases r with
    | none => rfl
    | some written =>
      simp only []
      split_ifs <;> rfl

theorem try_candidate_none (env : Env) (dir : Str) (item : ZimWorkItem) (cand : Str)
    (loc : Local) (sh : Shared) :
    try_candidate env dir item cand loc sh = none ↔ attempt env dir item cand = none := by
  rw [← try_candidate_fst env dir item cand loc sh]
  cases try_candidate env dir item cand loc sh <;> simp

theorem try_candidate_some (env : Env) (dir : Str) (item : ZimWorkItem) (cand : Str)
    (loc loc' : Local) (sh sh' : Shared) (b : Bool)
    (h : try_candidate env dir item cand loc sh = some (b, loc', sh')) :
    attempt env dir item cand = some b := by
  rw [← try_candidate_fst env dir item cand loc sh, h]
  rfl

/-- An attempt that returns `false` changes neither the shared state nor the
image path and thumbnail directory of the article. -/
theorem try_candidate_false (env : Env) (dir : Str) (item : ZimWorkItem) (cand : Str)
    (loc loc' : Local) (sh sh' : Shared)
    (h : try_candidate env dir item cand loc sh = some (false, loc', sh')) :
    sh' = sh ∧ loc'.image_path = loc.image_path ∧ loc'.thumb_dir = loc.thumb_dir := by
  rcases try_candidate_shape env dir item cand loc sh with ⟨loc1, h1, h2, h3⟩ | h1 | ⟨w, -, h1⟩
  · rw [h1] at h
    simp only [Option.some.injEq, Prod.mk.injEq, true_and] at h
    obtain ⟨rfl, rfl⟩ := h
    exact ⟨rfl, h2, h3⟩
  · rw [h1] at h
    exact absurd h (by simp)
  · rw [h1] at h
    simp at h

/-- An attempt that returns `true` attaches the candidate, which is not
empty, and counts it once in the dedup map and in the image counter. -/
theorem try_candidate_true (env : Env) (dir : Str) (item : ZimWorkItem) (cand : Str)
    (loc loc' : Local) (sh sh' : Shared)
    (h : try_candidate env dir item cand loc sh = some (true, loc', sh')) :
    cand ≠ [] ∧ loc' = ⟨cand, dir ++ "/".toList ++ to_string item.seq, []⟩ ∧
      ∃ written, sh' = sh.attach cand written := by
  rcases try_candidate_shape env dir item cand loc sh with ⟨loc1, h1, h2, h3⟩ | h1 | ⟨w, h0, h1⟩
  · rw [h1] at h
    simp at h
  · rw [h1] at h
    exact absurd h (by simp)
  · rw [h1] at h
    simp only [Option.some.injEq, Prod.mk.injEq, true_and] at h
    obtain ⟨rfl, rfl⟩ := h
    exact ⟨h0, rfl, w, rfl⟩

/-! ## The worker: the two passes -/

theorem pass1_spec (env : Env) (dir : Str) (item : ZimWorkItem) (cands : List Str) :
    ∀ (loc : Local) (sh : Shared) (found : Bool) (loc' : Local) (sh' : Shared),
      pass1 env dir item cands loc sh = some (found, loc', sh') →
      (found = true ∧ ∃ c w, cands.find? (fun c => decide (sh.img_usage_count c < 3)
            && attempt_succeeds env dir item c) = some c ∧ c ≠ [] ∧
          loc' = ⟨c, dir ++ "/".toList ++ to_string item.seq, []⟩ ∧ sh' = sh.attach c w) ∨
      (found = false ∧ cands.find? (fun c => decide (sh.img_usage_count c < 3)
            && attempt_succeeds env dir item c) = none ∧ sh' = sh ∧
          loc'.image_path = loc.image_path ∧ loc'.thumb_dir = loc.thumb_dir) := by
  induction cands with
  | nil =>
    intro loc sh found loc' sh' h
    simp only [pass1, Option.some.injEq, Prod.mk.injEq] at h
    obtain ⟨rfl, rfl, rfl⟩ := h
    exact Or.inr ⟨rfl, rfl, rfl, rfl, rfl⟩
  | cons c rest ih =>
    intro loc sh found loc' sh' h
    unfold pass1 at h
    split_ifs at h with hcount
    · have hp : (decide (sh.img_usage_count c < 3) && attempt_succeeds env dir item c) = false := by
        have : ¬ sh.img_usage_count c < 3 := by
          unfold IMG_DEDUP_THRESHOLD at hcount
          omega
        simp [this]
      rw [List.find?_cons_of_neg _ (by simp [hp])]
      exact ih loc sh found loc' sh' h
    · have hlt : sh.img_usage_count c < 3 := by
        unfold IMG_DEDUP_THRESHOLD at hcount
        omega
      rcases try_candidate_shape env dir item c loc sh with ⟨loc1, h1, h2, h3⟩ | h1 | ⟨w, h0, h1⟩
      · have hatt := try_candidate_some env dir item c loc loc1 sh sh false h1
        have hp : (decide (sh.img_usage_count c < 3) && attempt_succeeds env dir item c) = false := by
          simp [attempt_succeeds, hatt]
        rw [h1] at h
        simp only [] at h
        rw [List.find?_cons_of_neg _ (by simp [hp])]
        rcases ih loc1 sh found loc' sh' h with ⟨hf, c', w, hc', hne, hl, hs⟩ | ⟨hf, hnone, hs, hl1, hl2⟩
        · exact Or.inl ⟨hf, c', w, hc', hne, hl, hs⟩
        · exact Or.inr ⟨hf, hnone, hs, hl1.trans h2, hl2.trans h3⟩
      · rw [h1] at h
        exact absurd h (by simp)
      · have hatt := try_candidate_some env dir item c loc _ sh _ true h1
        have hp : (decide (sh.img_usage_count c < 3) && attempt_succeeds env dir item c) = true := by
          simp [attempt_succeeds, hatt, hlt]
        rw [h1] at h
        simp only [Option.some.injEq, Prod.mk.injEq] at h
        obtain ⟨rfl, rfl, rfl⟩ := h
        have hf : List.find? (fun c => decide (sh.img_usage_count c < 3)
            && attempt_succeeds env dir item c) (c :: rest) = some c :=
          List.find?_cons_of_pos _ hp
        exact Or.inl ⟨rfl, c, w, hf, h0, rfl, rfl⟩

theorem pass2_spec (env : Env) (dir : Str) (item : ZimWorkItem) (cands : List Str) :
    ∀ (loc : Local) (sh : Shared) (loc' : Local) (sh' : Shared),
      pass2 env dir item cands loc sh = some (loc', sh') →
      (∃ c w, cands.find? (attempt_succeeds env dir item) = some c ∧ c ≠ [] ∧
          loc' = ⟨c, dir ++ "/".toList ++ to_string item.seq, []⟩ ∧ sh' = sh.attach c w) ∨
      (cands.find? (attempt_succeeds env dir item) = none ∧ sh' = sh ∧
          loc'.image_path = loc.image_path ∧ loc'.thumb_dir = loc.thumb_dir) := by
  induction cands with
  | nil =>
    intro loc sh loc' sh' h
    simp only [pass2, Option.some.injEq, Prod.mk.injEq] at h
    obtain ⟨rfl, rfl⟩ := h
    exact Or.inr ⟨rfl, rfl, rfl, rfl⟩
  | cons c rest ih =>
    intro loc sh loc' sh' h
    unfold pass2 at h
    rcases try_candidate_shape env dir item c loc sh with ⟨loc1, h1, h2, h3⟩ | h1 | ⟨w, h0, h1⟩
    · have hatt := try_candidate_some env dir item c loc loc1 sh sh false h1
      have hp : attempt_succeeds env dir item c = false := by
        simp [attempt_succeeds, hatt]
      rw [h1] at h
      simp only [] at h
      rw [List.find?_cons_of_neg _ (by simp [hp])]
      rcases ih loc1 sh loc' sh' h with ⟨c', w, hc', hne, hl, hs⟩ | ⟨hnone, hs, hl1, hl2⟩
      · exact Or.inl ⟨c', w, hc', hne, hl, hs⟩
      · exact Or.inr ⟨hnone, hs, hl1.trans h2, hl2.trans h3⟩
    · rw [h1] at h
      exact absurd h (by simp)
    · have hatt := try_candidate_some env dir item c loc _ sh _ true h1
      have hp : attempt_succeeds env dir item c = true := by
        simp [attempt_succeeds, hatt]
      rw [h1] at h
      simp only [Option.some.injEq, Prod.mk.injEq] at h
      obtain ⟨rfl, rfl⟩ := h
      rw [List.find?_cons_of_pos _ hp]
      exact Or.inl ⟨c, w, rfl, h0, rfl, rfl⟩

/-- What the two passes leave behind when no exception interrupts them:
either the candidate the selection rule names is attached and counted once,
or the rule names none and nothing is attached or counted. -/
theorem select_image_spec (env : Env) (dir : Str) (item : ZimWorkItem) (cands : List Str)
    (loc : Local) (sh : Shared) (loc' : Local) (sh' : Shared)
    (h : select_image env dir item cands loc sh = some (loc', sh')) :
    (∃ c w, spec_selected_image sh.img_usage_count (attempt_succeeds env dir item) cands = some c ∧
        c ≠ [] ∧ loc' = ⟨c, dir ++ "/".toList ++ to_string item.seq, []⟩ ∧ sh' = sh.attach c w) ∨
    (spec_selected_image sh.img_usage_count (attempt_succeeds env dir item) cands = none ∧
        sh' = sh ∧ loc'.image_path = loc.image_path ∧ loc'.thumb_dir = loc.thumb_dir) := by
  unfold select_image at h
  unfold spec_selected_image
  cases hp1 : pass1 env dir item cands loc sh with
  | none =>
    rw [hp1] at h
    exact absurd h (by simp)
  | some r =>
    obtain ⟨found, loc1, sh1⟩ := r
    rw [hp1] at h
    rcases pass1_spec env dir item cands loc sh found loc1 sh1 hp1 with
      ⟨hf, c, w, hc, hne, hl, hs⟩ | ⟨hf, hnone, hs, hl1, hl2⟩
    · subst hf
      simp only [Option.some.injEq, Prod.mk.injEq] at h
      obtain ⟨rfl, rfl⟩ := h
      rw [hc]
      exact Or.inl ⟨c, w, rfl, hne, hl, hs⟩
    · subst hf
      simp only [] at h
      subst hs
      rw [hnone]
      rcases pass2_spec env dir item cands loc1 sh1 loc' sh' h with
        ⟨c, w, hc, hne, hl, hs⟩ | ⟨hnone2, hs, hl3, hl4⟩
      · exact Or.inl ⟨c, w, hc, hne, hl, hs⟩
      · exact Or.inr ⟨hnone2, hs, hl3.trans hl1, hl4.trans hl2⟩

theorem pass1_isSome (env : Env) (dir : Str) (item : ZimWorkItem) (cands : List Str)
    (hno : ∀ c ∈ cands, attempt env dir item c ≠ none) :
    ∀ (loc : Local) (sh : Shared), (pass1 env dir item cands loc sh).isSome = true := by
  induction cands with
  | nil => intro loc sh; rfl
  | cons c rest ih =>
    intro loc sh
    have ih' := ih (fun c' hc' => hno c' (List.mem_cons_of_mem _ hc'))
    unfold pass1
    split_ifs
    · exact ih' loc sh
    · rcases try_candidate_shape env dir item c loc sh with ⟨loc1, h1, -, -⟩ | h1 | ⟨w, -, h1⟩
      · rw [h1]
        exact ih' loc1 sh
      · exact absurd ((try_candidate_none env dir item c loc sh).mp h1)
          (hno c (List.mem_cons_self _ _))
      · rw [h1]
        rfl

theorem pass2_isSome (env : Env) (dir : Str) (item : ZimWorkItem) (cands : List Str)
    (hno : ∀ c ∈ cands, attempt env dir item c ≠ none) :
    ∀ (loc : Local) (sh : Shared), (pass2 env dir item cands loc sh).isSome = true := by
  induction cands with
  | nil => intro loc sh; rfl
  | cons c rest ih =>
    intro loc sh
    have ih' := ih (fun c' hc' => hno c' (List.mem_cons_of_mem _ hc'))
    unfold pass2
    rcases try_candidate_shape env dir item c loc sh with ⟨loc1, h1, -, -⟩ | h1 | ⟨w, -, h1⟩
    · rw [h1]
      exact ih' loc1 sh
    · exact absurd ((try_candidate_none env dir item c loc sh).mp h1)
        (hno c (List.mem_cons_self _ _))
    · rw [h1]
      rfl

theorem select_image_isSome (env : Env) (dir : Str) (item : ZimWorkItem) (cands : List Str)
    (hno : ∀ c ∈ cands, attempt env dir item c ≠ none) (loc : Local) (sh : Shared) :
    (select_image env dir item cands loc sh).isSome = true := by
  unfold select_image
  have h1 := pass1_isSome env dir item cands hno loc sh
  cases hp : pass1 env dir item cands loc sh with
  | none => rw [hp] at h1; exact absurd h1 (by simp)
  | some r =>
    obtain ⟨found, loc1, sh1⟩ := r
    cases found with
    | true => rfl
    | false => exact pass2_isSome env dir item cands hno loc1 sh1

/-! ## The worker: one article -/

/-- The record the worker writes for an article. -/
theorem worker_try_cases (env : Env) (dir : Str) (sh sh' : Shared) (item : ZimWorkItem)
    (h : worker_try env dir sh item = some sh') :
    ((strip_html_tags env item.html_content).length < 10 ∧
      sh' = { sh with worker_failed := sh.worker_failed + 1 }) ∨
    (10 ≤ (strip_html_tags env item.html_content).length ∧ ∃ (loc : Local) (sh1 : Shared),
      sh' = { sh1 with
        out := sh1.out ++ [OutputRecord.mk item.article_path item.title
          (strip_html_tags env item.html_content) loc.image_path loc.thumb_dir
          loc.image_skipped item.html_content.length],
        success := sh1.success + 1 } ∧
      ((loc.image_path = [] ∧ loc.thumb_dir = [] ∧ sh1 = sh) ∨
       (∃ c w, c ≠ [] ∧ dir ≠ [] ∧
          loc = ⟨c, dir ++ "/".toList ++ to_string item.seq, []⟩ ∧ sh1 = sh.attach c w ∧
          spec_selected_image sh.img_usage_count (attempt_succeeds env dir item)
            ((gumbo_find_img_srcs env item.html_content 5).map normalize_candidate) = some c))) := by
  unfold worker_try at h
  simp only [] at h
  split_ifs at h with hlen hdir
  · left
    simp only [Option.some.injEq] at h
    exact ⟨hlen, h.symm⟩
  · right
    refine ⟨by omega, ?_⟩
    cases hsel : select_image env dir item
        ((gumbo_find_img_srcs env item.html_content 5).map normalize_candidate) ⟨[], [], []⟩ sh with
    | none =>
      rw [hsel] at h
      exact absurd h (by simp)
    | some r =>
      obtain ⟨loc, sh1⟩ := r
      rw [hsel] at h
      simp only [Option.some.injEq] at h
      refine ⟨loc, sh1, h.symm, ?_⟩
      rcases select_image_spec env dir item _ _ sh loc sh1 hsel with
        ⟨c, w, hc, hne, hl, hs⟩ | ⟨-, hs, hl1, hl2⟩
      · exact Or.inr ⟨c, w, hne, hdir, hl, hs, hc⟩
      · exact Or.inl ⟨hl1, hl2, hs⟩
  · right
    refine ⟨by omega, ?_⟩
    simp only [Option.some.injEq] at h
    exact ⟨⟨[], [], []⟩, sh, h.symm, Or.inl ⟨rfl, rfl, rfl⟩⟩

theorem generate_thumbnails_isSome (env : Env) (hdirs : ∀ p, env.create_directories p = true)
    (data out_dir pfx : Str) : (generate_thumbnails env data out_dir pfx).isSome = true := by
  unfold generate_thumbnails
  cases env.stbi_load_from_memory data with
  | none => rfl
  | some r =>
    obtain ⟨w, h, c⟩ := r
    simp [hdirs]

theorem generate_svg_thumbnails_isSome (env : Env)
    (hdirs : ∀ p, env.create_directories p = true) (data out_dir pfx : Str) :
    (generate_svg_thumbnails env data out_dir pfx).isSome = true := by
  unfold generate_svg_thumbnails
  have hc : (env.create_directories out_dir = false) = False := by
    rw [hdirs]
    simp
  simp only [hc, if_false]
  split_ifs
  · rfl
  · cases env.rsvg_handle_new_from_data data with
    | none => rfl
    | some d =>
      simp only []
      split_ifs <;> rfl

/-- When `fs::create_directories` never throws, no attempt throws. -/
theorem attempt_ne_none (env : Env) (hdirs : ∀ p, env.create_directories p = true)
    (dir : Str) (item : ZimWorkItem) (cand : Str) : attempt env dir item cand ≠ none := by
  unfold attempt try_candidate
  simp only []
  split_ifs
  · simp
  · simp
  · simp
  · simp
  · have := generate_svg_thumbnails_isSome env hdirs (zim_resolve_image env cand).1
      (dir ++ "/".toList ++ to_string item.seq) (to_string item.seq)
    cases hr : generate_svg_thumbnails env (zim_resolve_image env cand).1
      (dir ++ "/".toList ++ to_string item.seq) (to_string item.seq) with
    | none => rw [hr] at this; exact absurd this (by simp)
    | some written =>
      simp only []
      split_ifs <;> simp
  · have := generate_thumbnails_isSome env hdirs (zim_resolve_image env cand).1
      (dir ++ "/".toList ++ to_string item.seq) (to_string item.seq)
    cases hr : generate_thumbnails env (zim_resolve_image env cand).1
      (dir ++ "/".toList ++ to_string item.seq) (to_string item.seq) with
    | none => rw [hr] at this; exact absurd this (by simp)
    | some written =>
      simp only []
      split_ifs <;> simp

theorem worker_try_isSome (env : Env) (dir : Str) (sh : Shared) (item : ZimWorkItem)
    (hdirs : dir = [] ∨ ∀ p, env.create_directories p = true) :
    (worker_try env dir sh item).isSome = true := by
  unfold worker_try
  simp only []
  split_ifs with hlen hdir
  · rfl
  · have hd : ∀ p, env.create_directories p = true := by
      rcases hdirs with h | h
      · exact absurd h hdir
      · exact h
    have := select_image_isSome env dir item
      ((gumbo_find_img_srcs env item.html_content 5).map normalize_candidate)
      (fun c _ => attempt_ne_none env hd dir item c) ⟨[], [], []⟩ sh
    cases hsel : select_image env dir item
        ((gumbo_find_img_srcs env item.html_content 5).map normalize_candidate) ⟨[], [], []⟩ sh with
    | none => rw [hsel] at this; exact absurd this (by simp)
    | some r => rfl
  · rfl

theorem spec_selected_image_under_threshold (count : Str → ℕ) (succeeds : Str → Bool)
    (cands : List Str) (c : Str) (hsel : spec_selected_image count succeeds cands = some c)
    (hex : ∃ c' ∈ cands, count c' < 3 ∧ succeeds c' = true) : count c < 3 := by
  unfold spec_selected_image at hsel
  cases hf : cands.find? (fun c => decide (count c < 3) && succeeds c) with
  | none =>
    obtain ⟨c', hc', hlt, hs⟩ := hex
    have := List.find?_eq_none.mp hf c' hc'
    simp [hlt, hs] at this
  | some d =>
    rw [hf] at hsel
    simp only [Option.some.injEq] at hsel
    subst hsel
    have := List.find?_some hf
    simp only [Bool.and_eq_true, decide_eq_true_eq] at this
    exact this.1

/-- C1. For every candidate list, every dedup state and every deterministic
attempt outcome, the image the two passes attach is the first candidate in
document order whose dedup count is below 3 and whose attempt succeeds; if
there is none, the first candidate whose attempt succeeds; if there is none,
no image.  So a candidate whose count has reached 3 is not attached while an
under-threshold candidate of the article is selectable.  The passes run to
the end whenever no attempt throws. -/
theorem C1_image_selection (env : Env) (dir : Str) (item : ZimWorkItem) (cands : List Str)
    (sh : Shared) :
    (∀ loc' sh', select_image env dir item cands ⟨[], [], []⟩ sh = some (loc', sh') →
      loc'.attached =
        spec_selected_image sh.img_usage_count (attempt_succeeds env dir item) cands ∧
      ((∃ c ∈ cands, sh.img_usage_count c < 3 ∧ attempt env dir item c = some true) →
        sh.img_usage_count loc'.image_path < 3)) ∧
    ((∀ c ∈ cands, attempt env dir item c ≠ none) →
      (select_image env dir item cands ⟨[], [], []⟩ sh).isSome = true) := by
  refine ⟨?_, fun hno => select_image_isSome env dir item cands hno _ sh⟩
  intro loc' sh' h
  rcases select_image_spec env dir item cands _ sh loc' sh' h with
    ⟨c, w, hc, hne, hl, -⟩ | ⟨hnone, -, hl1, -⟩
  · subst hl
    refine ⟨?_, ?_⟩
    · rw [hc]
      simp [Local.attached, hne]
    · intro hex
      refine spec_selected_image_under_threshold _ _ cands c hc ?_
      obtain ⟨c', hc', hlt, hs⟩ := hex
      exact ⟨c', hc', hlt, by simp [attempt_succeeds, hs]⟩
  · refine ⟨?_, ?_⟩
    · rw [hnone]
      simp [Local.attached, hl1]
    · intro hex
      exfalso
      obtain ⟨c', hc', hlt, hs⟩ := hex
      unfold spec_selected_image at hnone
      cases hf : cands.find? (fun c => decide (sh.img_usage_count c < 3)
          && attempt_succeeds env dir item c) with
      | none =>
        have := List.find?_eq_none.mp hf c' hc'
        simp [hlt, attempt_succeeds, hs] at this
      | some d =>
        rw [hf] at hnone
        exact absurd hnone (by simp)

/-- C8. Processing a dequeued work item changes exactly one of the success
counter and the failure counter, by exactly 1; one record is written when it
is the success counter and none when it is the failure counter. -/
theorem C8_one_terminal_outcome (env : Env) (dir : Str) (sh : Shared) (item : ZimWorkItem) :
    ((worker_step env dir sh item).success = sh.success + 1 ∧
      (worker_step env dir sh item).worker_failed = sh.worker_failed ∧
      ∃ r, (worker_step env dir sh item).out = sh.out ++ [r]) ∨
    ((worker_step env dir sh item).success = sh.success ∧
      (worker_step env dir sh item).worker_failed = sh.worker_failed + 1 ∧
      (worker_step env dir sh item).out = sh.out) := by
  unfold worker_step
  cases h : worker_try env dir sh item with
  | none => exact Or.inr ⟨rfl, rfl, rfl⟩
  | some sh' =>
    rcases worker_try_cases env dir sh sh' item h with ⟨-, hs⟩ | ⟨-, loc, sh1, hs, hcase⟩
    · subst hs
      exact Or.inr ⟨rfl, rfl, rfl⟩
    · subst hs
      rcases hcase with ⟨-, -, rfl⟩ | ⟨c, w, -, -, -, rfl, -⟩
      · exact Or.inl ⟨rfl, rfl, _, rfl⟩
      · exact Or.inl ⟨rfl, rfl, _, rfl⟩

/-- C9, as stated, fails: the gate counts bytes.  A text of five accented
letters has 5 characters and 10 bytes, and the worker writes a record for
it and counts a success. -/
theorem C9_five_characters_pass_the_gate :
    strip_html_tags demo_env_accents "page".toList = demo_accents ∧
    utf8_length demo_accents = 5 ∧ demo_accents.length = 10 ∧
    (worker_step demo_env_accents "out".toList ⟨0, 0, 0, fun _ => 0, [], []⟩
        ⟨0, "A/p0".toList, "P0".toList, "page".toList⟩).out
      = [⟨"A/p0".toList, "P0".toList, demo_accents, [], [], [], 4⟩] ∧
    (worker_step demo_env_accents "out".toList ⟨0, 0, 0, fun _ => 0, [], []⟩
        ⟨0, "A/p0".toList, "P0".toList, "page".toList⟩).success = 1 ∧
    (worker_step demo_env_accents "out".toList ⟨0, 0, 0, fun _ => 0, [], []⟩
        ⟨0, "A/p0".toList, "P0".toList, "page".toList⟩).worker_failed = 0 := by
  decide

/-- C9, amended. With no exception, the worker writes a record exactly when
the extracted text has at least 10 bytes (`text.size()`), with or without an
image; on a shorter text the only change is the failure counter, plus 1:
nothing is scanned, resolved or written and the dedup map and image counter
stay.  No exception occurs in text-only mode or when
`fs::create_directories` does not throw.  A text has no more characters than
bytes, so one of at least 10 characters is never held back. -/
theorem C9_short_text_gate (env : Env) (dir : Str) (sh : Shared) (item : ZimWorkItem) :
    ((strip_html_tags env item.html_content).length < 10 →
      worker_try env dir sh item = some { sh with worker_failed := sh.worker_failed + 1 }) ∧
    (∀ sh', worker_try env dir sh item = some sh' →
      ((∃ r, sh'.out = sh.out ++ [r]) ↔ 10 ≤ (strip_html_tags env item.html_content).length)) ∧
    ((dir = [] ∨ ∀ p, env.create_directories p = true) →
      (worker_try env dir sh item).isSome = true) ∧
    utf8_length (strip_html_tags env item.html_content)
      ≤ (strip_html_tags env item.html_content).length := by
  refine ⟨?_, ?_, worker_try_isSome env dir sh item, List.countP_le_length _⟩
  · intro hlen
    unfold worker_try
    simp only []
    rw [if_pos hlen]
  · intro sh' h
    rcases worker_try_cases env dir sh sh' item h with ⟨hlen, hs⟩ | ⟨hlen, loc, sh1, hs, hcase⟩
    · subst hs
      constructor
      · rintro ⟨r, hr⟩
        have := congrArg List.length hr
        simp at this
      · intro h10
        omega
    · subst hs
      constructor
      · intro _
        exact hlen
      · intro _
        rcases hcase with ⟨-, -, rfl⟩ | ⟨c, w, -, -, -, rfl, -⟩
        · exact ⟨_, rfl⟩
        · exact ⟨_, rfl⟩

/-- The dedup map after one article: one more for the attached image, or as before. -/
theorem worker_step_img_usage_count (env : Env) (dir : Str) (sh : Shared) (item : ZimWorkItem) :
    (∃ r, (worker_step env dir sh item).out = sh.out ++ [r] ∧ r.image_path ≠ [] ∧ dir ≠ [] ∧
      (worker_step env dir sh item).img_usage_count =
        Function.update sh.img_usage_count r.image_path
          (sh.img_usage_count r.image_path + 1)) ∨
    (((worker_step env dir sh item).out = sh.out ∨
        ∃ r, (worker_step env dir sh item).out = sh.out ++ [r] ∧ r.image_path = []) ∧
      (worker_step env dir sh item).img_usage_count = sh.img_usage_count) := by
  unfold worker_step
  cases h : worker_try env dir sh item with
  | none => exact Or.inr ⟨Or.inl rfl, rfl⟩
  | some sh' =>
    rcases worker_try_cases env dir sh sh' item h with ⟨-, hs⟩ | ⟨-, loc, sh1, hs, hcase⟩
    · subst hs
      exact Or.inr ⟨Or.inl rfl, rfl⟩
    · subst hs
      rcases hcase with ⟨hl, -, rfl⟩ | ⟨c, w, hne, hdir, rfl, rfl, -⟩
      · exact Or.inr ⟨Or.inr ⟨_, rfl, hl⟩, rfl⟩
      · exact Or.inl ⟨_, rfl, hne, hdir, rfl⟩

theorem worker_step_mono (env : Env) (dir : Str) (sh : Shared) (item : ZimWorkItem) (k : Str) :
    sh.img_usage_count k ≤ (worker_step env dir sh item).img_usage_count k := by
  rcases worker_step_img_usage_count env dir sh item with ⟨r, -, -, -, h⟩ | ⟨-, h⟩
  · rw [h]
    by_cases hk : k = r.image_path
    · subst hk
      simp
    · rw [Function.update_noteq hk]
  · rw [h]

theorem worker_fn_mono (env : Env) (dir : Str) (items : List ZimWorkItem) :
    ∀ (sh : Shared) (k : Str), sh.img_usage_count k ≤ (worker_fn env dir sh items).img_usage_count k := by
  induction items with
  | nil => intro sh k; exact le_rfl
  | cons item rest ih =>
    intro sh k
    exact (worker_step_mono env dir sh item k).trans (ih (worker_step env dir sh item) k)

/-- C10. Processing one article leaves the dedup count of every key as it
was, except that of the candidate attached as the article's image, which
grows by exactly 1.  When no image is attached every count is unchanged: so
in text-only mode, and after an attempt that returns `false` (a candidate
that resolved but rendered no thumbnail included).  Hence every count is
non-decreasing over a run. -/
theorem C10_dedup_frame (env : Env) (dir : Str) (sh : Shared) (item : ZimWorkItem) :
    ((∃ r, (worker_step env dir sh item).out = sh.out ++ [r] ∧ r.image_path ≠ [] ∧
        (worker_step env dir sh item).img_usage_count =
          Function.update sh.img_usage_count r.image_path
            (sh.img_usage_count r.image_path + 1)) ∨
     (((worker_step env dir sh item).out = sh.out ∨
          ∃ r, (worker_step env dir sh item).out = sh.out ++ [r] ∧ r.image_path = []) ∧
        (worker_step env dir sh item).img_usage_count = sh.img_usage_count)) ∧
    (dir = [] → (worker_step env dir sh item).img_usage_count = sh.img_usage_count) ∧
    (∀ cand loc loc' sh1 sh2, try_candidate env dir item cand loc sh1 = some (false, loc', sh2) →
      sh2.img_usage_count = sh1.img_usage_count) ∧
    (∀ items k, sh.img_usage_count k ≤ (worker_fn env dir sh items).img_usage_count k) := by
  refine ⟨?_, ?_, ?_, fun items k => worker_fn_mono env dir items sh k⟩
  · rcases worker_step_img_usage_count env dir sh item with ⟨r, h1, h2, -, h3⟩ | h
    · exact Or.inl ⟨r, h1, h2, h3⟩
    · exact Or.inr h
  · intro hdir
    rcases worker_step_img_usage_count env dir sh item with ⟨r, -, -, h, -⟩ | ⟨-, h⟩
    · exact absurd hdir h
    · exact h
  · intro cand loc loc' sh1 sh2 h
    rw [(try_candidate_false env dir item cand loc loc' sh1 sh2 h).1]

/-! ## The definitions at work on the demo archive -/

set_option maxRecDepth 100000 in
theorem C1_image_selection_witness :
    (∀ c ∈ ["banner.png".toList, "img/Logo.png".toList, "photos/cat.png".toList,
        "photos/dog.png".toList], attempt demo_env "out".toList demo_item c ≠ none) ∧
    (select_image demo_env "out".toList demo_item
        ["banner.png".toList, "img/Logo.png".toList, "photos/cat.png".toList,
          "photos/dog.png".toList] ⟨[], [], []⟩ demo_shared).map (fun r => r.1.attached)
      = some (some "photos/dog.png".toList) := by
  have hno : ∀ c ∈ ["banner.png".toList, "img/Logo.png".toList, "photos/cat.png".toList,
      "photos/dog.png".toList], attempt demo_env "out".toList demo_item c ≠ none := by decide
  refine ⟨hno, ?_⟩
  have hthm := C1_image_selection demo_env "out".toList demo_item
    ["banner.png".toList, "img/Logo.png".toList, "photos/cat.png".toList,
      "photos/dog.png".toList] demo_shared
  have hsome := hthm.2 hno
  cases hsel : select_image demo_env "out".toList demo_item
      ["banner.png".toList, "img/Logo.png".toList, "photos/cat.png".toList,
        "photos/dog.png".toList] ⟨[], [], []⟩ demo_shared with
  | none =>
    rw [hsel] at hsome
    exact absurd hsome (by simp)
  | some r =>
    have hspec := (hthm.1 r.1 r.2 hsel).1
    simp only [Option.map_some', Option.some.injEq]
    rw [hspec]
    decide

set_option maxRecDepth 100000 in
theorem C9_short_text_gate_witness :
    (strip_html_tags demo_env "short".toList).length < 10 ∧
    worker_try demo_env "out".toList demo_shared ⟨8, "A/empty".toList, "Empty".toList,
        "short".toList⟩
      = some { demo_shared with worker_failed := demo_shared.worker_failed + 1 } :=
  ⟨by decide, (C9_short_text_gate demo_env "out".toList demo_shared
    ⟨8, "A/empty".toList, "Empty".toList, "short".toList⟩).1 (by decide)⟩

theorem C10_dedup_frame_witness :
    ([] : Str) = [] ∧
    (worker_step demo_env [] demo_shared demo_item).img_usage_count
      = demo_shared.img_usage_count :=
  ⟨rfl, (C10_dedup_frame demo_env [] demo_shared demo_item).2.1 rfl⟩

/-! ## Icon file names -/

theorem toLower_eq_slash (c : Char) : (c.toLower = '/') ↔ (c = '/') := by
  unfold Char.toLower
  simp only []
  split_ifs with h
  · constructor
    · intro h1
      exfalso
      have h2 := congrArg Char.toNat h1
      obtain ⟨ha, hb⟩ := h
      generalize c.toNat = n at ha hb h2
      interval_cases n <;> simp at h2
    · intro h1
      subst h1
      exact absurd h (by decide)
  · exact Iff.rfl

theorem takeWhile_not_slash_map (l : List Char) :
    (l.map Char.toLower).takeWhile (fun c => c ≠ '/')
      = (l.takeWhile (fun c => c ≠ '/')).map Char.toLower := by
  induction l with
  | nil => rfl
  | cons c cs ih =>
    by_cases hc : c = '/'
    · subst hc
      simp
    · have hc' : c.toLower ≠ '/' := fun h => hc ((toLower_eq_slash c).mp h)
      simp only [List.map_cons, List.takeWhile_cons, hc, hc', ne_eq, not_false_eq_true,
        decide_True, ite_true]
      rw [← ih]

/-- Lower-casing the candidate and then taking its last path segment, as the
code does, gives the lower-cased last path segment. -/
theorem after_last_slash_map_toLower (s : Str) :
    after_last_slash (s.map Char.toLower) = (after_last_slash s).map Char.toLower := by
  unfold after_last_slash
  rw [← List.map_reverse, takeWhile_not_slash_map, List.map_reverse]

theorem looks_like_icon_eq_spec (cand : Str) : looks_like_icon cand = spec_icon_named cand := by
  unfold looks_like_icon spec_icon_named
  simp only [after_last_slash_map_toLower]

/-! ## The reason recorded in `image_skipped` -/

theorem Local.skip_ok (loc : Local) (reason : Str) (hl : skip_reason_ok loc.image_skipped)
    (hr : skip_reason_ok reason) : skip_reason_ok (loc.skip reason).image_skipped := by
  unfold Local.skip
  split_ifs
  · exact hr
  · exact hl

/-- An attempt leaves `image_skipped` empty or holding one of the two reasons. -/
theorem try_candidate_skip_ok (env : Env) (dir : Str) (item : ZimWorkItem) (cand : Str)
    (loc loc' : Local) (sh sh' : Shared) (b : Bool)
    (h : try_candidate env dir item cand loc sh = some (b, loc', sh'))
    (hl : skip_reason_ok loc.image_skipped) : skip_reason_ok loc'.image_skipped := by
  have hicon : skip_reason_ok "icon".toList := Or.inl rfl
  have hnf : skip_reason_ok "not_found".toList := Or.inr (Or.inl rfl)
  unfold try_candidate at h
  simp only [] at h
  split_ifs at h with h0 h1 h2 h3 h4
  · simp only [Option.some.injEq, Prod.mk.injEq] at h
    obtain ⟨-, rfl, -⟩ := h
    exact hl
  · simp only [Option.some.injEq, Prod.mk.injEq] at h
    obtain ⟨-, rfl, -⟩ := h
    exact Local.skip_ok loc _ hl hicon
  · simp only [Option.some.injEq, Prod.mk.injEq] at h
    obtain ⟨-, rfl, -⟩ := h
    exact Local.skip_ok loc _ hl hnf
  · simp only [Option.some.injEq, Prod.mk.injEq] at h
    obtain ⟨-, rfl, -⟩ := h
    exact Local.skip_ok loc _ hl hicon
  · generalize generate_svg_thumbnails env _ _ _ = r at h
    cases r with
    | none => exact absurd h (by simp)
    | some written =>
      simp only [] at h
      split_ifs at h
      · simp only [Option.some.injEq, Prod.mk.injEq] at h
        obtain ⟨-, rfl, -⟩ := h
        exact Or.inr (Or.inr rfl)
      · simp only [Option.some.injEq, Prod.mk.injEq] at h
        obtain ⟨-, rfl, -⟩ := h
        exact hl
  · generalize generate_thumbnails env _ _ _ = r at h
    cases r with
    | none => exact absurd h (by simp)
    | some written =>
      simp only [] at h
      split_ifs at h
      · simp only [Option.some.injEq, Prod.mk.injEq] at h
        obtain ⟨-, rfl, -⟩ := h
        exact Or.inr (Or.inr rfl)
      · simp only [Option.some.injEq, Prod.mk.injEq] at h
        obtain ⟨-, rfl, -⟩ := h
        exact hl

theorem pass1_skip_ok (env : Env) (dir : Str) (item : ZimWorkItem) (cands : List Str) :
    ∀ (loc : Local) (sh : Shared) (found : Bool) (loc' : Local) (sh' : Shared),
      pass1 env dir item cands loc sh = some (found, loc', sh') →
      skip_reason_ok loc.image_skipped → skip_reason_ok loc'.image_skipped := by
  induction cands with
  | nil =>
    intro loc sh found loc' sh' h hl
    simp only [pass1, Option.some.injEq, Prod.mk.injEq] at h
    obtain ⟨-, rfl, -⟩ := h
    exact hl
  | cons c rest ih =>
    intro loc sh found loc' sh' h hl
    unfold pass1 at h
    split_ifs at h
    · exact ih loc sh found loc' sh' h hl
    · cases ht : try_candidate env dir item c loc sh with
      | none =>
        rw [ht] at h
        exact absurd h (by simp)
      | some r =>
        obtain ⟨b, loc1, sh1⟩ := r
        have hl1 := try_candidate_skip_ok env dir item c loc loc1 sh sh1 b ht hl
        rw [ht] at h
        cases b with
        | true =>
          simp only [Option.some.injEq, Prod.mk.injEq] at h
          obtain ⟨-, rfl, -⟩ := h
          exact hl1
        | false => exact ih loc1 sh1 found loc' sh' h hl1

theorem pass2_skip_ok (env : Env) (dir : Str) (item : ZimWorkItem) (cands : List Str) :
    ∀ (loc : Local) (sh : Shared) (loc' : Local) (sh' : Shared),
      pass2 env dir item cands loc sh = some (loc', sh') →
      skip_reason_ok loc.image_skipped → skip_reason_ok loc'.image_skipped := by
  induction cands with
  | nil =>
    intro loc sh loc' sh' h hl
    simp only [pass2, Option.some.injEq, Prod.mk.injEq] at h
    obtain ⟨rfl, -⟩ := h
    exact hl
  | cons c rest ih =>
    intro loc sh loc' sh' h hl
    unfold pass2 at h
    cases ht : try_candidate env dir item c loc sh with
    | none =>
      rw [ht] at h
      exact absurd h (by simp)
    | some r =>
      obtain ⟨b, loc1, sh1⟩ := r
      have hl1 := try_candidate_skip_ok env dir item c loc loc1 sh sh1 b ht hl
      rw [ht] at h
      cases b with
      | true =>
        simp only [Option.some.injEq, Prod.mk.injEq] at h
        obtain ⟨rfl, -⟩ := h
        exact hl1
      | false => exact ih loc1 sh1 loc' sh' h hl1

theorem select_image_skip_ok (env : Env) (dir : Str) (item : ZimWorkItem) (cands : List Str)
    (loc : Local) (sh : Shared) (loc' : Local) (sh' : Shared)
    (h : select_image env dir item cands loc sh = some (loc', sh'))
    (hl : skip_reason_ok loc.image_skipped) : skip_reason_ok loc'.image_skipped := by
  unfold select_image at h
  cases hp1 : pass1 env dir item cands loc sh with
  | none =>
    rw [hp1] at h
    exact absurd h (by simp)
  | some r =>
    obtain ⟨found, loc1, sh1⟩ := r
    have hl1 := pass1_skip_ok env dir item cands loc sh found loc1 sh1 hp1 hl
    rw [hp1] at h
    cases found with
    | true =>
      simp only [Option.some.injEq, Prod.mk.injEq] at h
      obtain ⟨rfl, -⟩ := h
      exact hl1
    | false => exact pass2_skip_ok env dir item cands loc1 sh1 loc' sh' h hl1

theorem spec_selected_image_succeeds (count : Str → ℕ) (succeeds : Str → Bool)
    (cands : List Str) (c : Str) (h : spec_selected_image count succeeds cands = some c) :
    c ∈ cands ∧ succeeds c = true := by
  unfold spec_selected_image at h
  cases hf : cands.find? (fun c => decide (count c < 3) && succeeds c) with
  | none =>
    rw [hf] at h
    exact ⟨List.mem_of_find?_eq_some h, List.find?_some h⟩
  | some d =>
    rw [hf] at h
    simp only [Option.some.injEq] at h
    subst h
    have := List.find?_some hf
    simp only [Bool.and_eq_true, decide_eq_true_eq] at this
    exact ⟨List.mem_of_find?_eq_some hf, this.2⟩

/-- The record a worker writes for an article: its text has at least 10
characters, and either it carries no image and `image_skipped` is empty or a
reason, or it carries the selected candidate with its thumbnail directory
and an empty `image_skipped`. -/
theorem worker_step_record (env : Env) (dir : Str) (sh : Shared) (item : ZimWorkItem)
    (r : OutputRecord) (h : (worker_step env dir sh item).out = sh.out ++ [r]) :
    10 ≤ (strip_html_tags env item.html_content).length ∧
    r.path = item.article_path ∧ r.title = item.title ∧
    r.text = strip_html_tags env item.html_content ∧ r.size = item.html_content.length ∧
    ((r.image_path = [] ∧ r.thumb_dir = [] ∧ skip_reason_ok r.image_skipped) ∨
     (r.image_path ≠ [] ∧ dir ≠ [] ∧
      r.thumb_dir = dir ++ "/".toList ++ to_string item.seq ∧ r.image_skipped = [] ∧
      spec_selected_image sh.img_usage_count (attempt_succeeds env dir item)
        ((gumbo_find_img_srcs env item.html_content 5).map normalize_candidate)
        = some r.image_path)) := by
  unfold worker_step at h
  cases ht : worker_try env dir sh item with
  | none =>
    rw [ht] at h
    have := congrArg List.length h
    simp at this
  | some sh' =>
    rw [ht] at h
    simp only [] at h
    have ht' := ht
    unfold worker_try at ht
    simp only [] at ht
    split_ifs at ht with hlen hdir
    · simp only [Option.some.injEq] at ht
      subst ht
      have := congrArg List.length h
      simp at this
    · cases hsel : select_image env dir item
          ((gumbo_find_img_srcs env item.html_content 5).map normalize_candidate)
          ⟨[], [], []⟩ sh with
      | none =>
        rw [hsel] at ht
        exact absurd ht (by simp)
      | some res =>
        obtain ⟨loc, sh1⟩ := res
        rw [hsel] at ht
        simp only [Option.some.injEq] at ht
        subst ht
        have hok := select_image_skip_ok env dir item _ _ sh loc sh1 hsel (Or.inr (Or.inr rfl))
        rcases select_image_spec env dir item _ _ sh loc sh1 hsel with
          ⟨c, w, hc, hne, hl, hs⟩ | ⟨-, hs, hl1, hl2⟩
        · subst hs hl
          simp only [Shared.attach] at h
          have hr := List.append_cancel_left h
          simp only [List.cons.injEq, and_true] at hr
          subst hr
          exact ⟨by omega, rfl, rfl, rfl, rfl, Or.inr ⟨hne, hdir, rfl, rfl, hc⟩⟩
        · subst hs
          simp only [] at h
          have hr := List.append_cancel_left h
          simp only [List.cons.injEq, and_true] at hr
          subst hr
          exact ⟨by omega, rfl, rfl, rfl, rfl, Or.inl ⟨hl1, hl2, hok⟩⟩
    · simp only [Option.some.injEq] at ht
      subst ht
      simp only [] at h
      have hr := List.append_cancel_left h
      simp only [List.cons.injEq, and_true] at hr
      subst hr
      exact ⟨by omega, rfl, rfl, rfl, rfl, Or.inl ⟨rfl, rfl, Or.inr (Or.inr rfl)⟩⟩

/-! ## Claims on the attempt -/

/-- C11. A candidate whose final path segment, compared without regard to
case, contains one of icon, logo, button, arrow, chevron, badge, favicon
fails the attempt: `try_candidate` returns `false` with a result that does
not depend on the archive or the codecs, the shared state (thumbnail files
included) is as before, and the candidate is the `image_path` of no record
a worker writes. -/
theorem C11_icon_named_never_attached (env : Env) (dir : Str) (item : ZimWorkItem) (cand : Str)
    (loc : Local) (sh : Shared) (h : spec_icon_named cand = true) :
    try_candidate env dir item cand loc sh = some (false, loc.skip "icon".toList, sh) ∧
    (∀ (sh0 : Shared) (item0 : ZimWorkItem) (r : OutputRecord),
      (worker_step env dir sh0 item0).out = sh0.out ++ [r] → r.image_path ≠ cand) := by
  have hne : cand ≠ [] := by
    rintro rfl
    revert h
    decide
  have hicon : looks_like_icon cand = true := by rw [looks_like_icon_eq_spec]; exact h
  have htry : ∀ (it : ZimWorkItem) (l : Local) (s : Shared),
      try_candidate env dir it cand l s = some (false, l.skip "icon".toList, s) := by
    intro it l s
    unfold try_candidate
    rw [if_neg hne, if_pos hicon]
  refine ⟨htry item loc sh, ?_⟩
  intro sh0 item0 r hr heq
  obtain ⟨-, -, -, -, -, hcase⟩ := worker_step_record env dir sh0 item0 r hr
  rcases hcase with ⟨h1, -, -⟩ | ⟨-, -, -, -, hsel⟩
  · exact hne (heq ▸ h1)
  · have hs := (spec_selected_image_succeeds _ _ _ _ hsel).2
    rw [heq] at hs
    have hatt := try_candidate_some env dir item0 cand ⟨[], [], []⟩ _
      ⟨0, 0, 0, fun _ => 0, [], []⟩ _ false (htry item0 _ _)
    simp [attempt_succeeds, hatt] at hs

set_option maxRecDepth 100000 in
theorem C11_icon_named_never_attached_witness :
    spec_icon_named "img/Logo.png".toList = true ∧
    try_candidate demo_env "out".toList demo_item "img/Logo.png".toList ⟨[], [], []⟩ demo_shared
      = some (false, ⟨[], [], "icon".toList⟩, demo_shared) :=
  ⟨by decide,
   (C11_icon_named_never_attached demo_env "out".toList demo_item "img/Logo.png".toList
      ⟨[], [], []⟩ demo_shared (by decide)).1⟩

/-! ## Claims on the resolver -/

/-- C12, as stated, fails: the candidate `-` `/cat.png` starts with a dash,
and besides the literal path the variant with `A/` in front is tried. -/
theorem C12_dash_candidate_tries_A :
    "-/cat.png".toList.head? = some '-' ∧
    zim_resolve_candidates "-/cat.png".toList
      = ["-/cat.png".toList, "A/-/cat.png".toList] ∧
    zim_resolve_candidates "-/cat.png".toList ≠ ["-/cat.png".toList] := by
  decide

/-- C12, amended. `zim_resolve_image` tries the literal path first and then,
in this order, the variants prefixed with `I/`, dash-slash and `A/`; the `I/`
variant is tried exactly when the candidate is not empty and starts with
neither `I` nor a dash, the dash-slash variant exactly when it is not empty
and does not start with a dash, the `A/` variant exactly when it is not empty
and does not start with `A`.  So for a candidate that starts with a dash the
variants tried are the literal path and the `A/` variant. -/
theorem C12_resolve_variants (raw_path : Str) :
    (∃ rest, zim_resolve_candidates raw_path = raw_path :: rest ∧
      List.Sublist rest
        ["I/".toList ++ raw_path, "-/".toList ++ raw_path, "A/".toList ++ raw_path] ∧
      ("I/".toList ++ raw_path ∈ rest ↔
        raw_path ≠ [] ∧ raw_path.head? ≠ some 'I' ∧ raw_path.head? ≠ some '-') ∧
      ("-/".toList ++ raw_path ∈ rest ↔ raw_path ≠ [] ∧ raw_path.head? ≠ some '-') ∧
      ("A/".toList ++ raw_path ∈ rest ↔ raw_path ≠ [] ∧ raw_path.head? ≠ some 'A')) ∧
    (raw_path.head? = some '-' →
      zim_resolve_candidates raw_path = [raw_path, "A/".toList ++ raw_path]) := by
  cases raw_path with
  | nil =>
    refine ⟨⟨[], rfl, ?_, ?_, ?_, ?_⟩, ?_⟩ <;> simp
  | cons c cs =>
    by_cases hI : c = 'I'
    · subst hI
      refine ⟨⟨["-/".toList ++ ('I' :: cs), "A/".toList ++ ('I' :: cs)], ?_, ?_, ?_, ?_, ?_⟩, ?_⟩ <;>
        simp [zim_resolve_candidates]
    · by_cases hD : c = '-'
      · subst hD
        refine ⟨⟨["A/".toList ++ ('-' :: cs)], ?_, ?_, ?_, ?_, ?_⟩, ?_⟩ <;>
          simp [zim_resolve_candidates]
      · by_cases hA : c = 'A'
        · subst hA
          refine ⟨⟨["I/".toList ++ ('A' :: cs), "-/".toList ++ ('A' :: cs)], ?_, ?_, ?_, ?_, ?_⟩, ?_⟩ <;>
            simp [zim_resolve_candidates]
        · refine ⟨⟨["I/".toList ++ (c :: cs), "-/".toList ++ (c :: cs),
            "A/".toList ++ (c :: cs)], ?_, ?_, ?_, ?_, ?_⟩, ?_⟩ <;>
            simp [zim_resolve_candidates, hI, hD, hA]

theorem C12_resolve_variants_witness :
    "-/cat.png".toList.head? = some '-' ∧
    zim_resolve_candidates "-/cat.png".toList
      = ["-/cat.png".toList, "A/".toList ++ "-/cat.png".toList] :=
  ⟨by decide, (C12_resolve_variants "-/cat.png".toList).2 (by decide)⟩

/-- One variant: accepted gives the data and mimetype of its item, else `continue`. -/
theorem zim_try_path_eq (env : Env) (v : Str) :
    zim_try_path env v =
      if variant_accepted env v = true then
        (zim_entry_item env v).map (fun r => (r.2, r.1))
      else none := by
  unfold zim_try_path variant_accepted zim_entry_item
  cases env.getEntryByPath v with
  | none => simp
  | some e =>
    cases e with
    | item mt data =>
      simp only []
      generalize str_contains mt "image/".toList = b
      by_cases h2 : data.length < 100
      · have h3 : ¬ (100 ≤ data.length) := by omega
        cases b <;> simp [h2, h3]
      · have h3 : 100 ≤ data.length := by omega
        cases b <;> simp [h2, h3]
    | redirect target =>
      cases target with
      | item mt data =>
        simp only []
        generalize str_contains mt "image/".toList = b
        by_cases h2 : data.length < 100
        · have h3 : ¬ (100 ≤ data.length) := by omega
          cases b <;> simp [h2, h3]
        · have h3 : 100 ≤ data.length := by omega
          cases b <;> simp [h2, h3]
      | redirect t2 => simp

theorem findSome_zim_try_path (env : Env) (vs : List Str) :
    vs.findSome? (zim_try_path env) =
      (vs.find? (variant_accepted env)).bind
        (fun v => (zim_entry_item env v).map (fun r => (r.2, r.1))) := by
  induction vs with
  | nil => rfl
  | cons v rest ih =>
    by_cases h : variant_accepted env v = true
    · have hsome : ∃ r, zim_entry_item env v = some r := by
        unfold variant_accepted at h
        cases hz : zim_entry_item env v with
        | none => rw [hz] at h; simp at h
        | some r => exact ⟨r, rfl⟩
      obtain ⟨r, hr⟩ := hsome
      have ht : zim_try_path env v = some (r.2, r.1) := by
        rw [zim_try_path_eq, if_pos h, hr]
        rfl
      rw [List.findSome?_cons, ht, List.find?_cons_of_pos _ h]
      simp [hr]
    · have ht : zim_try_path env v = none := by
        rw [zim_try_path_eq, if_neg h]
      rw [List.findSome?_cons, ht, List.find?_cons_of_neg _ h]
      exact ih

set_option maxRecDepth 100000 in
/-- C13, as stated, fails: the only entry of this archive has a mimetype that
contains `image/` without starting with it, so no variant of `pic.png` has
both properties of the claim, and still `zim_resolve_image` returns the
bytes and the mimetype of that entry, not the empty result. -/
theorem C13_mimetype_need_not_start_with_image :
    (∀ v ∈ zim_resolve_candidates "pic.png".toList,
      spec_variant_accepted demo_env_mime v = false) ∧
    zim_resolve_image demo_env_mime "pic.png".toList
      = (List.replicate 100 'x', "application/x-image/png".toList) ∧
    zim_resolve_image demo_env_mime "pic.png".toList ≠ ([], []) := by
  decide

/-- C13, amended. `zim_resolve_image` returns the bytes and the mimetype of
the first variant in try order whose entry, after following one redirect, is
an item with a mimetype that contains `image/` and with at least 100 bytes;
when no variant has both properties it returns the empty result, and
`try_candidate` then returns `false` with the reason `not_found`. -/
theorem C13_resolve_first_accepted (env : Env) (raw_path : Str) :
    zim_resolve_image env raw_path =
      (match (zim_resolve_candidates raw_path).find? (variant_accepted env) with
       | some v =>
         match zim_entry_item env v with
         | some (mt, data) => (data, mt)
         | none => ([], [])
       | none => ([], [])) ∧
    ((∀ v ∈ zim_resolve_candidates raw_path, variant_accepted env v = false) →
      raw_path ≠ [] → looks_like_icon raw_path = false →
      ∀ (dir : Str) (item : ZimWorkItem) (loc : Local) (sh : Shared),
        try_candidate env dir item raw_path loc sh
          = some (false, loc.skip "not_found".toList, sh)) := by
  have hres : zim_resolve_image env raw_path =
      (match (zim_resolve_candidates raw_path).find? (variant_accepted env) with
       | some v =>
         match zim_entry_item env v with
         | some (mt, data) => (data, mt)
         | none => ([], [])
       | none => ([], [])) := by
    unfold zim_resolve_image
    rw [findSome_zim_try_path]
    cases (zim_resolve_candidates raw_path).find? (variant_accepted env) with
    | none => rfl
    | some v =>
      simp only [Option.some_bind]
      cases zim_entry_item env v with
      | none => rfl
      | some r => rfl
  refine ⟨hres, ?_⟩
  intro hall hne hicon dir item loc sh
  have hnone : (zim_resolve_candidates raw_path).find? (variant_accepted env) = none := by
    rw [List.find?_eq_none]
    intro v hv
    simp [hall v hv]
  have hempty : zim_resolve_image env raw_path = ([], []) := by
    rw [hres, hnone]
  unfold try_candidate
  rw [if_neg hne]
  simp [hicon, hempty]

set_option maxRecDepth 100000 in
theorem C13_resolve_first_accepted_witness :
    (∀ v ∈ zim_resolve_candidates "photos/cat.png".toList, variant_accepted demo_env v = false) ∧
    "photos/cat.png".toList ≠ [] ∧ looks_like_icon "photos/cat.png".toList = false ∧
    try_candidate demo_env "out".toList demo_item "photos/cat.png".toList ⟨[], [], []⟩ demo_shared
      = some (false, ⟨[], [], "not_found".toList⟩, demo_shared) :=
  ⟨by decide, by decide, by decide,
   (C13_resolve_first_accepted demo_env "photos/cat.png".toList).2 (by decide) (by decide)
     (by decide) "out".toList demo_item ⟨[], [], []⟩ demo_shared⟩

/-! ## Claims on the record -/

set_option maxRecDepth 100000 in
/-- C14, as stated, fails: the only image of this article resolves to a
vector image with a viewbox of 48 by 48; the vector renderer writes nothing
and no image is attached, but the record is written with an empty
`image_skipped`, not with `icon`. -/
theorem C14_small_svg_records_no_reason :
    (gumbo_find_img_srcs demo_env_svg demo_item.html_content 5).map normalize_candidate
      = ["diagram.svg".toList] ∧
    zim_resolve_image demo_env_svg "diagram.svg".toList
      = (List.replicate 100 'x', "image/svg+xml".toList) ∧
    generate_svg_thumbnails demo_env_svg (List.replicate 100 'x') "out/7".toList "7".toList
      = some [] ∧
    (worker_step demo_env_svg "out".toList demo_shared demo_item).out
      = [⟨"A/page1".toList, "Page 1".toList, "A diagram of the water cycle.\n".toList,
          [], [], [], 4⟩] ∧
    (worker_step demo_env_svg "out".toList demo_shared demo_item).out.map
      (fun r => decide (r.image_skipped = "icon".toList)) = [false] := by
  decide

theorem Local.skip_skip (loc : Local) (reason : Str) (h : reason ≠ []) :
    (loc.skip reason).skip reason = loc.skip reason := by
  unfold Local.skip
  by_cases h1 : loc.image_skipped = []
  · simp [h1, h]
  · simp [h1]

/-- C14, amended. For an article with at least 10 characters of text whose
only image candidate is not empty and resolves to a vector image whose
intrinsic width and height are both at most 64, the vector renderer writes
no thumbnail and no image is attached; the record is written with
`image_skipped` equal to `icon` when the file name of the candidate or the
resolved mimetype matches the icon test, and empty otherwise: a renderer
that writes nothing records no reason. -/
theorem C14_small_svg_not_attached (env : Env) (dir : Str) (sh : Shared) (item : ZimWorkItem)
    (cand data mime : Str) (d : SvgDimensions)
    (htext : 10 ≤ (strip_html_tags env item.html_content).length) (hdir : dir ≠ [])
    (hcands : (gumbo_find_img_srcs env item.html_content 5).map normalize_candidate = [cand])
    (hcand : cand ≠ [])
    (hres : zim_resolve_image env cand = (data, mime)) (hdata : data ≠ [])
    (hsvg : str_contains mime "svg".toList = true ∨ str_contains mime "xml".toList = true)
    (hrsvg : env.rsvg_handle_new_from_data data = some d)
    (hsmall : Flt.le (svg_intrinsic d).1 ⟨64, 0⟩ = true ∧ Flt.le (svg_intrinsic d).2 ⟨64, 0⟩ = true) :
    (∀ out_dir pfx, generate_svg_thumbnails env data out_dir pfx = some []) ∧
    worker_step env dir sh item =
      { sh with
        out := sh.out ++ [OutputRecord.mk item.article_path item.title
          (strip_html_tags env item.html_content) [] []
          (if looks_like_icon cand = true ∨ str_contains mime "icon".toList = true
            then "icon".toList else [])
          item.html_content.length],
        success := sh.success + 1 } := by
  have hgen : ∀ out_dir pfx, generate_svg_thumbnails env data out_dir pfx = some [] := by
    intro out_dir pfx
    unfold generate_svg_thumbnails
    by_cases hl : data.length < 10
    · rw [if_pos hl]
    · rw [if_neg hl, hrsvg]
      simp only []
      rw [if_pos hsmall]
  refine ⟨hgen, ?_⟩
  by_cases hicon : looks_like_icon cand = true ∨ str_contains mime "icon".toList = true
  · have htry : ∀ loc, try_candidate env dir item cand loc sh
        = some (false, loc.skip "icon".toList, sh) := by
      intro loc
      unfold try_candidate
      rw [if_neg hcand]
      by_cases h1 : looks_like_icon cand = true
      · rw [if_pos h1]
      · have h2 : str_contains mime "icon".toList = true := by
          rcases hicon with h | h
          · exact absurd h h1
          · exact h
        rw [if_neg h1]
        simp only [hres]
        rw [if_neg hdata, if_pos h2]
    have hsel : select_image env dir item [cand] ⟨[], [], []⟩ sh
        = some (⟨[], [], "icon".toList⟩, sh) := by
      unfold select_image pass1
      by_cases hc : sh.img_usage_count cand ≥ IMG_DEDUP_THRESHOLD
      · rw [if_pos hc]
        simp only [pass1, pass2, htry]
        rfl
      · rw [if_neg hc]
        simp only [pass1, pass2, htry]
        rw [Local.skip_skip _ _ (by decide)]
        rfl
    unfold worker_step worker_try
    simp only []
    rw [if_neg (by omega), if_pos hdir, hcands, hsel]
    simp only [if_pos hicon]
  · have hn1 : ¬ looks_like_icon cand = true := fun h => hicon (Or.inl h)
    have hn2 : ¬ str_contains mime "icon".toList = true := fun h => hicon (Or.inr h)
    have htry : ∀ loc, try_candidate env dir item cand loc sh = some (false, loc, sh) := by
      intro loc
      unfold try_candidate
      rw [if_neg hcand, if_neg hn1]
      simp only [hres]
      rw [if_neg hdata, if_neg hn2, if_pos hsvg, hgen]
      rfl
    have hsel : select_image env dir item [cand] ⟨[], [], []⟩ sh
        = some (⟨[], [], []⟩, sh) := by
      unfold select_image pass1
      by_cases hc : sh.img_usage_count cand ≥ IMG_DEDUP_THRESHOLD
      · rw [if_pos hc]
        simp only [pass1, pass2, htry]
      · rw [if_neg hc]
        simp only [pass1, pass2, htry]
    unfold worker_step worker_try
    simp only []
    rw [if_neg (by omega), if_pos hdir, hcands, hsel]
    simp only [if_neg hicon]

set_option maxRecDepth 100000 in
theorem C14_small_svg_not_attached_witness :
    generate_svg_thumbnails demo_env_svg (List.replicate 100 'x') "out/7".toList "7".toList
      = some [] ∧
    (worker_step demo_env_svg "out".toList demo_shared demo_item).out
      = demo_shared.out ++ [⟨"A/page1".toList, "Page 1".toList,
          strip_html_tags demo_env_svg demo_item.html_content, [], [], [], 4⟩] := by
  have h := C14_small_svg_not_attached demo_env_svg "out".toList demo_shared demo_item
    "diagram.svg".toList (List.replicate 100 'x') "image/svg+xml".toList
    ⟨false, ⟨false, ⟨0, 0⟩⟩, false, ⟨false, ⟨0, 0⟩⟩, true, ⟨false, ⟨48, 0⟩⟩, ⟨false, ⟨48, 0⟩⟩⟩
    (by decide) (by decide) (by decide) (by decide) (by decide) (by decide) (by decide)
    rfl (by decide)
  refine ⟨h.1 _ _, ?_⟩
  rw [h.2]
  decide

/-- C15. Every record a worker writes has `image_skipped` equal to `icon`,
to `not_found` or empty; its `image_path` is not empty exactly when its
`thumb_dir` is not empty; and when an image is attached `image_skipped` is
empty, whatever happened to the candidates tried before. -/
theorem C15_record_fields (env : Env) (dir : Str) (sh : Shared) (item : ZimWorkItem)
    (r : OutputRecord) (h : (worker_step env dir sh item).out = sh.out ++ [r]) :
    skip_reason_ok r.image_skipped ∧ (r.image_path ≠ [] ↔ r.thumb_dir ≠ []) ∧
    (r.image_path ≠ [] → r.image_skipped = []) := by
  obtain ⟨-, -, -, -, -, hcase⟩ := worker_step_record env dir sh item r h
  rcases hcase with ⟨h1, h2, h3⟩ | ⟨h1, -, h2, h3, -⟩
  · refine ⟨h3, ?_, ?_⟩
    · rw [h1, h2]
    · intro hne
      exact absurd h1 hne
  · refine ⟨Or.inr (Or.inr h3), ?_, fun _ => h3⟩
    constructor
    · intro _
      rw [h2]
      simp
    · intro _
      exact h1

set_option maxRecDepth 100000 in
theorem C15_record_fields_witness :
    (worker_step demo_env "out".toList demo_shared demo_item).out
      = demo_shared.out ++ [⟨"A/page1".toList, "Page 1".toList,
          "A cat sat on the mat.\n\n".toList, "photos/dog.png".toList, "out/7".toList, [], 4⟩] ∧
    skip_reason_ok ([] : Str) ∧
    (("photos/dog.png".toList ≠ []) ↔ ("out/7".toList ≠ [])) :=
  have h : (worker_step demo_env "out".toList demo_shared demo_item).out
      = demo_shared.out ++ [⟨"A/page1".toList, "Page 1".toList,
          "A cat sat on the mat.\n\n".toList, "photos/dog.png".toList, "out/7".toList, [], 4⟩] := by
    decide
  ⟨h, (C15_record_fields demo_env "out".toList demo_shared demo_item _ h).1,
    (C15_record_fields demo_env "out".toList demo_shared demo_item _ h).2.1⟩

/-! ## Claims on the coordinator -/

/-- C16. With a detected parallelism of 1 the subtraction `num_threads - 2`
wraps around in `unsigned int`, and `process_zim` uses 4294967295 worker
threads, not `max(2, 1 - 2) = 2`; from 2 on the count is `max(2, p - 2)`, and
it is 2 when the parallelism cannot be detected. -/
theorem C16_one_core_thread_count :
    num_threads 1 = 4294967295 ∧ num_threads 0 = 2 ∧ num_threads 2 = 2 ∧
      num_threads 4 = 2 ∧ num_threads 8 = 6 := by
  decide

/-! ## The producer loop -/

theorem producer_loop_unlimited (limit : ℤ) (hlim : limit ≤ 0) (entries : List IterEntry) :
    ∀ st, producer_loop limit entries st = entries.foldl producer_step st := by
  induction entries with
  | nil => intro st; rfl
  | cons e rest ih =>
    intro st
    unfold producer_loop
    rw [if_neg (by omega)]
    exact ih (producer_step st e)

theorem producer_step_item (st : Producer) (path title mimetype : Str) (data : Option Str) :
    producer_step st (.item path title mimetype data) =
      if str_contains mimetype "text/html".toList = false then
        { st with skipped := st.skipped + 1 }
      else
        match data with
        | none => { st with total := st.total + 1, main_failed := st.main_failed + 1 }
        | some html_content =>
          if html_content = [] then
            { st with total := st.total + 1, main_failed := st.main_failed + 1 }
          else
            { st with
              total := st.total + 1,
              seq := st.seq + 1,
              enqueued := st.enqueued ++
                [⟨st.seq, path, if title = [] then path else title, html_content⟩] } :=
  rfl

theorem producer_step_seq (st : Producer) (e : IterEntry)
    (h : st.seq = st.enqueued.length ∧ st.enqueued.map (fun w => w.seq) = List.range st.seq) :
    (producer_step st e).seq = (producer_step st e).enqueued.length ∧
      (producer_step st e).enqueued.map (fun w => w.seq) = List.range (producer_step st e).seq := by
  obtain ⟨h1, h2⟩ := h
  cases e with
  | redirect p => exact ⟨h1, h2⟩
  | unreadable p => exact ⟨h1, h2⟩
  | item path title mimetype data =>
    rw [producer_step_item]
    by_cases hm : str_contains mimetype "text/html".toList = false
    · rw [if_pos hm]
      exact ⟨h1, h2⟩
    · rw [if_neg hm]
      cases data with
      | none => exact ⟨h1, h2⟩
      | some html =>
        simp only []
        by_cases hh : html = []
        · rw [if_pos hh]
          exact ⟨h1, h2⟩
        · rw [if_neg hh]
          constructor
          · simp [h1]
          · simp [h2, List.range_succ]

theorem producer_loop_seq (limit : ℤ) (entries : List IterEntry) :
    ∀ st : Producer,
      (st.seq = st.enqueued.length ∧ st.enqueued.map (fun w => w.seq) = List.range st.seq) →
      (producer_loop limit entries st).seq = (producer_loop limit entries st).enqueued.length ∧
      (producer_loop limit entries st).enqueued.map (fun w => w.seq)
        = List.range (producer_loop limit entries st).seq := by
  induction entries with
  | nil => intro st h; exact h
  | cons e rest ih =>
    intro st h
    unfold producer_loop
    split_ifs
    · exact h
    · exact ih _ (producer_step_seq st e h)

/-- C17. For every list of archive entries and every limit, the `k`-th work
item the producer enqueues (`k = 0, 1, 2, ..`) carries sequence `k`, whatever
entries are skipped in between: the sequences of the enqueued items are
`0, 1, .., n - 1` in enqueue order, so they are strictly increasing and
without repetition. -/
theorem C17_sequences_count_up (limit : ℤ) (entries : List IterEntry) :
    (producer_loop limit entries Producer.init).enqueued.map (fun w => w.seq)
      = List.range (producer_loop limit entries Producer.init).enqueued.length ∧
    ((producer_loop limit entries Producer.init).enqueued.map (fun w => w.seq)).Pairwise
      (fun a b => a < b) ∧
    ((producer_loop limit entries Producer.init).enqueued.map (fun w => w.seq)).Nodup := by
  have h := producer_loop_seq limit entries Producer.init ⟨rfl, rfl⟩
  have h1 : (producer_loop limit entries Producer.init).enqueued.map (fun w => w.seq)
      = List.range (producer_loop limit entries Producer.init).enqueued.length := by
    rw [h.2, h.1]
  refine ⟨h1, ?_, ?_⟩
  · rw [h1]
    exact List.pairwise_lt_range _
  · rw [h1]
    exact List.nodup_range _

theorem producer_step_total (st : Producer) (e : IterEntry) :
    st.total ≤ (producer_step st e).total ∧ (producer_step st e).total ≤ st.total + 1 ∧
    (st.enqueued.length ≤ st.total →
      (producer_step st e).enqueued.length ≤ (producer_step st e).total) ∧
    st.enqueued <+: (producer_step st e).enqueued := by
  cases e with
  | redirect p => exact ⟨le_rfl, Nat.le_succ _, id, List.prefix_refl _⟩
  | unreadable p => exact ⟨le_rfl, Nat.le_succ _, id, List.prefix_refl _⟩
  | item path title mimetype data =>
    rw [producer_step_item]
    by_cases hm : str_contains mimetype "text/html".toList = false
    · rw [if_pos hm]
      exact ⟨le_rfl, Nat.le_succ _, id, List.prefix_refl _⟩
    · rw [if_neg hm]
      cases data with
      | none =>
        refine ⟨Nat.le_succ _, le_rfl, fun h => ?_, List.prefix_refl _⟩
        exact Nat.le_succ_of_le h
      | some html =>
        simp only []
        by_cases hh : html = []
        · rw [if_pos hh]
          refine ⟨Nat.le_succ _, le_rfl, fun h => ?_, List.prefix_refl _⟩
          exact Nat.le_succ_of_le h
        · rw [if_neg hh]
          refine ⟨Nat.le_succ _, le_rfl, fun h => ?_, List.prefix_append _ _⟩
          simp only [List.length_append, List.length_singleton]
          omega

theorem producer_loop_bounds (limit : ℤ) (hlim : 0 < limit) (entries : List IterEntry) :
    ∀ st : Producer, (st.total : ℤ) ≤ limit → st.enqueued.length ≤ st.total →
      ((producer_loop limit entries st).total : ℤ) ≤ limit ∧
      (producer_loop limit entries st).enqueued.length ≤ (producer_loop limit entries st).total := by
  induction entries with
  | nil => intro st h1 h2; exact ⟨h1, h2⟩
  | cons e rest ih =>
    intro st h1 h2
    unfold producer_loop
    split_ifs with hc
    · exact ⟨h1, h2⟩
    · obtain ⟨-, hb, hc2, -⟩ := producer_step_total st e
      have hlt : (st.total : ℤ) < limit := by
        by_contra hcon
        exact hc ⟨hlim, by omega⟩
      exact ih _ (by omega) (hc2 h2)

theorem producer_loop_grows (limit : ℤ) (entries : List IterEntry) :
    ∀ st : Producer, st.enqueued <+: (producer_loop limit entries st).enqueued := by
  induction entries with
  | nil => intro st; exact List.prefix_refl _
  | cons e rest ih =>
    intro st
    unfold producer_loop
    split_ifs
    · exact List.prefix_refl _
    · exact (producer_step_total st e).2.2.2.trans (ih _)

theorem producer_loop_initial (limit : ℤ) (entries : List IterEntry) :
    ∀ st : Producer,
      (producer_loop limit entries st).enqueued <+: (producer_loop 0 entries st).enqueued := by
  induction entries with
  | nil => intro st; exact List.prefix_refl _
  | cons e rest ih =>
    intro st
    have h0 : producer_loop 0 (e :: rest) st = producer_loop 0 rest (producer_step st e) := by
      rw [producer_loop]
      simp
    rw [h0]
    rw [producer_loop]
    split_ifs
    · exact (producer_step_total st e).2.2.2.trans (producer_loop_grows 0 rest _)
    · exact ih _

theorem producer_step_enqueued (st : Producer) (e : IterEntry) :
    (producer_step st e).enqueued.map (fun w => (w.article_path, w.html_content))
      = st.enqueued.map (fun w => (w.article_path, w.html_content))
        ++ (spec_qualifying e).toList := by
  cases e with
  | redirect p => simp [producer_step, spec_qualifying]
  | unreadable p => simp [producer_step, spec_qualifying]
  | item path title mimetype data =>
    rw [producer_step_item]
    cases data with
    | none =>
      simp only [spec_qualifying]
      split_ifs <;> simp
    | some html =>
      simp only [spec_qualifying]
      generalize str_contains mimetype "text/html".toList = b
      cases b with
      | false => simp
      | true =>
        by_cases hh : html = []
        · simp [hh]
        · simp [hh]

theorem producer_foldl_enqueued (entries : List IterEntry) :
    ∀ st : Producer,
      (entries.foldl producer_step st).enqueued.map (fun w => (w.article_path, w.html_content))
        = st.enqueued.map (fun w => (w.article_path, w.html_content))
          ++ entries.filterMap spec_qualifying := by
  induction entries with
  | nil => intro st; simp
  | cons e rest ih =>
    intro st
    rw [List.foldl_cons, ih, producer_step_enqueued, List.append_assoc]
    congr 1
    cases h : spec_qualifying e with
    | none => simp [List.filterMap_cons, h]
    | some v => simp [List.filterMap_cons, h]

/-- C18. For every list of archive entries, the work items enqueued with an
item limit `L > 0` are at most `L` and form a prefix of those enqueued with
limit 0; the limit is 0 when it is not set; and with limit 0 the enqueued
items are, in order, exactly the non-redirect entries with a mimetype that
contains `text/html` and a non-empty payload. -/
theorem C18_limit_cuts_short (entries : List IterEntry) (L : ℤ) :
    (0 < L →
      ((producer_loop L entries Producer.init).enqueued.length : ℤ) ≤ L ∧
      (producer_loop L entries Producer.init).enqueued
        <+: (producer_loop 0 entries Producer.init).enqueued) ∧
    zim_limit none = 0 ∧
    (producer_loop 0 entries Producer.init).enqueued.map
        (fun w => (w.article_path, w.html_content))
      = entries.filterMap spec_qualifying := by
  refine ⟨fun hL => ⟨?_, producer_loop_initial L entries Producer.init⟩, rfl, ?_⟩
  · have h := producer_loop_bounds L hL entries Producer.init (by simp [Producer.init]; omega)
      (by simp [Producer.init])
    omega
  · rw [producer_loop_unlimited 0 le_rfl, producer_foldl_enqueued]
    simp [Producer.init]

theorem producer_step_counts (st : Producer) (e : IterEntry) (he : e.read_error = false) :
    (producer_step st e).redirect_count
      = st.redirect_count + (if e.isRedirect = true then 1 else 0) ∧
    (producer_step st e).skipped
      = st.skipped + (if e.isRedirect = true then 1 else 0)
        + (if e.non_html = true then 1 else 0) ∧
    (producer_step st e).total + (producer_step st e).skipped = st.total + st.skipped + 1 := by
  cases e with
  | redirect p =>
    simp [producer_step, IterEntry.isRedirect, IterEntry.non_html]
    omega
  | unreadable p => simp [IterEntry.read_error] at he
  | item path title mimetype data =>
    cases data with
    | none => simp [IterEntry.read_error] at he
    | some html =>
      rw [producer_step_item]
      simp only [IterEntry.isRedirect, IterEntry.non_html]
      by_cases hm : str_contains mimetype "text/html".toList = false
      · rw [if_pos hm]
        simp only [hm]
        refine ⟨by simp, by simp, ?_⟩
        show st.total + (st.skipped + 1) = st.total + st.skipped + 1
        omega
      · have hm' : str_contains mimetype "text/html".toList = true := by
          cases hb : str_contains mimetype "text/html".toList with
          | false => exact absurd hb hm
          | true => rfl
        rw [if_neg hm]
        simp only [hm']
        by_cases hh : html = []
        · simp only [hh, if_true]
          refine ⟨by simp, by simp, ?_⟩
          show st.total + 1 + st.skipped = st.total + st.skipped + 1
          omega
        · simp only [hh, if_false]
          refine ⟨by simp, by simp, ?_⟩
          show st.total + 1 + st.skipped = st.total + st.skipped + 1
          omega

theorem producer_foldl_counts (entries : List IterEntry)
    (hread : ∀ e ∈ entries, e.read_error = false) :
    ∀ st : Producer,
      (entries.foldl producer_step st).redirect_count
        = st.redirect_count + entries.countP IterEntry.isRedirect ∧
      (entries.foldl producer_step st).skipped
        = st.skipped + entries.countP IterEntry.isRedirect + entries.countP IterEntry.non_html ∧
      (entries.foldl producer_step st).total + (entries.foldl producer_step st).skipped
        = st.total + st.skipped + entries.length := by
  induction entries with
  | nil => intro st; simp
  | cons e rest ih =>
    intro st
    obtain ⟨i1, i2, i3⟩ :=
      ih (fun e' he' => hread e' (List.mem_cons_of_mem _ he')) (producer_step st e)
    obtain ⟨s1, s2, s3⟩ := producer_step_counts st e (hread e (List.mem_cons_self _ _))
    rw [List.foldl_cons]
    refine ⟨?_, ?_, ?_⟩
    · rw [i1, s1, List.countP_cons]
      omega
    · rw [i2, s2, List.countP_cons, List.countP_cons]
      omega
    · rw [i3, s3, List.length_cons]
      omega

/-- C19. For every list of archive entries iterated to the end with no limit
and no read error, the redirect count of the producer is the number of
redirect entries, its skipped count is that number plus the number of
non-redirect entries with a mimetype without `text/html`, and the entry
count `total + skipped` of the summary is the number of entries iterated,
in every run of `process_zim` that gets to its summary. -/
theorem C19_producer_counts (env : Env) (hardware_concurrency : ℕ) (dir : Str)
    (entries : List IterEntry) (limit : ℤ) (hlim : limit ≤ 0)
    (hread : ∀ e ∈ entries, e.read_error = false) :
    (producer_loop limit entries Producer.init).redirect_count
      = entries.countP IterEntry.isRedirect ∧
    (producer_loop limit entries Producer.init).skipped
      = entries.countP IterEntry.isRedirect + entries.countP IterEntry.non_html ∧
    (process_zim_run env hardware_concurrency entries limit dir).entries = entries.length ∧
    ∀ max_workers r, process_zim env max_workers hardware_concurrency entries limit dir = some r →
      r.entries = entries.length := by
  have h := producer_foldl_counts entries hread Producer.init
  have hrun : (process_zim_run env hardware_concurrency entries limit dir).entries
      = entries.length := by
    unfold ZimRun.entries process_zim_run
    simp only []
    rw [producer_loop_unlimited limit hlim, h.2.2]
    simp [Producer.init]
  rw [producer_loop_unlimited limit hlim]
  obtain ⟨h1, h2, -⟩ := h
  refine ⟨?_, ?_, hrun, ?_⟩
  · rw [h1]; simp [Producer.init]
  · rw [h2]; simp [Producer.init]
  · intro max_workers r hr
    unfold process_zim at hr
    split_ifs at hr
    simp only [Option.some.injEq] at hr
    rw [← hr]
    exact hrun

set_option maxRecDepth 100000 in
theorem C18_limit_cuts_short_witness :
    (0 : ℤ) < 1 ∧
    ((producer_loop 1 demo_cat_entries Producer.init).enqueued.length : ℤ) ≤ 1 ∧
    (producer_loop 1 demo_cat_entries Producer.init).enqueued
      <+: (producer_loop 0 demo_cat_entries Producer.init).enqueued :=
  ⟨by decide, (C18_limit_cuts_short demo_cat_entries 1).1 (by decide)⟩

set_option maxRecDepth 100000 in
theorem C19_producer_counts_witness :
    (producer_loop 0 demo_cat_entries Producer.init).redirect_count = 1 ∧
    (producer_loop 0 demo_cat_entries Producer.init).skipped = 1 + 1 ∧
    (process_zim_run demo_env_cat 8 demo_cat_entries 0 "out".toList).entries = 4 ∧
    (process_zim demo_env_cat 8 8 demo_cat_entries 0 "out".toList).map ZimRun.entries
      = some 4 :=
  ⟨(C19_producer_counts demo_env_cat 8 "out".toList demo_cat_entries 0
      (by decide) (by decide)).1,
   (C19_producer_counts demo_env_cat 8 "out".toList demo_cat_entries 0
      (by decide) (by decide)).2.1,
   (C19_producer_counts demo_env_cat 8 "out".toList demo_cat_entries 0
      (by decide) (by decide)).2.2.1,
   by
    rw [show process_zim demo_env_cat 8 8 demo_cat_entries 0 "out".toList
      = some (process_zim_run demo_env_cat 8 demo_cat_entries 0 "out".toList) from rfl]
    exact congrArg some ((C19_producer_counts demo_env_cat 8 "out".toList demo_cat_entries 0
      (by decide) (by decide)).2.2.2 8 _ rfl)⟩

/-! ## End to end -/

/-- The worker on an article whose text is shorter than 10 bytes. -/
theorem worker_step_short (env : Env) (dir : Str) (sh : Shared) (item : ZimWorkItem)
    (h : (strip_html_tags env item.html_content).length < 10) :
    worker_step env dir sh item = { sh with worker_failed := sh.worker_failed + 1 } := by
  unfold worker_step worker_try
  simp only []
  rw [if_pos h]

/-- The worker on an article with enough text whose only candidate resolves
and renders. -/
theorem worker_step_one_image (env : Env) (dir : Str) (sh : Shared) (item : ZimWorkItem)
    (cand : Str) (written : List ThumbFile)
    (htext : 10 ≤ (strip_html_tags env item.html_content).length) (hdir : dir ≠ [])
    (hcands : (gumbo_find_img_srcs env item.html_content 5).map normalize_candidate = [cand])
    (htry : ∀ loc sh0, try_candidate env dir item cand loc sh0
      = some (true, ⟨cand, dir ++ "/".toList ++ to_string item.seq, []⟩, sh0.attach cand written)) :
    (worker_step env dir sh item).success = sh.success + 1 ∧
    (worker_step env dir sh item).worker_failed = sh.worker_failed ∧
    (worker_step env dir sh item).images_extracted = sh.images_extracted + 1 ∧
    (worker_step env dir sh item).img_usage_count
      = Function.update sh.img_usage_count cand (sh.img_usage_count cand + 1) := by
  have hsel : select_image env dir item [cand] ⟨[], [], []⟩ sh
      = some (⟨cand, dir ++ "/".toList ++ to_string item.seq, []⟩, sh.attach cand written) := by
    unfold select_image pass1
    by_cases hc : sh.img_usage_count cand ≥ IMG_DEDUP_THRESHOLD
    · rw [if_pos hc]
      simp only [pass1, pass2, htry]
    · rw [if_neg hc]
      simp only [htry]
  unfold worker_step worker_try
  simp only []
  rw [if_neg (by omega), if_pos hdir, hcands, hsel]
  exact ⟨rfl, rfl, rfl, rfl⟩

/-- The end-to-end archive from the producer loop on: redirects skipped = 1,
failures = 1, successes = 1, images extracted = 1 and the dedup count of
`photos/cat.png` = 1, whichever of the two articles the workers take first. -/
theorem process_zim_run_end_to_end (env : Env) (hardware_concurrency : ℕ) (dir : Str)
    (t_empty t_page1 t_img h_empty h_page1 blob : Str) (written : List ThumbFile)
    (hdir : dir ≠ [])
    (hE : (strip_html_tags env h_empty).length = 5) (hEne : h_empty ≠ [])
    (hP : (strip_html_tags env h_page1).length = 40) (hPne : h_page1 ≠ [])
    (hrefs : (gumbo_find_img_srcs env h_page1 5).map normalize_candidate
      = ["photos/cat.png".toList])
    (hlit : env.getEntryByPath "photos/cat.png".toList = none)
    (himg : env.getEntryByPath "I/photos/cat.png".toList
      = some (.item "image/png".toList blob))
    (hblob : blob.length = 200)
    (hrender : generate_thumbnails env blob (dir ++ "/".toList ++ to_string 1) (to_string 1)
      = some written)
    (hwritten : written ≠ []) :
    (process_zim_run env hardware_concurrency
      (end_to_end_entries t_empty t_page1 t_img h_empty h_page1 blob) 0 dir).producer.redirect_count
      = 1 ∧
    (process_zim_run env hardware_concurrency
      (end_to_end_entries t_empty t_page1 t_img h_empty h_page1 blob) 0 dir).total_failed = 1 ∧
    (process_zim_run env hardware_concurrency
      (end_to_end_entries t_empty t_page1 t_img h_empty h_page1 blob) 0 dir).shared.success = 1 ∧
    (process_zim_run env hardware_concurrency
      (end_to_end_entries t_empty t_page1 t_img h_empty h_page1 blob) 0 dir).shared.images_extracted
      = 1 ∧
    (process_zim_run env hardware_concurrency
      (end_to_end_entries t_empty t_page1 t_img h_empty h_page1 blob) 0 dir).shared.img_usage_count
        "photos/cat.png".toList = 1 ∧
    (worker_fn env dir ⟨0, 0, 0, fun _ => 0, [], []⟩
      (process_zim_run env hardware_concurrency
        (end_to_end_entries t_empty t_page1 t_img h_empty h_page1 blob) 0
          dir).producer.enqueued.reverse).worker_failed = 1 ∧
    (worker_fn env dir ⟨0, 0, 0, fun _ => 0, [], []⟩
      (process_zim_run env hardware_concurrency
        (end_to_end_entries t_empty t_page1 t_img h_empty h_page1 blob) 0
          dir).producer.enqueued.reverse).success = 1 ∧
    (worker_fn env dir ⟨0, 0, 0, fun _ => 0, [], []⟩
      (process_zim_run env hardware_concurrency
        (end_to_end_entries t_empty t_page1 t_img h_empty h_page1 blob) 0
          dir).producer.enqueued.reverse).images_extracted = 1 ∧
    (worker_fn env dir ⟨0, 0, 0, fun _ => 0, [], []⟩
      (process_zim_run env hardware_concurrency
        (end_to_end_entries t_empty t_page1 t_img h_empty h_page1 blob) 0
          dir).producer.enqueued.reverse).img_usage_count "photos/cat.png".toList = 1 := by
  -- the producer
  have hhtml : str_contains "text/html".toList "text/html".toList = true := by decide
  have hpng : str_contains "image/png".toList "text/html".toList = false := by decide
  have hprod : producer_loop 0
      (end_to_end_entries t_empty t_page1 t_img h_empty h_page1 blob) Producer.init
      = ⟨1, 2, 0, 2, 2,
          [⟨0, "A/empty".toList, if t_empty = [] then "A/empty".toList else t_empty, h_empty⟩,
           ⟨1, "A/page1".toList, if t_page1 = [] then "A/page1".toList else t_page1, h_page1⟩]⟩ := by
    rw [producer_loop_unlimited 0 le_rfl]
    simp only [end_to_end_entries, List.foldl_cons, List.foldl_nil, producer_step_item, hhtml,
      hpng, hEne, hPne, producer_step, Producer.init, if_true, if_false, Bool.true_eq_false,
      List.nil_append, List.cons_append, Nat.zero_add]
  -- the resolver and the attempt
  have hres : zim_resolve_image env "photos/cat.png".toList = (blob, "image/png".toList) := by
    have hc : zim_resolve_candidates "photos/cat.png".toList
        = ["photos/cat.png".toList, "I/photos/cat.png".toList, "-/photos/cat.png".toList,
           "A/photos/cat.png".toList] := by decide
    have h1 : zim_try_path env "photos/cat.png".toList = none := by
      unfold zim_try_path
      rw [hlit]
    have hmime : str_contains "image/png".toList "image/".toList = true := by decide
    have h2 : zim_try_path env "I/photos/cat.png".toList = some (blob, "image/png".toList) := by
      unfold zim_try_path
      rw [himg]
      simp only [hmime, Bool.true_eq_false, if_false]
      rw [if_neg (by omega)]
    unfold zim_resolve_image
    rw [hc, List.findSome?_cons, h1, List.findSome?_cons, h2]
  have hblob_ne : blob ≠ [] := by
    intro h
    rw [h] at hblob
    simp at hblob
  have htry : ∀ (path title : Str) loc sh0,
      try_candidate env dir ⟨1, path, title, h_page1⟩ "photos/cat.png".toList loc sh0
        = some (true, ⟨"photos/cat.png".toList, dir ++ "/".toList ++ to_string 1, []⟩,
            sh0.attach "photos/cat.png".toList written) := by
    intro path title loc sh0
    have hi : looks_like_icon "photos/cat.png".toList = false := by decide
    have hm1 : str_contains "image/png".toList "icon".toList = false := by decide
    have hm2 : ¬ (str_contains "image/png".toList "svg".toList = true ∨
        str_contains "image/png".toList "xml".toList = true) := by decide
    have hlen : written.length > 0 := List.length_pos.mpr hwritten
    unfold try_candidate
    rw [if_neg (by decide)]
    simp only [hi, hres, hm1, Bool.false_eq_true, if_false]
    rw [if_neg hblob_ne, if_neg hm2, hrender]
    simp only []
    rw [if_pos hlen]
    rfl
  have hshort : ∀ (path title : Str) sh,
      worker_step env dir sh ⟨0, path, title, h_empty⟩
        = { sh with worker_failed := sh.worker_failed + 1 } := by
    intro path title sh
    exact worker_step_short env dir sh _ (by simp only []; omega)
  have hpage := fun (path title : Str) (sh : Shared) =>
    worker_step_one_image env dir sh ⟨1, path, title, h_page1⟩ "photos/cat.png".toList written
      (by simp only []; omega) hdir hrefs (htry path title)
  have hproducer : (process_zim_run env hardware_concurrency
      (end_to_end_entries t_empty t_page1 t_img h_empty h_page1 blob) 0 dir).producer
      = ⟨1, 2, 0, 2, 2,
          [⟨0, "A/empty".toList, if t_empty = [] then "A/empty".toList else t_empty, h_empty⟩,
           ⟨1, "A/page1".toList, if t_page1 = [] then "A/page1".toList else t_page1, h_page1⟩]⟩ := by
    unfold process_zim_run
    simp only [hprod]
  have hshared : (process_zim_run env hardware_concurrency
      (end_to_end_entries t_empty t_page1 t_img h_empty h_page1 blob) 0 dir).shared
      = worker_step env dir
          (worker_step env dir ⟨0, 0, 0, fun _ => 0, [], []⟩
            ⟨0, "A/empty".toList, if t_empty = [] then "A/empty".toList else t_empty, h_empty⟩)
          ⟨1, "A/page1".toList, if t_page1 = [] then "A/page1".toList else t_page1, h_page1⟩ := by
    unfold process_zim_run
    simp only [hprod]
    rfl
  have hrev : worker_fn env dir ⟨0, 0, 0, fun _ => 0, [], []⟩
      (process_zim_run env hardware_concurrency
        (end_to_end_entries t_empty t_page1 t_img h_empty h_page1 blob) 0
          dir).producer.enqueued.reverse
      = worker_step env dir
          (worker_step env dir ⟨0, 0, 0, fun _ => 0, [], []⟩
            ⟨1, "A/page1".toList, if t_page1 = [] then "A/page1".toList else t_page1, h_page1⟩)
          ⟨0, "A/empty".toList, if t_empty = [] then "A/empty".toList else t_empty, h_empty⟩ := by
    rw [hproducer]
    rfl
  unfold ZimRun.total_failed
  rw [hrev, hshared, hproducer]
  obtain ⟨p1, p2, p3, p4⟩ := hpage "A/page1".toList
    (if t_page1 = [] then "A/page1".toList else t_page1) ⟨0, 0, 0, fun _ => 0, [], []⟩
  obtain ⟨q1, q2, q3, q4⟩ := hpage "A/page1".toList
    (if t_page1 = [] then "A/page1".toList else t_page1)
    (worker_step env dir ⟨0, 0, 0, fun _ => 0, [], []⟩
      ⟨0, "A/empty".toList, if t_empty = [] then "A/empty".toList else t_empty, h_empty⟩)
  refine ⟨rfl, ?_, ?_, ?_, ?_, ?_, ?_, ?_, ?_⟩
  · rw [q2, hshort]
    rfl
  · rw [q1, hshort]
  · rw [q3, hshort]
  · rw [q4, hshort]
    simp
  · rw [hshort]
    show (worker_step env dir ⟨0, 0, 0, fun _ => 0, [], []⟩ _).worker_failed + 1 = 1
    rw [p2]
  · rw [hshort]
    show (worker_step env dir ⟨0, 0, 0, fun _ => 0, [], []⟩ _).success = 1
    rw [p1]
  · rw [hshort]
    show (worker_step env dir ⟨0, 0, 0, fun _ => 0, [], []⟩ _).images_extracted = 1
    rw [p3]
  · rw [hshort]
    show (worker_step env dir ⟨0, 0, 0, fun _ => 0, [], []⟩ _).img_usage_count _ = 1
    rw [p4]
    simp

/-- C20. For an archive that holds, in path order, `A/empty` (HTML, text of
length 5), `A/page1` (HTML, text of length 40, one image reference
`photos/cat.png`), `A/page2` (a redirect) and `I/photos/cat.png`
(`image/png`, 200 bytes, from which the raster renderer writes at least one
thumbnail), run with no limit and an image directory.  When the system
provides the `num_threads` worker threads, the run ends with redirects
skipped = 1, failures = 1, successes = 1, images extracted = 1 and the dedup
count of `photos/cat.png` = 1, whichever of the two articles the workers
take first.  When it does not, the run ends before any entry is read; that
is so on a machine with one core, where 4294967295 threads are asked for. -/
theorem C20_end_to_end (env : Env) (max_workers hardware_concurrency : ℕ) (dir : Str)
    (t_empty t_page1 t_img h_empty h_page1 blob : Str) (written : List ThumbFile)
    (hdir : dir ≠ []) (hmk : env.create_directories dir = true)
    (hE : (strip_html_tags env h_empty).length = 5) (hEne : h_empty ≠ [])
    (hP : (strip_html_tags env h_page1).length = 40) (hPne : h_page1 ≠ [])
    (hrefs : (gumbo_find_img_srcs env h_page1 5).map normalize_candidate
      = ["photos/cat.png".toList])
    (hlit : env.getEntryByPath "photos/cat.png".toList = none)
    (himg : env.getEntryByPath "I/photos/cat.png".toList
      = some (.item "image/png".toList blob))
    (hblob : blob.length = 200)
    (hrender : generate_thumbnails env blob (dir ++ "/".toList ++ to_string 1) (to_string 1)
      = some written)
    (hwritten : written ≠ []) :
    (num_threads hardware_concurrency ≤ max_workers →
      ∃ r, process_zim env max_workers hardware_concurrency
          (end_to_end_entries t_empty t_page1 t_img h_empty h_page1 blob) 0 dir = some r ∧
        r.producer.redirect_count = 1 ∧ r.total_failed = 1 ∧ r.shared.success = 1 ∧
        r.shared.images_extracted = 1 ∧
        r.shared.img_usage_count "photos/cat.png".toList = 1 ∧
        (worker_fn env dir ⟨0, 0, 0, fun _ => 0, [], []⟩
          r.producer.enqueued.reverse).worker_failed = 1 ∧
        (worker_fn env dir ⟨0, 0, 0, fun _ => 0, [], []⟩
          r.producer.enqueued.reverse).success = 1 ∧
        (worker_fn env dir ⟨0, 0, 0, fun _ => 0, [], []⟩
          r.producer.enqueued.reverse).images_extracted = 1 ∧
        (worker_fn env dir ⟨0, 0, 0, fun _ => 0, [], []⟩
          r.producer.enqueued.reverse).img_usage_count "photos/cat.png".toList = 1) ∧
    (max_workers < num_threads hardware_concurrency →
      process_zim env max_workers hardware_concurrency
        (end_to_end_entries t_empty t_page1 t_img h_empty h_page1 blob) 0 dir = none) ∧
    (hardware_concurrency = 1 → max_workers < 4294967295 →
      process_zim env max_workers hardware_concurrency
        (end_to_end_entries t_empty t_page1 t_img h_empty h_page1 blob) 0 dir = none) := by
  have hmk' : ¬ (dir ≠ [] ∧ env.create_directories dir = false) := by
    rw [hmk]
    simp
  have hnone : max_workers < num_threads hardware_concurrency →
      process_zim env max_workers hardware_concurrency
        (end_to_end_entries t_empty t_page1 t_img h_empty h_page1 blob) 0 dir = none := by
    intro hlt
    unfold process_zim
    rw [if_neg hmk', if_pos hlt]
  refine ⟨fun hstart => ?_, hnone, fun h1 hlt => hnone ?_⟩
  · refine ⟨process_zim_run env hardware_concurrency
      (end_to_end_entries t_empty t_page1 t_img h_empty h_page1 blob) 0 dir, ?_,
      process_zim_run_end_to_end env hardware_concurrency dir t_empty t_page1 t_img h_empty
        h_page1 blob written hdir hE hEne hP hPne hrefs hlit himg hblob hrender hwritten⟩
    unfold process_zim
    rw [if_neg hmk', if_neg (by omega)]
  · subst h1
    have : num_threads 1 = 4294967295 := by decide
    omega

set_option maxRecDepth 100000 in
theorem C20_end_to_end_witness :
    (∃ r, process_zim demo_env_cat 8 8 demo_cat_entries 0 "out".toList = some r ∧
      r.producer.redirect_count = 1 ∧ r.total_failed = 1 ∧ r.shared.success = 1 ∧
      r.shared.images_extracted = 1 ∧
      r.shared.img_usage_count "photos/cat.png".toList = 1) ∧
    process_zim demo_env_cat 4194304 1 demo_cat_entries 0 "out".toList = none := by
  have h := fun max_workers hardware_concurrency =>
    C20_end_to_end demo_env_cat max_workers hardware_concurrency "out".toList "Empty".toList
      "Page 1".toList [] "short".toList "page".toList (List.replicate 200 'x')
      [⟨"out/1/1_thumb_0_large.jpg".toList, 150, 112⟩,
       ⟨"out/1/1_thumb_0_medium.jpg".toList, 300, 225⟩,
       ⟨"out/1/1_thumb_0_small.jpg".toList, 100, 75⟩,
       ⟨"out/1/1_thumb_0_modal.jpg".toList, 640, 480⟩]
      (by decide) rfl (by decide) (by decide) (by decide) (by decide) (by decide) rfl rfl
      (by decide) (by decide) (by decide)
  refine ⟨?_, (h 4194304 1).2.2 rfl (by decide)⟩
  obtain ⟨r, hr, h1, h2, h3, h4, h5, -⟩ := (h 8 8).1 (by decide)
  exact ⟨r, hr, h1, h2, h3, h4, h5⟩

/-! ## Processing order -/

/-- Taking the last of the four demo articles first is a reordering. -/
theorem demo_items_perm : demo_items_reordered.Perm demo_items :=
  (List.perm_append_comm :
    ([(⟨3, "A/p3".toList, "P3".toList, "page".toList⟩ : ZimWorkItem)] ++
      ([⟨0, "A/p0".toList, "P0".toList, "page".toList⟩,
       ⟨1, "A/p1".toList, "P1".toList, "page".toList⟩,
       ⟨2, "A/p2".toList, "P2".toList, "page".toList⟩] : List ZimWorkItem)).Perm _)

theorem generate_thumbnails_dir (env : Env) (data out_dir pfx : Str) :
    (generate_thumbnails env data out_dir pfx = none → env.create_directories out_dir = false) ∧
    (∀ w, generate_thumbnails env data out_dir pfx = some w → w ≠ [] →
      env.create_directories out_dir = true) := by
  unfold generate_thumbnails
  cases env.stbi_load_from_memory data with
  | none =>
    refine ⟨fun h => absurd h (by simp), fun w h hne => ?_⟩
    simp only [Option.some.injEq] at h
    exact absurd h.symm hne
  | some r =>
    obtain ⟨w0, h0, c0⟩ := r
    simp only []
    split_ifs with hc
    · exact ⟨fun _ => hc, fun w h _ => absurd h (by simp)⟩
    · exact ⟨fun h => absurd h (by simp), fun _ _ _ => by simpa using hc⟩

theorem generate_svg_thumbnails_dir (env : Env) (data out_dir pfx : Str) :
    (generate_svg_thumbnails env data out_dir pfx = none →
      env.create_directories out_dir = false) ∧
    (∀ w, generate_svg_thumbnails env data out_dir pfx = some w → w ≠ [] →
      env.create_directories out_dir = true) := by
  have hnil : ∀ w : List ThumbFile, some ([] : List ThumbFile) = some w → w ≠ [] → 
      env.create_directories out_dir = true := by
    intro w h hne
    simp only [Option.some.injEq] at h
    exact absurd h.symm hne
  unfold generate_svg_thumbnails
  by_cases hlen : data.length < 10
  · rw [if_pos hlen]
    exact ⟨fun h => absurd h (by simp), hnil⟩
  · rw [if_neg hlen]
    cases env.rsvg_handle_new_from_data data with
    | none => exact ⟨fun h => absurd h (by simp), hnil⟩
    | some d =>
      simp only []
      split_ifs with hsmall hc
      · exact ⟨fun h => absurd h (by simp), hnil⟩
      · exact ⟨fun _ => hc, fun w h _ => absurd h (by simp)⟩
      · exact ⟨fun h => absurd h (by simp), fun _ _ _ => by simpa using hc⟩

/-- An attempt throws only when `fs::create_directories` throws on the
thumbnail directory of the article, and succeeds only when it does not. -/
theorem attempt_dir (env : Env) (dir : Str) (item : ZimWorkItem) (cand : Str) :
    (attempt env dir item cand = none →
      env.create_directories (dir ++ "/".toList ++ to_string item.seq) = false) ∧
    (attempt env dir item cand = some true →
      env.create_directories (dir ++ "/".toList ++ to_string item.seq) = true) := by
  unfold attempt try_candidate
  simp only []
  split_ifs
  · simp
  · simp
  · simp
  · simp
  · have hd := generate_svg_thumbnails_dir env (zim_resolve_image env cand).1
      (dir ++ "/".toList ++ to_string item.seq) (to_string item.seq)
    cases hr : generate_svg_thumbnails env (zim_resolve_image env cand).1
      (dir ++ "/".toList ++ to_string item.seq) (to_string item.seq) with
    | none => exact ⟨fun _ => hd.1 hr, fun h => absurd h (by simp)⟩
    | some written =>
      simp only []
      split_ifs with hlen
      · refine ⟨fun h => absurd h (by simp), fun _ => hd.2 written hr ?_⟩
        intro hnil
        rw [hnil] at hlen
        exact absurd hlen (by simp)
      · exact ⟨fun h => absurd h (by simp), fun h => absurd h (by simp)⟩
  · have hd := generate_thumbnails_dir env (zim_resolve_image env cand).1
      (dir ++ "/".toList ++ to_string item.seq) (to_string item.seq)
    cases hr : generate_thumbnails env (zim_resolve_image env cand).1
      (dir ++ "/".toList ++ to_string item.seq) (to_string item.seq) with
    | none => exact ⟨fun _ => hd.1 hr, fun h => absurd h (by simp)⟩
    | some written =>
      simp only []
      split_ifs with hlen
      · refine ⟨fun h => absurd h (by simp), fun _ => hd.2 written hr ?_⟩
        intro hnil
        rw [hnil] at hlen
        exact absurd hlen (by simp)
      · exact ⟨fun h => absurd h (by simp), fun h => absurd h (by simp)⟩

/-- When some attempt of an article throws, no attempt of it succeeds. -/
theorem attempt_none_excludes_true (env : Env) (dir : Str) (item : ZimWorkItem) (c c' : Str)
    (h : attempt env dir item c = none) : attempt env dir item c' ≠ some true := by
  intro h'
  have h1 := (attempt_dir env dir item c).1 h
  have h2 := (attempt_dir env dir item c').2 h'
  rw [h1] at h2
  exact absurd h2 (by simp)

theorem pass2_none (env : Env) (dir : Str) (item : ZimWorkItem) (cands : List Str) :
    (∀ c ∈ cands, attempt env dir item c ≠ some true) →
    (∃ c ∈ cands, attempt env dir item c = none) →
    ∀ (loc : Local) (sh : Shared), pass2 env dir item cands loc sh = none := by
  induction cands with
  | nil =>
    intro _ hex
    obtain ⟨c, hc, -⟩ := hex
    exact absurd hc (List.not_mem_nil c)
  | cons c rest ih =>
    intro hno hex loc sh
    unfold pass2
    rcases try_candidate_shape env dir item c loc sh with ⟨loc1, h1, -, -⟩ | h1 | ⟨w, -, h1⟩
    · have hatt := try_candidate_some env dir item c loc loc1 sh sh false h1
      rw [h1]
      simp only []
      refine ih (fun c' hc' => hno c' (List.mem_cons_of_mem _ hc')) ?_ loc1 sh
      obtain ⟨c', hc', hnone⟩ := hex
      rcases List.mem_cons.mp hc' with rfl | hmem
      · rw [hatt] at hnone
        exact absurd hnone (by simp)
      · exact ⟨c', hmem, hnone⟩
    · rw [h1]
    · exact absurd (try_candidate_some env dir item c loc _ sh _ true h1)
        (hno c (List.mem_cons_self _ _))

/-- The two passes are interrupted by an exception exactly when the attempt
on one of the candidates throws, whatever the dedup counts are. -/
theorem select_image_eq_none_iff (env : Env) (dir : Str) (item : ZimWorkItem)
    (cands : List Str) (loc : Local) (sh : Shared) :
    select_image env dir item cands loc sh = none ↔
      ∃ c ∈ cands, attempt env dir item c = none := by
  constructor
  · intro h
    by_contra hno
    have hno' : ∀ c ∈ cands, attempt env dir item c ≠ none := by
      intro c hc hnone
      exact hno ⟨c, hc, hnone⟩
    have := select_image_isSome env dir item cands hno' loc sh
    rw [h] at this
    exact absurd this (by simp)
  · intro hex
    have hnot : ∀ c ∈ cands, attempt env dir item c ≠ some true := by
      obtain ⟨c0, -, h0⟩ := hex
      exact fun c _ => attempt_none_excludes_true env dir item c0 c h0
    unfold select_image
    cases hp : pass1 env dir item cands loc sh with
    | none => rfl
    | some r =>
      obtain ⟨found, loc1, sh1⟩ := r
      rcases pass1_spec env dir item cands loc sh found loc1 sh1 hp with
        ⟨-, c, w, hc, -, -, -⟩ | ⟨hf, -, -, -, -⟩
      · exfalso
        have hmem := List.mem_of_find?_eq_some hc
        have hs := List.find?_some hc
        simp only [Bool.and_eq_true, decide_eq_true_eq, attempt_succeeds] at hs
        exact hnot c hmem hs.2
      · subst hf
        simp only []
        exact pass2_none env dir item cands hnot hex loc1 sh1

/-- The three ways a call of `try_candidate` ends, with the reason noted: it
returns `false` having noted the reason of the candidate, if it has one; it
throws; or it returns `true` having attached the candidate, which has no
reason. -/
theorem try_candidate_reason (env : Env) (dir : Str) (item : ZimWorkItem) (cand : Str)
    (loc : Local) (sh : Shared) :
    try_candidate env dir item cand loc sh = some (false, skip_step env loc cand, sh) ∨
    try_candidate env dir item cand loc sh = none ∨
    (∃ written, cand ≠ [] ∧ skip_reason_of env cand = none ∧
      try_candidate env dir item cand loc sh
        = some (true, ⟨cand, dir ++ "/".toList ++ to_string item.seq, []⟩,
            sh.attach cand written)) := by
  unfold try_candidate skip_step skip_reason_of
  simp only []
  split_ifs with h0 h1 h2 h3 h4
  · exact Or.inl rfl
  · exact Or.inl rfl
  · exact Or.inl rfl
  · exact Or.inl rfl
  · generalize generate_svg_thumbnails env _ _ _ = r
    cases r with
    | none => exact Or.inr (Or.inl rfl)
    | some written =>
      simp only []
      split_ifs
      · exact Or.inr (Or.inr ⟨written, h0, trivial, rfl⟩)
      · exact Or.inl rfl
  · generalize generate_thumbnails env _ _ _ = r
    cases r with
    | none => exact Or.inr (Or.inl rfl)
    | some written =>
      simp only []
      split_ifs
      · exact Or.inr (Or.inr ⟨written, h0, trivial, rfl⟩)
      · exact Or.inl rfl

/-- A candidate whose attempt succeeds has no reason. -/
theorem attempt_true_reason (env : Env) (dir : Str) (item : ZimWorkItem) (c : Str)
    (h : attempt env dir item c = some true) : skip_reason_of env c = none := by
  rcases try_candidate_reason env dir item c ⟨[], [], []⟩ ⟨0, 0, 0, fun _ => 0, [], []⟩ with
    h1 | h1 | ⟨w, -, hr, -⟩
  · have := try_candidate_some env dir item c _ _ _ _ false h1
    rw [h] at this
    exact absurd this (by simp)
  · have := (try_candidate_none env dir item c _ _).mp h1
    rw [h] at this
    exact absurd this (by simp)
  · exact hr

theorem skip_all_thumb_dir (env : Env) (cands : List Str) :
    ∀ loc : Local, (skip_all env cands loc).thumb_dir = loc.thumb_dir := by
  induction cands with
  | nil => intro loc; rfl
  | cons c rest ih =>
    intro loc
    have hstep : (skip_step env loc c).thumb_dir = loc.thumb_dir := by
      unfold skip_step
      cases skip_reason_of env c with
      | none => rfl
      | some reason => exact Local.skip_thumb_dir loc reason
    exact (ih (skip_step env loc c)).trans hstep

theorem pass2_rest (env : Env) (dir : Str) (item : ZimWorkItem) (cands : List Str) :
    ∀ (loc : Local) (sh : Shared) (loc' : Local) (sh' : Shared),
      pass2 env dir item cands loc sh = some (loc', sh') →
      (∃ c w, c ∈ cands ∧ attempt env dir item c = some true ∧
          loc' = ⟨c, dir ++ "/".toList ++ to_string item.seq, []⟩ ∧ sh' = sh.attach c w) ∨
      ((∀ c ∈ cands, attempt env dir item c ≠ some true) ∧ sh' = sh ∧
          loc' = skip_all env cands loc) := by
  induction cands with
  | nil =>
    intro loc sh loc' sh' h
    simp only [pass2, Option.some.injEq, Prod.mk.injEq] at h
    obtain ⟨rfl, rfl⟩ := h
    exact Or.inr ⟨fun c hc => absurd hc (List.not_mem_nil c), rfl, rfl⟩
  | cons c rest ih =>
    intro loc sh loc' sh' h
    unfold pass2 at h
    rcases try_candidate_reason env dir item c loc sh with h1 | h1 | ⟨w, -, -, h1⟩
    · have hatt := try_candidate_some env dir item c loc _ sh sh false h1
      rw [h1] at h
      simp only [] at h
      rcases ih _ sh loc' sh' h with ⟨c', w, hc', ha, hl, hs⟩ | ⟨hno, hs, hl⟩
      · exact Or.inl ⟨c', w, List.mem_cons_of_mem _ hc', ha, hl, hs⟩
      · refine Or.inr ⟨?_, hs, hl⟩
        intro c'' hc''
        rcases List.mem_cons.mp hc'' with rfl | hm
        · rw [hatt]
          simp
        · exact hno _ hm
    · rw [h1] at h
      exact absurd h (by simp)
    · have hatt := try_candidate_some env dir item c loc _ sh _ true h1
      rw [h1] at h
      simp only [Option.some.injEq, Prod.mk.injEq] at h
      obtain ⟨rfl, rfl⟩ := h
      exact Or.inl ⟨c, w, List.mem_cons_self _ _, hatt, rfl, rfl⟩

theorem pass1_rest (env : Env) (dir : Str) (item : ZimWorkItem) (cands : List Str) :
    ∀ (loc : Local) (sh : Shared) (found : Bool) (loc' : Local) (sh' : Shared),
      counted_are_resolved env sh →
      pass1 env dir item cands loc sh = some (found, loc', sh') →
      (found = true ∧ ∃ c w, c ∈ cands ∧ attempt env dir item c = some true ∧
          loc' = ⟨c, dir ++ "/".toList ++ to_string item.seq, []⟩ ∧ sh' = sh.attach c w) ∨
      (found = false ∧ sh' = sh ∧ loc' = skip_all env cands loc) := by
  induction cands with
  | nil =>
    intro loc sh found loc' sh' _ h
    simp only [pass1, Option.some.injEq, Prod.mk.injEq] at h
    obtain ⟨rfl, rfl, rfl⟩ := h
    exact Or.inr ⟨rfl, rfl, rfl⟩
  | cons c rest ih =>
    intro loc sh found loc' sh' hinv h
    unfold pass1 at h
    split_ifs at h with hcount
    · have hr : skip_reason_of env c = none := by
        apply hinv
        unfold IMG_DEDUP_THRESHOLD at hcount
        omega
      have hstep : skip_step env loc c = loc := by
        unfold skip_step
        rw [hr]
      rcases ih loc sh found loc' sh' hinv h with ⟨hf, c', w, hc', ha, hl, hs⟩ | ⟨hf, hs, hl⟩
      · exact Or.inl ⟨hf, c', w, List.mem_cons_of_mem _ hc', ha, hl, hs⟩
      · refine Or.inr ⟨hf, hs, ?_⟩
        show loc' = skip_all env rest (skip_step env loc c)
        rw [hstep]
        exact hl
    · rcases try_candidate_reason env dir item c loc sh with h1 | h1 | ⟨w, -, -, h1⟩
      · rw [h1] at h
        simp only [] at h
        rcases ih _ sh found loc' sh' hinv h with ⟨hf, c', w, hc', ha, hl, hs⟩ | ⟨hf, hs, hl⟩
        · exact Or.inl ⟨hf, c', w, List.mem_cons_of_mem _ hc', ha, hl, hs⟩
        · exact Or.inr ⟨hf, hs, hl⟩
      · rw [h1] at h
        exact absurd h (by simp)
      · have hatt := try_candidate_some env dir item c loc _ sh _ true h1
        rw [h1] at h
        simp only [Option.some.injEq, Prod.mk.injEq] at h
        obtain ⟨rfl, rfl, rfl⟩ := h
        exact Or.inl ⟨rfl, c, w, List.mem_cons_self _ _, hatt, rfl, rfl⟩

/-- What the two passes leave behind, whatever the dedup counts are: a
candidate of the article is attached when the attempt on one of them
succeeds, and otherwise the locals are those after two rounds of failed
attempts on all the candidates. -/
theorem select_image_rest (env : Env) (dir : Str) (item : ZimWorkItem) (cands : List Str)
    (loc : Local) (sh : Shared) (loc' : Local) (sh' : Shared)
    (hinv : counted_are_resolved env sh)
    (h : select_image env dir item cands loc sh = some (loc', sh')) :
    (∃ c w, c ∈ cands ∧ attempt env dir item c = some true ∧
        loc' = ⟨c, dir ++ "/".toList ++ to_string item.seq, []⟩ ∧ sh' = sh.attach c w) ∨
    ((∀ c ∈ cands, attempt env dir item c ≠ some true) ∧ sh' = sh ∧
        loc' = skip_all env cands (skip_all env cands loc)) := by
  unfold select_image at h
  cases hp1 : pass1 env dir item cands loc sh with
  | none =>
    rw [hp1] at h
    exact absurd h (by simp)
  | some r =>
    obtain ⟨found, loc1, sh1⟩ := r
    rw [hp1] at h
    rcases pass1_rest env dir item cands loc sh found loc1 sh1 hinv hp1 with
      ⟨hf, c, w, hc, ha, hl, hs⟩ | ⟨hf, hs, hl⟩
    · subst hf
      simp only [Option.some.injEq, Prod.mk.injEq] at h
      obtain ⟨rfl, rfl⟩ := h
      exact Or.inl ⟨c, w, hc, ha, hl, hs⟩
    · subst hf
      simp only [] at h
      subst hs
      subst hl
      exact pass2_rest env dir item cands _ _ loc' sh' h

/-- What one article adds to the output and to the counters, whatever the
dedup counts the worker meets: every field of its record but `image_path`
depends on the article alone. -/
theorem worker_step_rest (env : Env) (dir : Str) (sh : Shared) (item : ZimWorkItem)
    (hinv : counted_are_resolved env sh) :
    (worker_step env dir sh item).out.map OutputRecord.but_image_path
        = sh.out.map OutputRecord.but_image_path ++ (item_record env dir item).toList ∧
    (worker_step env dir sh item).success
        = sh.success + (item_record env dir item).toList.length ∧
    (worker_step env dir sh item).worker_failed + (item_record env dir item).toList.length
        = sh.worker_failed + 1 ∧
    (worker_step env dir sh item).images_extracted
        = sh.images_extracted
          + (item_record env dir item).toList.countP (fun r => decide (r.2.2.2.1 ≠ [])) ∧
    counted_are_resolved env (worker_step env dir sh item) := by
  unfold worker_step
  by_cases hlen : (strip_html_tags env item.html_content).length < 10
  · have hrec : item_record env dir item = none := by
      unfold item_record
      simp only []
      rw [if_pos hlen]
    have htry : worker_try env dir sh item
        = some { sh with worker_failed := sh.worker_failed + 1 } := by
      unfold worker_try
      simp only []
      rw [if_pos hlen]
    rw [htry, hrec]
    exact ⟨by simp, by simp, by simp, by simp, hinv⟩
  · by_cases hdir : dir = []
    · have hrec : item_record env dir item = some (item.article_path, item.title,
          strip_html_tags env item.html_content, [], [], item.html_content.length) := by
        unfold item_record
        simp only []
        rw [if_neg hlen, if_pos hdir]
      have htry : worker_try env dir sh item = some { sh with
          out := sh.out ++ [OutputRecord.mk item.article_path item.title
            (strip_html_tags env item.html_content) [] [] [] item.html_content.length],
          success := sh.success + 1 } := by
        unfold worker_try
        simp only []
        rw [if_neg hlen, if_neg (not_not.mpr hdir)]
      rw [htry, hrec]
      exact ⟨by simp [OutputRecord.but_image_path], by simp, by simp, by simp, hinv⟩
    · by_cases hthrow : ∃ c ∈ (gumbo_find_img_srcs env item.html_content 5).map
          normalize_candidate, attempt env dir item c = none
      · have hsel := (select_image_eq_none_iff env dir item _ ⟨[], [], []⟩ sh).mpr hthrow
        have htry : worker_try env dir sh item = none := by
          unfold worker_try
          simp only []
          rw [if_neg hlen, if_pos hdir, hsel]
        have hrec : item_record env dir item = none := by
          unfold item_record
          simp only []
          rw [if_neg hlen, if_neg hdir, if_pos]
          rw [List.any_eq_true]
          obtain ⟨c, hc, hnone⟩ := hthrow
          exact ⟨c, hc, decide_eq_true hnone⟩
        rw [htry, hrec]
        exact ⟨by simp, by simp, by simp, by simp, hinv⟩
      · have hnothrow : ¬ ((gumbo_find_img_srcs env item.html_content 5).map
            normalize_candidate).any
            (fun c => decide (attempt env dir item c = none)) = true := by
          intro hany
          rw [List.any_eq_true] at hany
          obtain ⟨c, hc, hnone⟩ := hany
          exact hthrow ⟨c, hc, of_decide_eq_true hnone⟩
        cases hsel : select_image env dir item
            ((gumbo_find_img_srcs env item.html_content 5).map normalize_candidate)
            ⟨[], [], []⟩ sh with
        | none =>
          exact absurd ((select_image_eq_none_iff env dir item _ ⟨[], [], []⟩ sh).mp hsel) hthrow
        | some r =>
          obtain ⟨loc, sh1⟩ := r
          have htry : worker_try env dir sh item = some { sh1 with
              out := sh1.out ++ [OutputRecord.mk item.article_path item.title
                (strip_html_tags env item.html_content) loc.image_path loc.thumb_dir
                loc.image_skipped item.html_content.length],
              success := sh1.success + 1 } := by
            unfold worker_try
            simp only []
            rw [if_neg hlen, if_pos hdir, hsel]
          rw [htry]
          rcases select_image_rest env dir item _ _ sh loc sh1 hinv hsel with
            ⟨c, w, hc, ha, rfl, rfl⟩ | ⟨hno, rfl, rfl⟩
          · have hrec : item_record env dir item = some (item.article_path, item.title,
                strip_html_tags env item.html_content,
                dir ++ "/".toList ++ to_string item.seq, [], item.html_content.length) := by
              unfold item_record
              simp only []
              rw [if_neg hlen, if_neg hdir, if_neg hnothrow, if_pos]
              rw [List.any_eq_true]
              exact ⟨c, hc, decide_eq_true ha⟩
            rw [hrec]
            refine ⟨by simp [OutputRecord.but_image_path, Shared.attach],
              by simp [Shared.attach], by simp [Shared.attach],
              by simp [Shared.attach], ?_⟩
            intro c' hc'
            by_cases hcc : c' = c
            · rw [hcc]
              exact attempt_true_reason env dir item c ha
            · apply hinv
              simpa [Shared.attach, Function.update, hcc] using hc'
          · have hrec : item_record env dir item = some (item.article_path, item.title,
                strip_html_tags env item.html_content, [],
                (skip_all env ((gumbo_find_img_srcs env item.html_content 5).map
                  normalize_candidate)
                  (skip_all env ((gumbo_find_img_srcs env item.html_content 5).map
                    normalize_candidate) ⟨[], [], []⟩)).image_skipped,
                item.html_content.length) := by
              unfold item_record
              simp only []
              rw [if_neg hlen, if_neg hdir, if_neg hnothrow, if_neg]
              intro hany
              rw [List.any_eq_true] at hany
              obtain ⟨c, hc, hs⟩ := hany
              exact hno c hc (of_decide_eq_true hs)
            have hth : (skip_all env ((gumbo_find_img_srcs env item.html_content 5).map
                  normalize_candidate)
                  (skip_all env ((gumbo_find_img_srcs env item.html_content 5).map
                    normalize_candidate) ⟨[], [], []⟩)).thumb_dir = [] := by
              rw [skip_all_thumb_dir, skip_all_thumb_dir]
            rw [hrec]
            exact ⟨by simp [OutputRecord.but_image_path, hth], by simp, by simp, by simp, hinv⟩

/-- The records of a run without their `image_path`, and its counters, from
the articles alone. -/
theorem worker_fn_rest (env : Env) (dir : Str) (items : List ZimWorkItem) :
    ∀ sh : Shared, counted_are_resolved env sh →
    (worker_fn env dir sh items).out.map OutputRecord.but_image_path
        = sh.out.map OutputRecord.but_image_path ++ items.filterMap (item_record env dir) ∧
    (worker_fn env dir sh items).success
        = sh.success + (items.filterMap (item_record env dir)).length ∧
    (worker_fn env dir sh items).worker_failed + (items.filterMap (item_record env dir)).length
        = sh.worker_failed + items.length ∧
    (worker_fn env dir sh items).images_extracted
        = sh.images_extracted + (items.filterMap (item_record env dir)).countP
            (fun r => decide (r.2.2.2.1 ≠ [])) := by
  induction items with
  | nil =>
    intro sh _
    simp [worker_fn]
  | cons item rest ih =>
    intro sh hinv
    obtain ⟨h1, h2, h3, h4, h5⟩ := worker_step_rest env dir sh item hinv
    obtain ⟨i1, i2, i3, i4⟩ := ih (worker_step env dir sh item) h5
    have hfold : worker_fn env dir sh (item :: rest)
        = worker_fn env dir (worker_step env dir sh item) rest := rfl
    rw [hfold]
    cases hc : item_record env dir item with
    | none =>
      rw [hc] at h1 h2 h3 h4
      simp only [Option.toList, List.append_nil, List.length_nil, Nat.add_zero,
        List.countP_nil] at h1 h2 h3 h4
      rw [List.filterMap_cons_none hc]
      rw [h1] at i1
      rw [h2] at i2
      rw [h4] at i4
      refine ⟨i1, i2, ?_, i4⟩
      rw [List.length_cons]
      omega
    | some v =>
      rw [hc] at h1 h2 h3 h4
      simp only [Option.toList, List.length_singleton] at h1 h2 h3 h4
      rw [List.filterMap_cons_some hc]
      rw [h1] at i1
      rw [h2] at i2
      rw [h4] at i4
      refine ⟨?_, ?_, ?_, ?_⟩
      · rw [i1, List.append_assoc]
        rfl
      · rw [i2, List.length_cons]
        omega
      · rw [List.length_cons, List.length_cons]
        omega
      · rw [i4, List.countP_cons, List.countP_cons, List.countP_nil]
        omega

set_option maxRecDepth 1000000 in
/-- C21, as stated, fails: four articles refer to the same images.  Taken in
enqueue order, the article `A/p3` comes after the banner has been used three
times and gets the dog picture; taken first, it gets the banner.  The two
runs do not produce the same set of records. -/
theorem C21_order_changes_image_selection :
    demo_items_reordered.Perm demo_items ∧
    ((worker_fn demo_env "out".toList ⟨0, 0, 0, fun _ => 0, [], []⟩ demo_items).out.map
        (fun r => (r.path, r.image_path)))
      = [("A/p0".toList, "banner.png".toList), ("A/p1".toList, "banner.png".toList),
         ("A/p2".toList, "banner.png".toList), ("A/p3".toList, "photos/dog.png".toList)] ∧
    ((worker_fn demo_env "out".toList ⟨0, 0, 0, fun _ => 0, [], []⟩
        demo_items_reordered).out.map (fun r => (r.path, r.image_path)))
      = [("A/p3".toList, "banner.png".toList), ("A/p0".toList, "banner.png".toList),
         ("A/p1".toList, "banner.png".toList), ("A/p2".toList, "photos/dog.png".toList)] := by
  exact ⟨demo_items_perm, by decide, by decide⟩

/-- C21, amended. For every list of enqueued work items and every order in
which the workers of a run process them against the shared dedup counter,
the records produced are the same, as a collection up to order, in every
field but `image_path` (path, title, text, `thumb_dir`, `image_skipped` and
size), and the success, failure and image counters end equal.  Only which
of the renderable candidates of an article becomes its `image_path` depends
on the processing order. -/
theorem C21_records_up_to_image_path (env : Env) (dir : Str)
    (items items' : List ZimWorkItem) (h : items'.Perm items) :
    ((worker_fn env dir ⟨0, 0, 0, fun _ => 0, [], []⟩ items').out.map
        OutputRecord.but_image_path).Perm
      ((worker_fn env dir ⟨0, 0, 0, fun _ => 0, [], []⟩ items).out.map
        OutputRecord.but_image_path) ∧
    (worker_fn env dir ⟨0, 0, 0, fun _ => 0, [], []⟩ items').success
      = (worker_fn env dir ⟨0, 0, 0, fun _ => 0, [], []⟩ items).success ∧
    (worker_fn env dir ⟨0, 0, 0, fun _ => 0, [], []⟩ items').worker_failed
      = (worker_fn env dir ⟨0, 0, 0, fun _ => 0, [], []⟩ items).worker_failed ∧
    (worker_fn env dir ⟨0, 0, 0, fun _ => 0, [], []⟩ items').images_extracted
      = (worker_fn env dir ⟨0, 0, 0, fun _ => 0, [], []⟩ items).images_extracted := by
  have hinv : counted_are_resolved env ⟨0, 0, 0, fun _ => 0, [], []⟩ :=
    fun c hc => absurd hc (Nat.lt_irrefl 0)
  obtain ⟨a1, a2, a3, a4⟩ := worker_fn_rest env dir items _ hinv
  obtain ⟨b1, b2, b3, b4⟩ := worker_fn_rest env dir items' _ hinv
  have hp := h.filterMap (item_record env dir)
  have hl := hp.length_eq
  have hl' := h.length_eq
  have hcount := hp.countP_eq (fun r => decide (r.2.2.2.1 ≠ []))
  refine ⟨?_, ?_, ?_, ?_⟩
  · rw [a1, b1]
    exact List.Perm.append_left _ hp
  · rw [a2, b2, hl]
  · omega
  · rw [a4, b4, hcount]

theorem C21_records_up_to_image_path_witness :
    demo_items_reordered.Perm demo_items ∧
    (((worker_fn demo_env "out".toList ⟨0, 0, 0, fun _ => 0, [], []⟩
        demo_items_reordered).out.map OutputRecord.but_image_path).Perm
      ((worker_fn demo_env "out".toList ⟨0, 0, 0, fun _ => 0, [], []⟩
        demo_items).out.map OutputRecord.but_image_path) ∧
    (worker_fn demo_env "out".toList ⟨0, 0, 0, fun _ => 0, [], []⟩
        demo_items_reordered).success
      = (worker_fn demo_env "out".toList ⟨0, 0, 0, fun _ => 0, [], []⟩ demo_items).success ∧
    (worker_fn demo_env "out".toList ⟨0, 0, 0, fun _ => 0, [], []⟩
        demo_items_reordered).worker_failed
      = (worker_fn demo_env "out".toList ⟨0, 0, 0, fun _ => 0, [], []⟩
        demo_items).worker_failed ∧
    (worker_fn demo_env "out".toList ⟨0, 0, 0, fun _ => 0, [], []⟩
        demo_items_reordered).images_extracted
      = (worker_fn demo_env "out".toList ⟨0, 0, 0, fun _ => 0, [], []⟩
        demo_items).images_extracted) :=
  ⟨demo_items_perm, C21_records_up_to_image_path demo_env "out".toList demo_items
    demo_items_reordered demo_items_perm⟩

/-! ## The fit of the two renderers -/

set_option maxRecDepth 100000 in
/-- C22, failing inputs. The vector renderer computes the fit in `double`,
the raster renderer in `float`, and both truncate the rounded product, so
the two fits differ: for 1 x 1171 and the box 150 the raster fit is 1 x 150
and the vector fit 1 x 149; for 171 x 171 and the box 100 the raster fit is
99 x 99 and the vector fit 100 x 100. -/
theorem C22_svg_fit_differs_from_raster_fit :
    150 ∈ thumb_sizes ∧ 100 ∈ thumb_sizes ∧
    ¬ (Flt.le (Flt.ofNat 53 1) ⟨64, 0⟩ ∧ Flt.le (Flt.ofNat 53 1171) ⟨64, 0⟩) ∧
    ¬ (Flt.le (Flt.ofNat 53 171) ⟨64, 0⟩ ∧ Flt.le (Flt.ofNat 53 171) ⟨64, 0⟩) ∧
    generate_thumbnails_fit 1 1171 150 = (1, 150) ∧
    generate_svg_thumbnails_fit (Flt.ofNat 53 1) (Flt.ofNat 53 1171) 150 = (1, 149) ∧
    generate_thumbnails_fit 171 171 100 = (99, 99) ∧
    generate_svg_thumbnails_fit (Flt.ofNat 53 171) (Flt.ofNat 53 171) 100 = (100, 100) := by
  decide

/-- C25, failing input. A 29 x 290 source fitted to the box 150 comes out as
14 x 150, where 29 * 150 / 290 is exactly 15: the difference of the cross
products is 290, the longer side itself, not less. -/
theorem C25_fit_aspect_off_by_a_pixel :
    (29 > 150 ∨ 290 > 150) ∧
    generate_thumbnails_fit 29 290 150 = (14, 150) ∧
    ¬ ((((generate_thumbnails_fit 29 290 150).1 : ℤ) * 290
        - ((generate_thumbnails_fit 29 290 150).2 : ℤ) * 29).natAbs < max 29 290) := by
  decide

/-- C27, failing input. An intrinsic size of 100 x 0.5 is accepted (its
width exceeds 64) and fits the box 150 as it is, so the fitted size is the
truncated intrinsic size, 100 x 0: the branch that does not scale has no
lower bound of 1. -/
theorem C27_svg_fit_zero_height :
    150 ∈ thumb_sizes ∧
    0 < Flt.toRat ⟨100, 0⟩ ∧ 0 < Flt.toRat ⟨1, -1⟩ ∧ Flt.toRat ⟨1, -1⟩ = 1 / 2 ∧
    ¬ (Flt.le ⟨100, 0⟩ ⟨64, 0⟩ ∧ Flt.le ⟨1, -1⟩ ⟨64, 0⟩) ∧
    generate_svg_thumbnails_fit ⟨100, 0⟩ ⟨1, -1⟩ 150 = (100, 0) := by
  refine ⟨by decide, ?_, ?_, ?_, by decide, by decide⟩
  · simp [Flt.toRat]
  · simp [Flt.toRat]
  · simp [Flt.toRat]

/-! ## Compositing over white -/

/-- C26. For every channel value `src` and alpha `a` in 0..255 the byte the
raster renderer stores is `(src * a + 255 * (255 - a)) / 255` without
wrap-around, lies between `src` and 255, is `src` when `a = 255` and 255
when `a = 0`; a gray+alpha pixel becomes three channels all equal to that
blend of the gray value, and an RGBA pixel the blends of its channels. -/
theorem C26_composite_over_white (src a : ℕ) (hs : src ≤ 255) (ha : a ≤ 255) :
    composite_over_white src a = (src * a + 255 * (255 - a)) / 255 ∧
    src ≤ composite_over_white src a ∧ composite_over_white src a ≤ 255 ∧
    composite_over_white src 255 = src ∧ composite_over_white src 0 = 255 ∧
    to_rgb_pixel 2 [src, a] = [composite_over_white src a, composite_over_white src a,
      composite_over_white src a] ∧
    ∀ g b, to_rgb_pixel 4 [src, g, b, a] = [composite_over_white src a,
      composite_over_white g a, composite_over_white b a] := by
  have hup : (src * a + 255 * (255 - a)) / 255 ≤ 255 := by
    have h1 : src * a ≤ 255 * a := Nat.mul_le_mul_right a hs
    have h2 : src * a + 255 * (255 - a) ≤ 255 * 255 := by
      have : 255 * a + 255 * (255 - a) = 255 * 255 := by
        rw [← Nat.mul_add]
        congr 1
        omega
      omega
    calc (src * a + 255 * (255 - a)) / 255 ≤ 255 * 255 / 255 := Nat.div_le_div_right h2
      _ = 255 := by norm_num
  have hlow : src ≤ (src * a + 255 * (255 - a)) / 255 := by
    rw [Nat.le_div_iff_mul_le (by norm_num)]
    have h1 : src * (255 - a) ≤ 255 * (255 - a) := Nat.mul_le_mul_right _ hs
    have : src * a + src * (255 - a) = src * 255 := by
      rw [← Nat.mul_add]
      congr 1
      omega
    omega
  have heq : composite_over_white src a = (src * a + 255 * (255 - a)) / 255 := by
    unfold composite_over_white
    exact Nat.mod_eq_of_lt (by omega)
  refine ⟨heq, ?_, ?_, ?_, ?_, rfl, fun g b => rfl⟩
  · rw [heq]
    exact hlow
  · rw [heq]
    exact hup
  · unfold composite_over_white
    simp only [Nat.sub_self, Nat.mul_zero, Nat.add_zero]
    rw [Nat.mul_div_cancel _ (by norm_num)]
    exact Nat.mod_eq_of_lt (by omega)
  · unfold composite_over_white
    simp

theorem C26_composite_over_white_witness :
    composite_over_white 100 51 = (100 * 51 + 255 * (255 - 51)) / 255 ∧
    100 ≤ composite_over_white 100 51 ∧ composite_over_white 100 51 ≤ 255 ∧
    composite_over_white 100 255 = 100 ∧ composite_over_white 100 0 = 255 ∧
    to_rgb_pixel 2 [100, 51] = [composite_over_white 100 51, composite_over_white 100 51,
      composite_over_white 100 51] ∧
    ∀ g b, to_rgb_pixel 4 [100, g, b, 51] = [composite_over_white 100 51,
      composite_over_white g 51, composite_over_white b 51] :=
  C26_composite_over_white 100 51 (by decide) (by decide)

/-! ## Candidate normalisation -/

theorem normalize_candidate_eq_dropWhile (s : Str) :
    normalize_candidate s = s.dropWhile (fun c => decide (c = '.') || decide (c = '/')) := by
  induction s with
  | nil => rfl
  | cons c cs ih =>
    unfold normalize_candidate
    by_cases h : c = '.' ∨ c = '/'
    · rw [if_pos h, ih]
      have : (decide (c = '.') || decide (c = '/')) = true := by simpa using h
      simp only [List.dropWhile_cons, this, if_true]
    · rw [if_neg h]
      have : (decide (c = '.') || decide (c = '/')) = false := by simpa using h
      simp only [List.dropWhile_cons, this]
      rfl

/-- C24. Normalising a candidate removes exactly its longest prefix made of
dots and slashes: the input is a run of dots and slashes followed by the
result, the result is empty or starts with another character, and
normalising the result again changes nothing. -/
theorem C24_normalize_candidate (s : Str) :
    normalize_candidate s = s.dropWhile (fun c => decide (c = '.') || decide (c = '/')) ∧
    (∃ p, s = p ++ normalize_candidate s ∧ ∀ c ∈ p, c = '.' ∨ c = '/') ∧
    normalize_candidate s <:+ s ∧
    (∀ c ∈ (normalize_candidate s).head?, c ≠ '.' ∧ c ≠ '/') ∧
    normalize_candidate (normalize_candidate s) = normalize_candidate s := by
  have hd := normalize_candidate_eq_dropWhile s
  have hsplit : s = s.takeWhile (fun c => decide (c = '.') || decide (c = '/'))
      ++ normalize_candidate s := by
    rw [hd, List.takeWhile_append_dropWhile]
  have hhead : ∀ c ∈ (normalize_candidate s).head?, c ≠ '.' ∧ c ≠ '/' := by
    intro c hc
    rw [hd] at hc
    have := List.head?_dropWhile_not (fun c => decide (c = '.') || decide (c = '/')) s
    rw [Option.mem_def] at hc
    rw [hc] at this
    simpa using this
  refine ⟨hd, ⟨_, hsplit, ?_⟩, ⟨_, hsplit.symm⟩, hhead, ?_⟩
  · intro c hc
    have := List.mem_takeWhile_imp hc
    simpa using this
  · cases hn : normalize_candidate s with
    | nil => rfl
    | cons c cs =>
      rw [hn] at hhead
      have := hhead c rfl
      unfold normalize_candidate
      rw [if_neg (by rintro (h | h); exact this.1 h; exact this.2 h)]

/-! ## Image references in document order -/

theorem GumboNode.count_pos (n : GumboNode) : 0 < GumboNode.count n := by
  cases n <;> simp [GumboNode.count]

theorem GumboNode.countList_append (a b : List GumboNode) :
    GumboNode.countList (a ++ b) = GumboNode.countList a + GumboNode.countList b := by
  induction a with
  | nil => simp [GumboNode.countList]
  | cons n ns ih =>
    simp only [List.cons_append, GumboNode.countList, List.append_eq, ih]
    omega

theorem spec_img_srcs_list_append (a b : List GumboNode) :
    spec_img_srcs_list (a ++ b) = spec_img_srcs_list a ++ spec_img_srcs_list b := by
  induction a with
  | nil => simp [spec_img_srcs_list]
  | cons n ns ih => simp only [List.cons_append, spec_img_srcs_list, List.append_eq, ih, List.append_assoc]

/-- The loop of `gumbo_find_img_srcs`, given as many iterations as the stack
holds nodes, extends the results by the references of the stack in document
order, up to the maximum. -/
theorem find_img_loop_spec (max_results : ℕ) :
    ∀ (fuel : ℕ) (stack : List GumboNode) (results : List Str),
      GumboNode.countList stack ≤ fuel → results.length ≤ max_results →
      find_img_loop max_results fuel stack results
        = (results ++ spec_img_srcs_list stack).take max_results := by
  intro fuel
  induction fuel with
  | zero =>
    intro stack results hfuel hlen
    cases stack with
    | nil =>
      simp only [find_img_loop, spec_img_srcs_list, List.append_nil]
      exact (List.take_of_length_le hlen).symm
    | cons n ns =>
      have := GumboNode.count_pos n
      simp only [GumboNode.countList] at hfuel
      omega
  | succ fuel ih =>
    intro stack results hfuel hlen
    unfold find_img_loop
    by_cases hlt : results.length < max_results
    · rw [if_pos hlt]
      cases stack with
      | nil =>
        simp only [spec_img_srcs_list, List.append_nil]
        exact (List.take_of_length_le hlen).symm
      | cons n rest =>
        cases n with
        | element tag attributes children =>
          simp only [GumboNode.countList, GumboNode.count] at hfuel
          simp only []
          rw [ih]
          · rw [spec_img_srcs_list_append]
            simp only [spec_img_srcs_list, spec_img_srcs]
            congr 1
            split_ifs with htag
            · cases gumbo_get_attribute attributes "src".toList with
              | none => simp
              | some v =>
                simp only []
                split_ifs <;> simp
            · simp
          · rw [GumboNode.countList_append]
            omega
          · split_ifs with htag
            · cases gumbo_get_attribute attributes "src".toList with
              | none => exact hlen
              | some v =>
                simp only []
                split_ifs
                · simp only [List.length_append, List.length_singleton]
                  omega
                · exact hlen
            · exact hlen
        | text t =>
          simp only [GumboNode.countList, GumboNode.count] at hfuel
          simp only []
          rw [ih rest results (by omega) hlen]
          simp [spec_img_srcs_list, spec_img_srcs]
        | whitespace t =>
          simp only [GumboNode.countList, GumboNode.count] at hfuel
          simp only []
          rw [ih rest results (by omega) hlen]
          simp [spec_img_srcs_list, spec_img_srcs]
        | other =>
          simp only [GumboNode.countList, GumboNode.count] at hfuel
          simp only []
          rw [ih rest results (by omega) hlen]
          simp [spec_img_srcs_list, spec_img_srcs]
    · rw [if_neg hlt]
      have : results.length = max_results := by omega
      rw [List.take_append_of_le_length (by omega), List.take_of_length_le (by omega)]

/-- C23. For every parsed document tree, `gumbo_find_img_srcs` with
`max_results = 5` returns the first min(5, n) non-empty `src` values of the
`img` elements in document order, n being their number; and the loop has
come to its end within as many iterations as the tree has nodes: more
iterations change nothing. -/
theorem C23_img_srcs_document_order (env : Env) (html_content : Str) (root : GumboNode)
    (h : env.gumbo_parse html_content = some root) :
    gumbo_find_img_srcs env html_content 5 = (spec_img_srcs root).take 5 ∧
    (gumbo_find_img_srcs env html_content 5).length = min 5 (spec_img_srcs root).length ∧
    ∀ fuel, GumboNode.count root ≤ fuel →
      find_img_loop 5 fuel [root] [] = gumbo_find_img_srcs env html_content 5 := by
  have hloop : ∀ fuel, GumboNode.count root ≤ fuel →
      find_img_loop 5 fuel [root] [] = (spec_img_srcs root).take 5 := by
    intro fuel hfuel
    rw [find_img_loop_spec 5 fuel [root] [] (by simpa [GumboNode.countList] using hfuel)
      (by simp)]
    simp [spec_img_srcs_list]
  have hres : gumbo_find_img_srcs env html_content 5 = (spec_img_srcs root).take 5 := by
    unfold gumbo_find_img_srcs
    rw [h]
    exact hloop _ le_rfl
  refine ⟨hres, ?_, fun fuel hfuel => ?_⟩
  · rw [hres, List.length_take]
  · rw [hres]
    exact hloop fuel hfuel

set_option maxRecDepth 100000 in
theorem C23_img_srcs_document_order_witness :
    demo_env.gumbo_parse "page".toList = some demo_root ∧
    (gumbo_find_img_srcs demo_env "page".toList 5 = (spec_img_srcs demo_root).take 5 ∧
    (gumbo_find_img_srcs demo_env "page".toList 5).length
      = min 5 (spec_img_srcs demo_root).length ∧
    ∀ fuel, GumboNode.count demo_root ≤ fuel →
      find_img_loop 5 fuel [demo_root] [] = gumbo_find_img_srcs demo_env "page".toList 5) :=
  ⟨rfl, C23_img_srcs_document_order demo_env "page".toList demo_root rfl⟩

/-! ## File names of extracted media -/

theorem dropWhile_append_all {α : Type} (p : α → Bool) (l1 l2 : List α)
    (h : ∀ x ∈ l1, p x = true) : (l1 ++ l2).dropWhile p = l2.dropWhile p := by
  induction l1 with
  | nil => rfl
  | cons x xs ih =>
    rw [List.cons_append, List.dropWhile_cons, if_pos (h x (List.mem_cons_self _ _))]
    exact ih (fun y hy => h y (List.mem_cons_of_mem _ hy))

theorem takeWhile_all {α : Type} (p : α → Bool) (l : List α)
    (h : ∀ x ∈ l, p x = true) : l.takeWhile p = l := by
  induction l with
  | nil => rfl
  | cons x xs ih =>
    rw [List.takeWhile_cons, if_pos (h x (List.mem_cons_self _ _)),
      ih (fun y hy => h y (List.mem_cons_of_mem _ hy))]

theorem after_last_slash_no_slash (s : Str) : '/' ∉ after_last_slash s := by
  unfold after_last_slash
  intro h
  rw [List.mem_reverse] at h
  have := List.mem_takeWhile_imp h
  simp at this

theorem after_last_slash_of_no_slash (s : Str) (h : '/' ∉ s) : after_last_slash s = s := by
  unfold after_last_slash
  rw [takeWhile_all, List.reverse_reverse]
  intro x hx
  rw [List.mem_reverse] at hx
  have : x ≠ '/' := fun hx' => h (hx' ▸ hx)
  simpa using this

theorem takeWhile_append_all {α : Type} (p : α → Bool) (l1 l2 : List α)
    (h : ∀ x ∈ l1, p x = true) : (l1 ++ l2).takeWhile p = l1 ++ l2.takeWhile p := by
  induction l1 with
  | nil => rfl
  | cons x xs ih =>
    rw [List.cons_append, List.takeWhile_cons, if_pos (h x (List.mem_cons_self _ _)),
      ih (fun y hy => h y (List.mem_cons_of_mem _ hy)), List.cons_append]

theorem reverse_no_slash (f : Str) (h : '/' ∉ f) :
    ∀ x ∈ f.reverse, (fun c : Char => decide (c ≠ '/')) x = true := by
  intro x hx
  rw [List.mem_reverse] at hx
  have : x ≠ '/' := fun hx' => h (hx' ▸ hx)
  simpa using this

/-- Appending a name without `/` leaves the directory of a path as it is. -/
theorem before_last_slash_append (x name : Str) (h : '/' ∉ name) :
    before_last_slash (x ++ name) = before_last_slash x := by
  unfold before_last_slash
  rw [List.reverse_append, dropWhile_append_all _ _ _ (reverse_no_slash name h)]

theorem before_last_slash_dir (out f : Str) (h : '/' ∉ f) :
    before_last_slash (out ++ '/' :: f) = out := by
  unfold before_last_slash
  rw [List.reverse_append, List.reverse_cons, List.append_assoc,
    dropWhile_append_all _ _ _ (reverse_no_slash f h)]
  simp

theorem after_last_slash_dir (out f : Str) (h : '/' ∉ f) :
    after_last_slash (out ++ '/' :: f) = f := by
  unfold after_last_slash
  rw [List.reverse_append, List.reverse_cons, List.append_assoc,
    takeWhile_append_all _ _ _ (reverse_no_slash f h)]
  simp

/-- C29. For every raw entry name `sanitize_filename` returns the empty
string or a name without `/` that is neither `.` nor `..`, and sanitising
its result again changes nothing.  So in the path `zip_extract_media` opens,
`output_dir + "/" + base_name + "_" + name`, the directory does not depend
on the entry name; when `base_name` has no `/` the directory is `output_dir`
and the file name is `base_name + "_" + name`. -/
theorem C29_sanitize_filename (raw_name : Str) :
    (sanitize_filename raw_name = [] ∨
      ('/' ∉ sanitize_filename raw_name ∧ sanitize_filename raw_name ≠ ".".toList ∧
        sanitize_filename raw_name ≠ "..".toList)) ∧
    sanitize_filename (sanitize_filename raw_name) = sanitize_filename raw_name ∧
    ∀ media_prefix base_name output_dir p,
      zip_output_path media_prefix base_name output_dir raw_name = some p →
      sanitize_filename raw_name ≠ [] ∧
      p = output_dir ++ "/".toList ++ base_name ++ "_".toList ++ sanitize_filename raw_name ∧
      before_last_slash p = before_last_slash (output_dir ++ "/".toList ++ base_name ++ "_".toList) ∧
      ('/' ∉ base_name → before_last_slash p = output_dir ∧
        after_last_slash p = base_name ++ "_".toList ++ sanitize_filename raw_name) := by
  have hcases : sanitize_filename raw_name = [] ∨
      (sanitize_filename raw_name = after_last_slash raw_name ∧
        after_last_slash raw_name ≠ [] ∧ after_last_slash raw_name ≠ ".".toList ∧
        after_last_slash raw_name ≠ "..".toList) := by
    unfold sanitize_filename
    simp only []
    split_ifs with h
    · exact Or.inl rfl
    · exact Or.inr ⟨rfl, fun h1 => h (Or.inl h1), fun h1 => h (Or.inr (Or.inl h1)),
        fun h1 => h (Or.inr (Or.inr h1))⟩
  have hno : '/' ∉ sanitize_filename raw_name := by
    rcases hcases with h | ⟨h, -⟩
    · rw [h]
      exact List.not_mem_nil _
    · rw [h]
      exact after_last_slash_no_slash raw_name
  refine ⟨?_, ?_, ?_⟩
  · rcases hcases with h | ⟨h, -, h2, h3⟩
    · exact Or.inl h
    · exact Or.inr ⟨hno, by rw [h]; exact h2, by rw [h]; exact h3⟩
  · rcases hcases with h | ⟨h, h1, h2, h3⟩
    · rw [h]
      rfl
    · have hid : after_last_slash (sanitize_filename raw_name) = sanitize_filename raw_name :=
        after_last_slash_of_no_slash _ hno
      rw [h] at hid
      rw [h]
      unfold sanitize_filename
      simp only []
      rw [hid, if_neg]
      rintro (h4 | h4 | h4)
      · exact h1 h4
      · exact h2 h4
      · exact h3 h4
  · intro media_prefix base_name output_dir p hp
    unfold zip_output_path at hp
    simp only [] at hp
    split_ifs at hp with hpre hempty
    simp only [Option.some.injEq] at hp
    subst hp
    refine ⟨hempty, rfl, before_last_slash_append _ _ hno, fun hbase => ?_⟩
    have hf : '/' ∉ base_name ++ "_".toList ++ sanitize_filename raw_name := by
      intro hmem
      rw [List.mem_append, List.mem_append] at hmem
      rcases hmem with (hmem | hmem) | hmem
      · exact hbase hmem
      · exact absurd hmem (by decide)
      · exact hno hmem
    have hshape : output_dir ++ "/".toList ++ base_name ++ "_".toList ++ sanitize_filename raw_name
        = output_dir ++ '/' :: (base_name ++ "_".toList ++ sanitize_filename raw_name) := by
      simp only [List.append_assoc]
      rfl
    rw [hshape]
    exact ⟨before_last_slash_dir _ _ hf, after_last_slash_dir _ _ hf⟩

theorem C29_sanitize_filename_witness :
    zip_output_path "word/media/".toList "doc".toList "out".toList
        "word/media/../../etc/x.png".toList = some "out/doc_x.png".toList ∧
    sanitize_filename "word/media/../../etc/x.png".toList ≠ [] ∧
    before_last_slash "out/doc_x.png".toList = "out".toList ∧
    after_last_slash "out/doc_x.png".toList
      = "doc".toList ++ "_".toList ++ sanitize_filename "word/media/../../etc/x.png".toList :=
  ⟨by decide,
   ((C29_sanitize_filename "word/media/../../etc/x.png".toList).2.2 "word/media/".toList
      "doc".toList "out".toList "out/doc_x.png".toList (by decide)).1,
   (((C29_sanitize_filename "word/media/../../etc/x.png".toList).2.2 "word/media/".toList
      "doc".toList "out".toList "out/doc_x.png".toList (by decide)).2.2.2 (by decide)).1,
   (((C29_sanitize_filename "word/media/../../etc/x.png".toList).2.2 "word/media/".toList
      "doc".toList "out".toList "out/doc_x.png".toList (by decide)).2.2.2 (by decide)).2⟩

/-! ## JSON strings -/

theorem json_unescape_simple (e ch : Char) (t : Str) (hu : e ≠ 'u')
    (h : decode_simple_escape e = some ch) :
    json_unescape ('\\' :: e :: t) = (json_unescape t).map (fun u => ch :: u) := by
  rw [json_unescape.eq_def]
  simp only [if_true, if_neg hu, h]

theorem json_unescape_u (a b x y ch : Char) (t : Str)
    (h : decode_hex4 [a, b, x, y] = some ch) :
    json_unescape ('\\' :: 'u' :: a :: b :: x :: y :: t)
      = (json_unescape t).map (fun u => ch :: u) := by
  rw [json_unescape.eq_def]
  simp only [if_true, h]

theorem json_unescape_plain (c : Char) (t : Str) (h1 : c ≠ '\\') (h2 : c ≠ '"')
    (h3 : ¬ c.toNat < 0x20) :
    json_unescape (c :: t) = (json_unescape t).map (fun u => c :: u) := by
  rw [json_unescape.eq_def]
  simp only []
  rw [if_neg h1, if_neg]
  rintro (h | h)
  · exact h2 h
  · exact h3 h

theorem decode_hex4_hex4 : ∀ n, n < 32 → decode_hex4 (hex4 n) = some (Char.ofNat n) := by
  decide

theorem hex_digit_ge : ∀ n, n < 16 → 0x20 ≤ (hex_digit n).toNat ∧ hex_digit n ≠ '"' ∧
    hex_digit n ≠ '\\' := by
  decide

theorem char_code_control (c : Char) (hb : c.toNat < 256) :
    (0 ≤ char_code c ∧ char_code c ≤ 0x1f) ↔ c.toNat < 0x20 := by
  unfold char_code
  split_ifs with h
  · constructor
    · intro hc
      omega
    · intro hc
      omega
  · constructor
    · intro hc
      omega
    · intro hc
      omega

/-- Undoing the escape of one byte gives the byte back. -/
theorem json_unescape_escape_char (c : Char) (hb : c.toNat < 256) (t : Str) :
    json_unescape (json_escape_char c ++ t) = (json_unescape t).map (fun u => c :: u) := by
  unfold json_escape_char
  split_ifs with h1 h2 h3 h4 h5 h6 h7 h8
  · subst h1
    exact json_unescape_simple _ _ t (by decide) rfl
  · subst h2
    exact json_unescape_simple _ _ t (by decide) rfl
  · subst h3
    exact json_unescape_simple _ _ t (by decide) rfl
  · subst h4
    exact json_unescape_simple _ _ t (by decide) rfl
  · subst h5
    exact json_unescape_simple _ _ t (by decide) rfl
  · subst h6
    exact json_unescape_simple _ _ t (by decide) rfl
  · subst h7
    exact json_unescape_simple _ _ t (by decide) rfl
  · have hlt : c.toNat < 0x20 := (char_code_control c hb).mp h8
    have hmod : c.toNat % 256 = c.toNat := Nat.mod_eq_of_lt hb
    have hdec := decode_hex4_hex4 c.toNat hlt
    rw [Char.ofNat_toNat] at hdec
    rw [hmod]
    exact json_unescape_u _ _ _ _ c t hdec
  · have hge : ¬ c.toNat < 0x20 := fun hlt => h8 ((char_code_control c hb).mpr hlt)
    exact json_unescape_plain c t h2 h1 hge

theorem json_unescape_json_escape (s : Str) (hb : ∀ c ∈ s, c.toNat < 256) :
    json_unescape (json_escape s) = some s := by
  induction s with
  | nil => rfl
  | cons c cs ih =>
    rw [json_escape, json_unescape_escape_char c (hb c (List.mem_cons_self _ _)),
      ih (fun d hd => hb d (List.mem_cons_of_mem _ hd))]
    rfl

theorem json_escape_char_ge (c d : Char) (hd : d ∈ json_escape_char c) : 0x20 ≤ d.toNat := by
  unfold json_escape_char at hd
  split_ifs at hd with h1 h2 h3 h4 h5 h6 h7 h8
  · simp only [List.mem_cons, List.mem_singleton, List.not_mem_nil, or_false] at hd
    rcases hd with rfl | rfl <;> decide
  · simp only [List.mem_cons, List.mem_singleton, List.not_mem_nil, or_false] at hd
    rcases hd with rfl | rfl <;> decide
  · simp only [List.mem_cons, List.mem_singleton, List.not_mem_nil, or_false] at hd
    rcases hd with rfl | rfl <;> decide
  · simp only [List.mem_cons, List.mem_singleton, List.not_mem_nil, or_false] at hd
    rcases hd with rfl | rfl <;> decide
  · simp only [List.mem_cons, List.mem_singleton, List.not_mem_nil, or_false] at hd
    rcases hd with rfl | rfl <;> decide
  · simp only [List.mem_cons, List.mem_singleton, List.not_mem_nil, or_false] at hd
    rcases hd with rfl | rfl <;> decide
  · simp only [List.mem_cons, List.mem_singleton, List.not_mem_nil, or_false] at hd
    rcases hd with rfl | rfl <;> decide
  · unfold hex4 at hd
    simp only [List.mem_cons, List.mem_singleton, List.not_mem_nil, or_false] at hd
    rcases hd with rfl | rfl | rfl | rfl | rfl | rfl
    · decide
    · decide
    · exact (hex_digit_ge _ (Nat.mod_lt _ (by norm_num))).1
    · exact (hex_digit_ge _ (Nat.mod_lt _ (by norm_num))).1
    · exact (hex_digit_ge _ (Nat.mod_lt _ (by norm_num))).1
    · exact (hex_digit_ge _ (Nat.mod_lt _ (by norm_num))).1
  · simp only [List.mem_singleton] at hd
    subst hd
    by_contra hlt
    apply h8
    unfold char_code
    rw [if_pos (by omega)]
    omega

theorem json_escape_append (a b : Str) : json_escape (a ++ b) = json_escape a ++ json_escape b := by
  induction a with
  | nil => rfl
  | cons c cs ih => rw [List.cons_append, json_escape, json_escape, ih, List.append_assoc]

theorem json_escape_char_high (c : Char) (h : 0x80 ≤ c.toNat) (hb : c.toNat < 256) :
    json_escape_char c = [c] := by
  have hne : ∀ d : Char, d.toNat < 0x80 → c ≠ d := by
    intro d hd hcd
    rw [hcd] at h
    omega
  unfold json_escape_char
  rw [if_neg (hne _ (by decide)), if_neg (hne _ (by decide)), if_neg (hne _ (by decide)),
    if_neg (hne _ (by decide)), if_neg (hne _ (by decide)), if_neg (hne _ (by decide)),
    if_neg (hne _ (by decide)), if_neg]
  intro hc
  have := (char_code_control c hb).mp hc
  omega

/-- C28. For every byte string `s`, `json_escape s` is a well-formed JSON
string body that decodes back to `s`: the strict decoder, which rejects a
bare double quote, a byte below 0x20 and a backslash that does not start one
of the escapes, accepts it and returns `s`; it holds no byte below 0x20; so
`json_escape` is injective, and a byte from 0x80 up is copied as it is. -/
theorem C28_json_escape_round_trip (s : Str) (hb : ∀ c ∈ s, c.toNat < 256) :
    json_unescape (json_escape s) = some s ∧
    (∀ d ∈ json_escape s, 0x20 ≤ d.toNat) ∧
    (∀ t : Str, (∀ c ∈ t, c.toNat < 256) → json_escape s = json_escape t → s = t) ∧
    (∀ (a b : Str) (c : Char), s = a ++ c :: b → 0x80 ≤ c.toNat →
      json_escape s = json_escape a ++ c :: json_escape b) := by
  refine ⟨json_unescape_json_escape s hb, ?_, ?_, ?_⟩
  · clear hb
    induction s with
    | nil =>
      intro d hd
      exact absurd hd (List.not_mem_nil d)
    | cons c cs ih =>
      intro d hd
      rw [json_escape, List.mem_append] at hd
      rcases hd with hd | hd
      · exact json_escape_char_ge c d hd
      · exact ih d hd
  · intro t ht heq
    have h1 := json_unescape_json_escape s hb
    have h2 := json_unescape_json_escape t ht
    rw [heq, h2] at h1
    exact (Option.some.inj h1).symm
  · intro a b c hs hc
    have hcb : c.toNat < 256 := hb c (by rw [hs]; simp)
    rw [hs, json_escape_append, json_escape, json_escape_char_high c hc hcb]
    rfl

set_option maxRecDepth 100000 in
theorem C28_json_escape_round_trip_witness :
    (∀ c ∈ "a\"b\\\n\x01\x7fé".toList, c.toNat < 256) ∧
    json_escape "a\"b\\\n\x01\x7fé".toList = "a\\\"b\\\\\\n\\u0001\x7fé".toList ∧
    json_unescape (json_escape "a\"b\\\n\x01\x7fé".toList) = some "a\"b\\\n\x01\x7fé".toList :=
  ⟨by decide, by decide,
    (C28_json_escape_round_trip "a\"b\\\n\x01\x7fé".toList (by decide)).1⟩

end SearchBox
